import Mathlib

/-!
Spraymaker: size accounting, resolution search, write cursor, pixel
conversion, border detection, bounding boxes, autocrop, the transparency
fix-up and the container header.

A shallow embedding of the texture encoding pipeline of Spraymaker
(`ImageHelper` in `imagehelper.cpp` and `imagehelper.h`, the format catalog of
`spraymakermodel.h`, the header of `vtf_defs.h`, and the header construction,
write cursor, mip and frame loops, autocrop and transparency fix-up of
`Spraymaker::saveSpray`), with the properties of the specification stated and
proved over it.

Conventions of the embedding: `uint` values are natural numbers, and every
operation that can wrap is followed by an explicit `% U32`; `x >> k` with a
constant count below 32 is `x >>> k` on naturals, with a variable count it is
`shr32 x k`, which takes the count modulo 32 as the compiled code does (C++
leaves shifts by 32 or more undefined); loops are recursive functions on the
number of passes made.
-/

namespace Spraymaker

/-- Modulus of 32-bit unsigned (`uint`) arithmetic. -/
abbrev U32 : Nat := 4294967296

/-- Embedding of `SpraymakerModel::ImageFormat` (spraymakermodel.h), in declaration order. -/
inductive ImageFormat where
  | INVALID
  | DXT1
  | DXT1A
  | DXT3
  | DXT5
  | A8
  | I8
  | P8
  | IA88
  | BGR565
  | BGR888
  | BGR888_BLUESCREEN
  | BGRA4444
  | BGRA5551
  | BGRA8888
  | BGRX5551
  | BGRX8888
  | RGB565
  | RGB888
  | RGB888_BLUESCREEN
  | RGBA8888
  | ABGR8888
  | ARGB8888
  | RGBA16161616
  | RGBA16161616F
  | UV88
  | UVLX8888
  | UVWQ8888
  | R32F
  | RGB323232F
  | RGBA32323232F
  deriving DecidableEq, Repr

open ImageFormat

/-- Embedding of `ImageHelper::isDxt`. -/
def isDxt : ImageFormat → Bool
  | DXT1 | DXT1A | DXT3 | DXT5 => true
  | _ => false

/-- Embedding of `ImageHelper::bytesPerBlock`. -/
def bytesPerBlock : ImageFormat → Nat
  | DXT1 | DXT1A => 8
  | DXT3 | DXT5 => 16
  | _ => 0

/-- Embedding of `ImageHelper::bytesPerPixel`. -/
def bytesPerPixel : ImageFormat → Nat
  | A8 | I8 | P8 => 1
  | BGR565 | BGRA4444 | BGRA5551 | BGRX5551 | IA88 | RGB565 | UV88 => 2
  | BGR888 | BGR888_BLUESCREEN | RGB888 | RGB888_BLUESCREEN => 3
  | ABGR8888 | ARGB8888 | BGRA8888 | BGRX8888 | RGBA8888 | UVLX8888 | UVWQ8888 => 4
  | RGBA16161616 | RGBA16161616F => 8
  | RGBA32323232F | RGB323232F | R32F => 16
  | _ => 0

/-- The C++ expression `x >> k` on a 32-bit operand with a variable count `k`.
C++ leaves the shift undefined for a count of 32 or more; the embedding follows
the compiled code, whose shift instruction takes the count modulo 32, so that
`x >> 32` is `x`. -/
def shr32 (x k : Nat) : Nat := x >>> (k % 32)

/-- The running `sum` of `ImageHelper::sizeOfDxtImage` after the loop body has
run for `mipmap = 0, ..., n-1`. -/
def sizeOfDxtLoop (width height bytesPerBlock : Nat) : Nat → Nat
  | 0 => 0
  | mipmap + 1 =>
    let sum := sizeOfDxtLoop width height bytesPerBlock mipmap
    let mipWidth := max 1 (shr32 width mipmap)
    let mipHeight := max 1 (shr32 height mipmap)
    let blocks := ((((mipWidth + 3) % U32) >>> 2) * (((mipHeight + 3) % U32) >>> 2)) % U32
    (sum + (blocks * bytesPerBlock) % U32) % U32

/-- Embedding of `ImageHelper::sizeOfDxtImage`. -/
def sizeOfDxtImage (width height mipmaps frames bytesPerBlock : Nat) : Nat :=
  (sizeOfDxtLoop width height bytesPerBlock mipmaps * frames) % U32

/-- The running `sum` of `ImageHelper::sizeOfImage` after the loop body has run
for `mipmap = 0, ..., n-1`. -/
def sizeOfImageLoop (width height bytesPerPixel : Nat) : Nat → Nat
  | 0 => 0
  | mipmap + 1 =>
    let sum := sizeOfImageLoop width height bytesPerPixel mipmap
    let mipWidth := max 1 (shr32 width mipmap)
    let mipHeight := max 1 (shr32 height mipmap)
    (sum + (((mipWidth * mipHeight) % U32) * bytesPerPixel) % U32) % U32

/-- Embedding of `ImageHelper::sizeOfImage`. -/
def sizeOfImage (width height mipmaps frames bytesPerPixel : Nat) : Nat :=
  (sizeOfImageLoop width height bytesPerPixel mipmaps * frames) % U32

/-- Embedding of `ImageHelper::getImageDataSize`. -/
def getImageDataSize (format : ImageFormat) (width height mipmaps frames : Nat) : Nat :=
  if isDxt format then
    sizeOfDxtImage width height mipmaps frames (bytesPerBlock format)
  else
    sizeOfImage width height mipmaps frames (bytesPerPixel format)

/-- The `while(res >>= 1 > 0) mipmaps++;` loop of `ImageHelper::getMaxMipmaps`.
The condition parses as `res >>= (1 > 0)`: it shifts `res` right by one and
continues while the shifted value is nonzero. The first argument bounds the
number of passes; every pass halves `res`, so a bound of `res` itself is never
reached before the loop leaves through its condition. -/
def getMaxMipmapsLoop : Nat → Nat → Nat → Nat
  | 0, _, mipmaps => mipmaps
  | fuel + 1, res, mipmaps =>
    let res := res >>> 1
    if res ≠ 0 then getMaxMipmapsLoop fuel res (mipmaps + 1) else mipmaps

/-- Embedding of `ImageHelper::getMaxMipmaps`. -/
def getMaxMipmaps (width height : Nat) : Nat :=
  let res := max width height
  getMaxMipmapsLoop res res 1

/-- State of `ImageHelper::getMaxResForTargetSize` when it returns: the two
reference parameters `width` and `height`, and (ghost) the values of `res` for
which the loop body ran, in order. -/
structure SearchResult where
  width : Nat
  height : Nat
  candidates : List Nat
  deriving DecidableEq, Repr

/-- The `for(uint res = step; res <= 65535;)` loop of
`ImageHelper::getMaxResForTargetSize`. The first argument bounds the number of
passes through the loop body: `none` means the bound was reached while the loop
condition still held. `step` is the clamped step. -/
def getMaxResLoop (format : ImageFormat) (frames size step : Nat)
    (square powerOfTwo varyMipmaps : Bool) :
    Nat → Nat → Nat → Nat → Nat → List Nat → Option SearchResult
  | 0, res, width, height, _, candidates =>
    if res ≤ 65535 then none else some ⟨width, height, candidates⟩
  | fuel + 1, res, width, height, mipmaps, candidates =>
    if res ≤ 65535 then
      let candidates := candidates ++ [res]
      let width := res
      let height := res
      let mipmaps := if varyMipmaps then getMaxMipmaps width height else mipmaps
      let checkSize := getImageDataSize format width height mipmaps frames
      if checkSize = size then
        some ⟨width, height, candidates⟩
      else if checkSize > size then
        let height := if powerOfTwo then height >>> 1 else (height + U32 - step) % U32
        let mipmaps := if varyMipmaps then getMaxMipmaps width height else mipmaps
        let checkSize := getImageDataSize format width height mipmaps frames
        let width := if checkSize > size || square then height else width
        some ⟨width, height, candidates⟩
      else
        let res := if powerOfTwo then (res <<< 1) % U32 else (res + step) % U32
        getMaxResLoop format frames size step square powerOfTwo varyMipmaps
          fuel res width height mipmaps candidates
    else
      some ⟨width, height, candidates⟩

/-- Embedding of `ImageHelper::getMaxResForTargetSize` with the ghost list of evaluated
candidates, run with a bound of 65535 passes through the loop body. -/
def getMaxResForTargetSizeRun (format : ImageFormat) (mipmaps frames size step : Nat)
    (square powerOfTwo : Bool) : Option SearchResult :=
  let step := max 1 step
  let varyMipmaps := decide (mipmaps = 0)
  getMaxResLoop format frames size step square powerOfTwo varyMipmaps 65535 step 0 0 mipmaps []

/-- Embedding of `ImageHelper::getMaxResForTargetSize`: the values left in the reference
parameters `(width, height)`. -/
def getMaxResForTargetSize (format : ImageFormat) (mipmaps frames size step : Nat)
    (square powerOfTwo : Bool) : Option (Nat × Nat) :=
  (getMaxResForTargetSizeRun format mipmaps frames size step square powerOfTwo).map
    fun r => (r.width, r.height)

/-- Byte sizes of the fields of `VTF_HEADER_71` (vtf_defs.h), in declaration
order; the struct is declared under `#pragma pack(push,1)`. -/
def VTF_HEADER_71_fieldSizes : List Nat :=
  [4, 8, 4, 2, 2, 4, 2, 2, 4, 12, 4, 4, 4, 1, 4, 1, 1, 1]

/-- Embedding of `sizeof(VTF_HEADER_71)` under 1-byte packing. -/
def sizeofVtfHeader71 : Nat := VTF_HEADER_71_fieldSizes.sum

/-- Conversion of a `uint` to `int` (two's complement, 32 bits). -/
def toInt32 (n : Nat) : Int :=
  if n % U32 < 2147483648 then ((n % U32 : Nat) : Int) else ((n % U32 : Nat) : Int) - (U32 : Int)

/-- The `newVtfFileSizeNeeded` handler of spraymaker.cpp: the value passed to
`setVtfFileSize`, `int vtfSize = getImageDataSize(...); vtfSize += sizeof(VTF_HEADER_71)`
(the sum is formed in `size_t` and converted back to `int`). -/
def newVtfFileSize (format : ImageFormat) (width height mipmaps frames : Nat) : Int :=
  toInt32 (getImageDataSize format width height mipmaps frames + sizeofVtfHeader71)

/-- Modelled from the spec: the number of 8-byte elements in the element
vector the external block codec (crnlib) returns for one `mipWidth x mipHeight`
image, which holds `ceil(mipWidth/4) x ceil(mipHeight/4)` blocks of
`bytesPerBlock` bytes each. -/
def dxtElementCount (format : ImageFormat) (mipWidth mipHeight : Nat) : Nat :=
  ((mipWidth + 3) / 4) * ((mipHeight + 3) / 4) * (bytesPerBlock format / 8)

/-- The write cursor `pos` of `Spraymaker::saveSpray` (as an offset from the
start of the buffer) after the frame loop of one mip level has run for
`frame = 0, ..., n-1`: the block path advances it by 8 per codec element, the
pixel path by `count = img.width()*img.height()` after `convertPixelFormat`
(which receives `pos` by value). After `thumbnail_image` and `gravity` the
image is `mipWidth x mipHeight`. -/
def saveSprayFrameLoop (format : ImageFormat) (mipWidth mipHeight : Nat) : Nat → Nat → Nat
  | 0, pos => pos
  | frame + 1, pos =>
    let pos := saveSprayFrameLoop format mipWidth mipHeight frame pos
    if isDxt format then
      pos + 8 * dxtElementCount format mipWidth mipHeight
    else
      let count := mipWidth * mipHeight
      pos + count

/-- The mip loop `for(int mipmap = mipmaps - 1; mipmap >= 0; mipmap--)` of
`Spraymaker::saveSpray`: the first argument is `mipmap + 1`, the number of
levels still to be written. -/
def saveSprayMipLoop (format : ImageFormat) (width height frames : Nat) : Nat → Nat → Nat
  | 0, pos => pos
  | mipmap + 1, pos =>
    let mipWidth := max 1 (shr32 width mipmap)
    let mipHeight := max 1 (shr32 height mipmap)
    saveSprayMipLoop format width height frames mipmap
      (saveSprayFrameLoop format mipWidth mipHeight frames pos)

/-- Offset of the write cursor of `Spraymaker::saveSpray` after the last frame
of the last mip level; it starts right after the header. -/
def saveSprayCursor (format : ImageFormat) (width height mipmaps frames : Nat) : Nat :=
  saveSprayMipLoop format width height frames mipmaps sizeofVtfHeader71

/-- Modelled from the spec: `crnlib::pixel_format`, the channel layouts of the
external codec (its header is not part of the sources). The constructors are
the values the repository names; `PIXEL_FMT_OTHER` stands for every other
value of the enumeration. -/
inductive CrnPixelFormat where
  | PIXEL_FMT_INVALID
  | PIXEL_FMT_DXT1
  | PIXEL_FMT_DXT1A
  | PIXEL_FMT_DXT3
  | PIXEL_FMT_DXT5
  | PIXEL_FMT_R8G8B8
  | PIXEL_FMT_A8R8G8B8
  | PIXEL_FMT_A8
  | PIXEL_FMT_L8
  | PIXEL_FMT_A8L8
  | PIXEL_FMT_OTHER
  deriving DecidableEq, Repr

open CrnPixelFormat

/-- Embedding of `VTF_IMAGE_FORMAT` (vtf_defs.h), in declaration order. -/
inductive VTF_IMAGE_FORMAT where
  | NONE
  | RGBA8888
  | ABGR8888
  | RGB888
  | BGR888
  | RGB565
  | I8
  | IA88
  | P8
  | A8
  | RGB888_BLUESCREEN
  | BGR888_BLUESCREEN
  | ARGB8888
  | BGRA8888
  | DXT1
  | DXT3
  | DXT5
  | BGRX8888
  | BGR565
  | BGRX5551
  | BGRA4444
  | DXT1_ONEBITALPHA
  | BGRA5551
  | UV88
  | UVWQ8888
  | RGBA16161616F
  | RGBA16161616
  | UVLX8888
  | R32F
  | RGB323232F
  | RGBA32323232F
  deriving DecidableEq, Repr

/-- The `uint32_t` value of a `VTF_IMAGE_FORMAT` enumerator: `NONE = -1U`,
`RGBA8888 = 0`, then counting up in declaration order. -/
def VTF_IMAGE_FORMAT.code : VTF_IMAGE_FORMAT → Nat
  | .NONE => 4294967295
  | .RGBA8888 => 0
  | .ABGR8888 => 1
  | .RGB888 => 2
  | .BGR888 => 3
  | .RGB565 => 4
  | .I8 => 5
  | .IA88 => 6
  | .P8 => 7
  | .A8 => 8
  | .RGB888_BLUESCREEN => 9
  | .BGR888_BLUESCREEN => 10
  | .ARGB8888 => 11
  | .BGRA8888 => 12
  | .DXT1 => 13
  | .DXT3 => 14
  | .DXT5 => 15
  | .BGRX8888 => 16
  | .BGR565 => 17
  | .BGRX5551 => 18
  | .BGRA4444 => 19
  | .DXT1_ONEBITALPHA => 20
  | .BGRA5551 => 21
  | .UV88 => 22
  | .UVWQ8888 => 23
  | .RGBA16161616F => 24
  | .RGBA16161616 => 25
  | .UVLX8888 => 26
  | .R32F => 27
  | .RGB323232F => 28
  | .RGBA32323232F => 29

/-- Embedding of `SpraymakerModel::Formats` (spraymakermodel.h): the catalog entry of one
format, without its display names. -/
structure Formats where
  format : ImageFormat := INVALID
  crnFormat : CrnPixelFormat := PIXEL_FMT_INVALID
  vtfFormat : VTF_IMAGE_FORMAT := VTF_IMAGE_FORMAT.NONE
  isSimple : Bool := false
  hide : Bool := false
  deriving DecidableEq, Repr

/-- Embedding of `SpraymakerModel::EnumMapper`, in the order of the initialiser. -/
def EnumMapper : List Formats :=
  [ { format := DXT1, crnFormat := PIXEL_FMT_DXT1, vtfFormat := .DXT1 },
    { format := DXT1A, crnFormat := PIXEL_FMT_DXT1A, vtfFormat := .DXT1, isSimple := true },
    { format := DXT3, crnFormat := PIXEL_FMT_DXT3, vtfFormat := .DXT3 },
    { format := DXT5, crnFormat := PIXEL_FMT_DXT5, vtfFormat := .DXT5, isSimple := true },
    { format := RGB888, crnFormat := PIXEL_FMT_R8G8B8, vtfFormat := .RGB888 },
    { format := BGR888, crnFormat := PIXEL_FMT_R8G8B8, vtfFormat := .BGR888 },
    { format := BGR888_BLUESCREEN, crnFormat := PIXEL_FMT_A8R8G8B8, vtfFormat := .BGR888_BLUESCREEN, isSimple := true },
    { format := RGBA8888, crnFormat := PIXEL_FMT_A8R8G8B8, vtfFormat := .RGBA8888, isSimple := true },
    { format := BGRA8888, crnFormat := PIXEL_FMT_A8R8G8B8, vtfFormat := .BGRA8888 },
    { format := BGRX8888, crnFormat := PIXEL_FMT_A8R8G8B8, vtfFormat := .BGRX8888, hide := true },
    { format := A8, crnFormat := PIXEL_FMT_A8, vtfFormat := .A8 },
    { format := I8, crnFormat := PIXEL_FMT_L8, vtfFormat := .I8, isSimple := true },
    { format := P8, crnFormat := PIXEL_FMT_INVALID, vtfFormat := .P8, isSimple := false, hide := true },
    { format := IA88, crnFormat := PIXEL_FMT_A8L8, vtfFormat := .IA88, isSimple := true },
    { format := RGB888_BLUESCREEN, crnFormat := PIXEL_FMT_R8G8B8, vtfFormat := .RGB888 },
    { format := RGB565, crnFormat := PIXEL_FMT_R8G8B8, vtfFormat := .RGB565 },
    { format := BGR565, crnFormat := PIXEL_FMT_R8G8B8, vtfFormat := .BGR565 },
    { format := BGRA4444, crnFormat := PIXEL_FMT_A8R8G8B8, vtfFormat := .BGRA4444 },
    { format := BGRA5551, crnFormat := PIXEL_FMT_A8R8G8B8, vtfFormat := .BGRA5551 },
    { format := BGRX5551, crnFormat := PIXEL_FMT_A8R8G8B8, vtfFormat := .BGRX5551, hide := true },
    { format := UV88, crnFormat := PIXEL_FMT_R8G8B8, vtfFormat := .UV88, hide := true },
    { format := UVWQ8888, crnFormat := PIXEL_FMT_A8R8G8B8, vtfFormat := .UVWQ8888, hide := true },
    { format := UVLX8888, crnFormat := PIXEL_FMT_A8R8G8B8, vtfFormat := .UVLX8888, hide := true },
    { format := RGBA16161616, crnFormat := PIXEL_FMT_A8R8G8B8, vtfFormat := .RGBA16161616, hide := true },
    { format := RGBA16161616F, crnFormat := PIXEL_FMT_A8R8G8B8, vtfFormat := .RGBA16161616F, hide := true },
    { format := R32F, crnFormat := PIXEL_FMT_A8R8G8B8, vtfFormat := .R32F, hide := true },
    { format := RGB323232F, crnFormat := PIXEL_FMT_A8R8G8B8, vtfFormat := .RGB323232F, hide := true },
    { format := RGBA32323232F, crnFormat := PIXEL_FMT_A8R8G8B8, vtfFormat := .RGBA32323232F, hide := true },
    { format := ABGR8888, crnFormat := PIXEL_FMT_A8R8G8B8, vtfFormat := .ABGR8888, hide := true },
    { format := ARGB8888, crnFormat := PIXEL_FMT_A8R8G8B8, vtfFormat := .ARGB8888, hide := true } ]

/-- The search loop of `SpraymakerModel::mapFormat` over the remaining entries. -/
def mapFormatLoop (imageFormat : ImageFormat) : List Formats → Formats
  | [] => {}
  | format :: rest =>
    if format.format = imageFormat then format else mapFormatLoop imageFormat rest

/-- Embedding of `SpraymakerModel::mapFormat` for the selected format `imageFormat`. -/
def mapFormat (imageFormat : ImageFormat) : Formats :=
  mapFormatLoop imageFormat EnumMapper

/-- Embedding of `crnlib::color_quad_u8`: one source pixel, four bytes. -/
structure ColorQuad where
  r : Nat
  g : Nat
  b : Nat
  a : Nat
  deriving DecidableEq, Repr

/-- The floating-point conversions of `ImageHelper::convertPixelFormat`, taken
as parameters: each field is the byte the named C++ expression stores for a
channel value `c`. -/
structure FloatOps where
  /-- Byte stored by `*pos = 0x7f * ((double)c / 255.0)`. -/
  scale7f : Nat → Nat
  /-- Byte stored by `*pos = 0xffff * ((double)c / 255.0)`. -/
  scale16lo : Nat → Nat
  /-- Byte stored by `*pos = ((uint)(0xffff * ((double)c / 255.0))) >> 8`. -/
  scale16hi : Nat → Nat
  /-- Byte `i` of the object representation of
  `(float)(0xffffffff * ((double)c / 255.0))`. -/
  floatByte : Nat → Nat → Nat

/-- A pixel loop `for(int i = 0; i < count; i++) { ...; dataPtr++; }` of
`ImageHelper::convertPixelFormat`: the bytes stored through `pos`, in order,
where `body` gives the bytes one pass stores for the pixel at `dataPtr`. -/
def pixelLoop (body : ColorQuad → List Nat) : Nat → List ColorQuad → List Nat
  | 0, _ => []
  | _ + 1, [] => []
  | n + 1, p :: dataPtr => body p ++ pixelLoop body n dataPtr

/-- Embedding of `ImageHelper::convertPixelFormat`: the bytes written through `pos`, in
order, or the exception thrown for an unsupported source layout. `dataPtr` is
the source buffer, of which the first `count` pixels are read. -/
def convertPixelFormat (fp : FloatOps) (dataPtr : List ColorQuad) (count : Int)
    (srcFormat : CrnPixelFormat) (dstFormat : ImageFormat) (alphaThreshold : Int) :
    Except String (List Nat) :=
  let flags : Except String (Bool × Bool × Bool × Bool) :=
    match srcFormat with
    | PIXEL_FMT_A8R8G8B8 => .ok (true, true, true, true)
    | PIXEL_FMT_R8G8B8 => .ok (true, true, true, false)
    | PIXEL_FMT_A8L8 => .ok (true, false, false, true)
    | PIXEL_FMT_L8 => .ok (true, false, false, false)
    | PIXEL_FMT_A8 => .ok (false, false, false, true)
    | _ => .error "Unsupported crnlib pixel format. This should never happen."
  match flags with
  | .error e => .error e
  | .ok (doR, doG, doB, doA) =>
    let n := count.toNat
    if dstFormat = ABGR8888 then
      .ok (pixelLoop (fun p => [p.a, p.b, p.g, p.r]) n dataPtr)
    else if dstFormat = BGR888 then
      .ok (pixelLoop (fun p => [p.b, p.g, p.r]) n dataPtr)
    else if dstFormat = BGR888_BLUESCREEN then
      .ok (pixelLoop (fun p =>
        let r := p.r
        let g := p.g
        let b := p.b
        let b := if r = 0 ∧ g = 0 ∧ b = 255 then 254 else b
        let below := decide ((p.a : Int) < alphaThreshold)
        let r := if below then 0 else r
        let g := if below then 0 else g
        let b := if below then 255 else b
        [b, g, r]) n dataPtr)
    else if dstFormat = RGB888_BLUESCREEN then
      .ok (pixelLoop (fun p =>
        let r := p.r
        let g := p.g
        let b := p.b
        let b := if r = 0 ∧ g = 0 ∧ b = 255 then 254 else b
        let below := decide ((p.a : Int) < alphaThreshold)
        let r := if below then 0 else r
        let g := if below then 0 else g
        let b := if below then 255 else b
        [r, g, b]) n dataPtr)
    else if dstFormat = BGRA8888 ∨ dstFormat = BGRX8888 then
      .ok (pixelLoop (fun p => [p.b, p.g, p.r, p.a]) n dataPtr)
    else if dstFormat = BGRA4444 then
      .ok (pixelLoop (fun p =>
        let bgra4444 := ((((p.r &&& 0xF0) <<< 4) ||| ((p.g &&& 0xF0) <<< 0))
                        ||| (((p.b &&& 0xF0) >>> 4) ||| ((p.a &&& 0xF0) <<< 8))) % 65536
        [bgra4444 % 256, (bgra4444 >>> 8) % 256]) n dataPtr)
    else if dstFormat = BGRA5551 ∨ dstFormat = BGRX5551 then
      .ok (pixelLoop (fun p =>
        let bgra5551 := ((((p.r &&& 0xF8) <<< 7) ||| ((p.g &&& 0xF8) <<< 2))
                        ||| (((p.b &&& 0xF8) >>> 3) ||| ((p.a &&& 0x80) <<< 8))) % 65536
        [bgra5551 % 256, (bgra5551 >>> 8) % 256]) n dataPtr)
    else if dstFormat = BGR565 then
      .ok (pixelLoop (fun p =>
        let bgr565 := ((((p.r &&& 0xF8) <<< 8) ||| ((p.g &&& 0xFC) <<< 3))
                      ||| ((p.b &&& 0xF8) >>> 3)) % 65536
        [bgr565 % 256, (bgr565 >>> 8) % 256]) n dataPtr)
    else if dstFormat = RGB565 then
      .ok (pixelLoop (fun p =>
        let rgb565 := ((((p.r &&& 0xF8) >>> 3) ||| ((p.g &&& 0xFC) <<< 3))
                      ||| ((p.b &&& 0xF8) <<< 8)) % 65536
        [rgb565 % 256, (rgb565 >>> 8) % 256]) n dataPtr)
    else if dstFormat = UV88 then
      .ok (pixelLoop (fun p => [fp.scale7f p.r, fp.scale7f p.g]) n dataPtr)
    else if dstFormat = UVWQ8888 ∨ dstFormat = UVLX8888 then
      .ok (pixelLoop (fun p =>
        [fp.scale7f p.r, fp.scale7f p.g, fp.scale7f p.b, fp.scale7f p.a]) n dataPtr)
    else if dstFormat = RGBA16161616 then
      .ok (pixelLoop (fun p =>
        [fp.scale16lo p.r, fp.scale16hi p.r, fp.scale16lo p.g, fp.scale16hi p.g,
         fp.scale16lo p.b, fp.scale16hi p.b, fp.scale16lo p.a, fp.scale16hi p.a]) n dataPtr)
    else if dstFormat = RGBA32323232F then
      .ok (pixelLoop (fun p =>
        (List.range 4).map (fp.floatByte p.r) ++ (List.range 4).map (fp.floatByte p.g)
          ++ (List.range 4).map (fp.floatByte p.b) ++ (List.range 4).map (fp.floatByte p.a))
        n dataPtr)
    else if dstFormat = RGB888 ∨ dstFormat = RGBA8888 ∨ dstFormat = A8
        ∨ dstFormat = I8 ∨ dstFormat = IA88 then
      .ok (pixelLoop (fun p =>
        (if doR then [p.r] else []) ++ (if doG then [p.g] else [])
          ++ (if doB then [p.b] else []) ++ (if doA then [p.a] else [])) n dataPtr)
    else
      .ok []

/-- The number of binary digits of `v`, for `v` below `2^fuel`. -/
def bitLength : Nat → Nat → Nat
  | 0, _ => 0
  | fuel + 1, v => if v = 0 then 0 else 1 + bitLength fuel (v / 2)

/-- The IEEE-754 single-precision encoding (sign 0, 8 exponent bits, 23
fraction bits) of the natural number `v` rounded to the nearest float, ties to
even: the bits of the object `(float)v`, for `v` below `2^128`. -/
def float32Bits (v : Nat) : Nat :=
  if v = 0 then 0
  else
    let e := bitLength 128 v - 1
    if e ≤ 23 then (e + 127) * 2 ^ 23 + (v * 2 ^ (23 - e) - 2 ^ 23)
    else
      let m := v / 2 ^ (e - 23)
      let r := v % 2 ^ (e - 23)
      let m := if 2 * r > 2 ^ (e - 23) ∨ (2 * r = 2 ^ (e - 23) ∧ m % 2 = 1) then m + 1 else m
      if m = 2 ^ 24 then (e + 1 + 127) * 2 ^ 23 else (e + 127) * 2 ^ 23 + (m - 2 ^ 23)

/-- The floating-point parameters for channel bytes `c` in 0..255, computed in
integer arithmetic, used to evaluate `convertPixelFormat` on concrete pixels.
For such `c` the double-precision products `0x7f * (c / 255.0)` and
`0xffff * (c / 255.0)` truncate to `127 * c / 255` and `65535 * c / 255`, of
which the low byte is stored, and `0xffffffff * (c / 255.0)` converts to the
float nearest to `4294967295 * c / 255 = 16843009 * c`, whose bytes are stored
low byte first (the object representation on a little-endian machine). -/
def integerFloatOps : FloatOps where
  scale7f c := (127 * c / 255) % 256
  scale16lo c := (65535 * c / 255) % 256
  scale16hi c := ((65535 * c / 255) >>> 8) % 256
  floatByte c i := (float32Bits (4294967295 * c / 255) >>> (8 * i)) % 256

/-- Exact (unbounded) size of a pixel format image, in the words of the size
contract: `frames x sum over m in [0, mipmaps) of max(1, width>>m) x
max(1, height>>m) x bytesPerPixel`. -/
def exactPixelSize (width height mipmaps frames bytesPerPixel : Nat) : Nat :=
  frames * ∑ m in Finset.range mipmaps,
    max 1 (width >>> m) * max 1 (height >>> m) * bytesPerPixel

/-- Ceiling of `x/4` on naturals, written `ceil(x/4)` in the size contract. -/
def ceilDiv4 (x : Nat) : Nat := (x + 3) / 4

/-- Exact (unbounded) size of a block-compressed image, in the words of the
size contract: `frames x sum over m in [0, mipmaps) of ceil(max(1, width>>m)/4)
x ceil(max(1, height>>m)/4) x bytesPerBlock`. -/
def exactDxtSize (width height mipmaps frames bytesPerBlock : Nat) : Nat :=
  frames * ∑ m in Finset.range mipmaps,
    ceilDiv4 (max 1 (width >>> m)) * ceilDiv4 (max 1 (height >>> m)) * bytesPerBlock

/-- Exact (unbounded) data size of an image: the block formula for block
formats, the pixel formula otherwise. -/
def exactDataSize (format : ImageFormat) (width height mipmaps frames : Nat) : Nat :=
  if isDxt format then exactDxtSize width height mipmaps frames (bytesPerBlock format)
  else exactPixelSize width height mipmaps frames (bytesPerPixel format)

/-- The mipmap count `getMaxResForTargetSize` uses for a resolution: the given
count, or `getMaxMipmaps` of the resolution when the given count is 0. -/
def searchMipmaps (mipmaps width height : Nat) : Nat :=
  if mipmaps = 0 then getMaxMipmaps width height else mipmaps

/-- Embedding of `ImageHelper::hasOneBitAlpha`. -/
def hasOneBitAlpha : ImageFormat → Bool
  | DXT1A | BGR888_BLUESCREEN | RGB888_BLUESCREEN | BGRA5551 | P8 => true
  | _ => false

/-- Embedding of `ImageHelper::hasMultiBitAlpha`. -/
def hasMultiBitAlpha : ImageFormat → Bool
  | DXT3 | DXT5 | BGRA4444 | RGBA8888 | IA88 | BGRA8888 | ARGB8888 | ABGR8888 | A8
  | UVWQ8888 | RGBA16161616 | RGBA16161616F | RGBA32323232F => true
  | _ => false

/-- Embedding of `ImageHelper::hasAlpha`. -/
def hasAlpha (format : ImageFormat) : Bool :=
  hasOneBitAlpha format || hasMultiBitAlpha format

/-- Embedding of `SpraymakerModel::TextureSampleMode` (spraymakermodel.h). -/
inductive TextureSampleMode where
  | INVALID
  | TRILINEAR
  | ANISOTROPIC
  | POINT_SAMPLE
  | NONE
  deriving DecidableEq, Repr

/-- Values of the `VTF_FLAGS` enumerators (vtf_defs.h) that `saveSpray` uses. -/
def VTF_FLAGS.NONE : Nat := 0x00000000

/-- Pixel art style; incompatible with mipmaps. -/
def VTF_FLAGS.POINTSAMPLE : Nat := 0x00000001

/-- Filtering between mipmap levels. -/
def VTF_FLAGS.TRILINEAR : Nat := 0x00000002

/-- Prevent tiling on sides. -/
def VTF_FLAGS.CLAMPS : Nat := 0x00000004

/-- Prevent tiling on top. -/
def VTF_FLAGS.CLAMPT : Nat := 0x00000008

/-- Improved filtering between mipmap levels. -/
def VTF_FLAGS.ANISOTROPIC : Nat := 0x00000010

/-- Show only the largest mipmap. -/
def VTF_FLAGS.NOMIP : Nat := 0x00000100

/-- Bypass graphics settings to show all mip levels. -/
def VTF_FLAGS.NOLOD : Nat := 0x00000200

/-- Show mipmaps under 32 pixels in size. -/
def VTF_FLAGS.ALL_MIPS : Nat := 0x00000400

/-- One-bit alpha. -/
def VTF_FLAGS.ONEBITALPHA : Nat := 0x00001000

/-- Greater than one-bit alpha. -/
def VTF_FLAGS.EIGHTBITALPHA : Nat := 0x00002000

/-- Prevent tiling on "U" for volumetric textures. -/
def VTF_FLAGS.CLAMPU : Nat := 0x02000000

/-- The `.flags` initialiser of the header in `Spraymaker::saveSpray`, for the
format, the mipmap count (an `int`) and the texture sample mode of the model. -/
def saveSprayFlags (format : ImageFormat) (mipmaps : Int) (mode : TextureSampleMode) : Nat :=
  VTF_FLAGS.CLAMPS ||| VTF_FLAGS.CLAMPT ||| VTF_FLAGS.CLAMPU ||| VTF_FLAGS.NOLOD
    ||| VTF_FLAGS.ALL_MIPS
    ||| (if mipmaps = 1 then VTF_FLAGS.NOMIP else VTF_FLAGS.NONE)
    ||| (if hasOneBitAlpha format then VTF_FLAGS.ONEBITALPHA else VTF_FLAGS.NONE)
    ||| (if hasMultiBitAlpha format then VTF_FLAGS.EIGHTBITALPHA else VTF_FLAGS.NONE)
    ||| (if mipmaps = 1 ∧ mode = TextureSampleMode.POINT_SAMPLE
          then VTF_FLAGS.POINTSAMPLE else VTF_FLAGS.NONE)
    ||| (if mode = TextureSampleMode.ANISOTROPIC then VTF_FLAGS.ANISOTROPIC else VTF_FLAGS.NONE)
    ||| (if mode = TextureSampleMode.TRILINEAR then VTF_FLAGS.TRILINEAR else VTF_FLAGS.NONE)

/-- Whether a flags word contains the bit (or any of the bits) of `flag`:
`(flags & flag) != 0`. -/
def hasFlag (flags flag : Nat) : Bool := (flags &&& flag) != 0

/-- Fields of `VTF_HEADER_71` (vtf_defs.h). -/
inductive HeaderField where
  | signature
  | version
  | headerSize
  | width
  | height
  | flags
  | frames
  | firstFrame
  | padding0
  | reflectivity
  | padding1
  | bumpmapScale
  | highResImageFormat
  | mipmapCount
  | lowResImageFormat
  | lowResImageWidth
  | lowResImageHeight
  | padding2
  deriving DecidableEq, Repr

/-- Fields of `VTF_HEADER_71` in declaration order. -/
def VTF_HEADER_71_fields : List HeaderField :=
  [.signature, .version, .headerSize, .width, .height, .flags, .frames, .firstFrame,
   .padding0, .reflectivity, .padding1, .bumpmapScale, .highResImageFormat, .mipmapCount,
   .lowResImageFormat, .lowResImageWidth, .lowResImageHeight, .padding2]

/-- Size in bytes of the declared type of a field of `VTF_HEADER_71`:
`char[4]`, `uint32_t[2]`, `uint32_t`, `uint16_t`, `uint16_t`, `VTF_FLAGS`
(`uint32_t`), `uint16_t`, `uint16_t`, `uint8_t[4]`, `float[3]`, `uint8_t[4]`,
`float`, `VTF_IMAGE_FORMAT` (`uint32_t`), `uint8_t`, `VTF_IMAGE_FORMAT`,
`uint8_t`, `uint8_t`, `uint8_t`. -/
def HeaderField.size : HeaderField → Nat
  | .signature => 4
  | .version => 2 * 4
  | .headerSize => 4
  | .width => 2
  | .height => 2
  | .flags => 4
  | .frames => 2
  | .firstFrame => 2
  | .padding0 => 4 * 1
  | .reflectivity => 3 * 4
  | .padding1 => 4 * 1
  | .bumpmapScale => 4
  | .highResImageFormat => 4
  | .mipmapCount => 1
  | .lowResImageFormat => 4
  | .lowResImageWidth => 1
  | .lowResImageHeight => 1
  | .padding2 => 1

/-- Offset of a field in a struct laid out with 1-byte packing
(`#pragma pack(push,1)`): the sizes of the fields declared before it, added up
over the remaining declaration list `fields`. -/
def offsetIn (field : HeaderField) : List HeaderField → Nat
  | [] => 0
  | f :: fields => if f = field then 0 else f.size + offsetIn field fields

/-- Offset of a field of `VTF_HEADER_71`. -/
def HeaderField.offset (field : HeaderField) : Nat :=
  offsetIn field VTF_HEADER_71_fields

/-- Embedding of `VTF_HEADER_71` (vtf_defs.h): the values of the fields. The
`float` fields hold the IEEE-754 single-precision bit pattern of their value. -/
structure VTF_HEADER_71 where
  signature : List Nat
  version : List Nat
  headerSize : Nat
  width : Nat
  height : Nat
  flags : Nat
  frames : Nat
  firstFrame : Nat
  padding0 : List Nat
  reflectivity : List Nat
  padding1 : List Nat
  bumpmapScale : Nat
  highResImageFormat : VTF_IMAGE_FORMAT
  mipmapCount : Nat
  lowResImageFormat : VTF_IMAGE_FORMAT
  lowResImageWidth : Nat
  lowResImageHeight : Nat
  padding2 : Nat
  deriving DecidableEq, Repr

/-- The header `Spraymaker::saveSpray` constructs at the start of the buffer,
from the `int` values of the model. `0x3F000000` is `0.5f` and `0x3F800000` is
`1.0f`. -/
def saveSprayHeader (format : ImageFormat) (width height mipmaps frames : Int)
    (mode : TextureSampleMode) : VTF_HEADER_71 where
  signature := ['V'.toNat, 'T'.toNat, 'F'.toNat, 0]
  version := [7, 1]
  headerSize := 64
  width := (width % 65536).toNat
  height := (height % 65536).toNat
  flags := saveSprayFlags format mipmaps mode
  frames := (frames % 65536).toNat
  firstFrame := 0
  padding0 := ['C'.toNat, 'M'.toNat, 'C'.toNat, '3'.toNat]
  reflectivity := [0x3F000000, 0x3F000000, 0x3F000000]
  padding1 := ['B'.toNat, 'F'.toNat, 'F'.toNat, '!'.toNat]
  bumpmapScale := 0x3F800000
  highResImageFormat := (mapFormat format).vtfFormat
  mipmapCount := (mipmaps % 256).toNat
  lowResImageFormat := VTF_IMAGE_FORMAT.NONE
  lowResImageWidth := 0
  lowResImageHeight := 0
  padding2 := 20

/-- Embedding of `ImageHelper::BoundingBox` (imagehelper.h); all fields are `uint`. -/
structure BoundingBox where
  left : Nat := 4294967295
  right : Nat := 0
  top : Nat := 4294967295
  bottom : Nat := 0
  width : Nat := 0
  height : Nat := 0
  deriving DecidableEq, Repr

/-- Embedding of `BoundingBox::add`, the body of `operator+=`. -/
def BoundingBox.add (self bb : BoundingBox) : BoundingBox where
  left := min self.left bb.left
  right := max self.right bb.right
  top := min self.top bb.top
  bottom := max self.bottom bb.bottom
  width := max self.width bb.width
  height := max self.height bb.height

/-- The accumulation `auto bb = ImageHelper::BoundingBox(); ... bb += ...` of
`Spraymaker::saveSpray` over the boxes of the frames, in frame order. -/
def accumulateBoxes (boxes : List BoundingBox) : BoundingBox :=
  boxes.foldl BoundingBox.add {}

/-- Embedding of `ImageHelper::PixelAlphaMode` (imagehelper.h). -/
inductive PixelAlphaMode where
  | INVALID
  | NONE
  | THRESHOLD
  | FULL
  deriving DecidableEq, Repr

/-- The lambda `getEffectivePixel` of `ImageHelper::getImageBorders`. The
buffer `ptr` maps a byte offset to the byte stored there; the offset
`x*4 + y*width*4` is formed in `uint` arithmetic. The parameter
`alphaThreshold` of the lambda is an `int`. -/
def getEffectivePixel (ptr : Nat → Nat) (x y width : Nat) (pixelAlphaMode : PixelAlphaMode)
    (alphaThreshold : Int) : Nat :=
  let offset := (x * 4 + y * width * 4) % U32
  let check := ((ptr offset <<< 0) ||| (ptr (offset + 1) <<< 8)) ||| (ptr (offset + 2) <<< 16)
  match pixelAlphaMode with
  | .FULL => check ||| ((ptr (offset + 3) <<< 24) % U32)
  | .THRESHOLD =>
    if (ptr (offset + 3) : Int) < alphaThreshold then 0 else check ||| 0xff000000
  | _ => check

/-- An inner scan loop `for(uint i = 0; i < n; i++) if (differs(i)) return ...;`:
whether the `return` is reached. The first argument is the number of passes
left, the second the loop counter. -/
def scanAny (differs : Nat → Bool) : Nat → Nat → Bool
  | 0, _ => false
  | n + 1, i => if differs i then true else scanAny differs n (i + 1)

/-- An outer scan loop `for(uint i = 0; i < n; i++) { inner loop }`: the
counter at which the inner loop returns, if it does. The first argument is the
number of passes left, the second the loop counter. -/
def scanFirst (hit : Nat → Bool) : Nat → Nat → Option Nat
  | 0, _ => none
  | n + 1, i => if hit i then some i else scanFirst hit n (i + 1)

/-- The lambda `leftEdge` of `ImageHelper::getImageBorders`. -/
def leftEdge (ptr : Nat → Nat) (width height : Nat) (pixelAlphaMode : PixelAlphaMode)
    (alphaThreshold : Int) : Nat :=
  let startPixel := getEffectivePixel ptr 0 0 width pixelAlphaMode alphaThreshold
  match scanFirst (fun x => scanAny (fun y =>
      getEffectivePixel ptr x y width pixelAlphaMode alphaThreshold != startPixel) height 0)
      width 0 with
  | some x => x
  | none => 0

/-- The lambda `rightEdge` of `ImageHelper::getImageBorders`. -/
def rightEdge (ptr : Nat → Nat) (width height : Nat) (pixelAlphaMode : PixelAlphaMode)
    (alphaThreshold : Int) : Nat :=
  let startPixel := getEffectivePixel ptr (width - 1) 0 width pixelAlphaMode alphaThreshold
  match scanFirst (fun x => scanAny (fun y =>
      getEffectivePixel ptr (width - 1 - x) y width pixelAlphaMode alphaThreshold
        != startPixel) height 0) width 0 with
  | some x => width - 1 - x
  | none => width - 1

/-- The lambda `topEdge` of `ImageHelper::getImageBorders`. -/
def topEdge (ptr : Nat → Nat) (width height : Nat) (pixelAlphaMode : PixelAlphaMode)
    (alphaThreshold : Int) : Nat :=
  let startPixel := getEffectivePixel ptr 0 0 width pixelAlphaMode alphaThreshold
  match scanFirst (fun y => scanAny (fun x =>
      getEffectivePixel ptr x y width pixelAlphaMode alphaThreshold != startPixel) width 0)
      height 0 with
  | some y => y
  | none => 0

/-- The lambda `bottomEdge` of `ImageHelper::getImageBorders`. -/
def bottomEdge (ptr : Nat → Nat) (width height : Nat) (pixelAlphaMode : PixelAlphaMode)
    (alphaThreshold : Int) : Nat :=
  let startPixel := getEffectivePixel ptr 0 (height - 1) width pixelAlphaMode alphaThreshold
  match scanFirst (fun y => scanAny (fun x =>
      getEffectivePixel ptr x (height - 1 - y) width pixelAlphaMode alphaThreshold
        != startPixel) width 0) height 0 with
  | some y => height - 1 - y
  | none => height - 1

/-- Embedding of `ImageHelper::getImageBorders` for an image of at least one
column and one row (for `width = 0` or `height = 0` the C++ `width - 1` wraps).
The `uint` parameter `alphaThreshold` reaches the lambdas as an `int`. -/
def getImageBorders (pixels : Nat → Nat) (width height : Nat) (pixelAlphaMode : PixelAlphaMode)
    (alphaThreshold : Nat) : BoundingBox :=
  let threshold := toInt32 alphaThreshold
  let left := leftEdge pixels width height pixelAlphaMode threshold
  let right := rightEdge pixels width height pixelAlphaMode threshold
  let top := topEdge pixels width height pixelAlphaMode threshold
  let bottom := bottomEdge pixels width height pixelAlphaMode threshold
  let inverted := decide (left > right)
  let left := if inverted then 0 else left
  let right := if inverted then width - 1 else right
  let inverted := decide (top > bottom)
  let top := if inverted then 0 else top
  let bottom := if inverted then height - 1 else bottom
  let newWidth := if left = right then width else 1 + right - left
  let newHeight := if top = bottom then height else 1 + bottom - top
  { left := left, right := right, top := top, bottom := bottom,
    width := newWidth, height := newHeight }

/-- The byte buffer holding the bytes of `bytes` from offset 0 on (0 elsewhere),
used to evaluate the border scan on concrete images. -/
def bufferOf (bytes : List Nat) : Nat → Nat :=
  fun offset => bytes.getD offset 0

/-- The five source layouts the `switch(srcFormat)` of
`ImageHelper::convertPixelFormat` recognises: A8R8G8B8, R8G8B8, A8L8, L8, A8. -/
def isRecognisedLayout : CrnPixelFormat → Bool
  | PIXEL_FMT_A8R8G8B8 | PIXEL_FMT_R8G8B8 | PIXEL_FMT_A8L8 | PIXEL_FMT_L8 | PIXEL_FMT_A8 => true
  | _ => false

/-- The 16-bit word of the packed-format contract for BGR565:
`(r>>3)<<11 | (g>>2)<<5 | (b>>3)`. -/
def wordBGR565 (r g b : Nat) : Nat :=
  ((r >>> 3) <<< 11) ||| ((g >>> 2) <<< 5) ||| (b >>> 3)

/-- The 16-bit word of the packed-format contract for RGB565:
`(b>>3)<<11 | (g>>2)<<5 | (r>>3)`. -/
def wordRGB565 (r g b : Nat) : Nat :=
  ((b >>> 3) <<< 11) ||| ((g >>> 2) <<< 5) ||| (r >>> 3)

/-- The 16-bit word of the packed-format contract for BGRA5551 and BGRX5551:
`(a>>7)<<15 | (r>>3)<<10 | (g>>3)<<5 | (b>>3)`. -/
def wordBGRA5551 (r g b a : Nat) : Nat :=
  ((a >>> 7) <<< 15) ||| ((r >>> 3) <<< 10) ||| ((g >>> 3) <<< 5) ||| (b >>> 3)

/-- The 16-bit word of the packed-format contract for BGRA4444:
`(a>>4)<<12 | (r>>4)<<8 | (g>>4)<<4 | (b>>4)`. -/
def wordBGRA4444 (r g b a : Nat) : Nat :=
  ((a >>> 4) <<< 12) ||| ((r >>> 4) <<< 8) ||| ((g >>> 4) <<< 4) ||| (b >>> 4)

/-- The bit field of a word that starts at bit `shift` and is selected by
`mask`: `(w >> shift) & mask`. -/
def bitField (w shift mask : Nat) : Nat := (w >>> shift) &&& mask

/-- The two bytes of a 16-bit word, low byte then high byte. -/
def lowHigh (w : Nat) : List Nat := [w % 256, (w >>> 8) % 256]

/-- Embedding of `SpraymakerModel::AutocropMode` (spraymakermodel.h). -/
inductive AutocropMode where
  | INVALID
  | AUTOMATIC
  | INDIVIDUAL
  | BOUNDINGBOX
  | NONE
  deriving DecidableEq, Repr

/-- A source image as `Spraymaker::saveSpray` reads it from the model: the
byte buffer `data()` of 4-byte RGBA pixels, `width()` and `height()`. -/
structure Image where
  data : Nat → Nat
  width : Nat
  height : Nat

/-- The three flags `boundedAutocrop`, `forceBoundedAutocrop`, `autocrop` of
`Spraymaker::saveSpray`. -/
structure AutocropFlags where
  boundedAutocrop : Bool := false
  forceBoundedAutocrop : Bool := false
  autocrop : Bool := false
  deriving DecidableEq, Repr

/-- The `switch(spraymakerModel->getAutocropMode())` of `Spraymaker::saveSpray`,
whose cases fall through from BOUNDINGBOX to AUTOMATIC to INDIVIDUAL. -/
def autocropFlags : AutocropMode → AutocropFlags
  | .BOUNDINGBOX => { forceBoundedAutocrop := true, boundedAutocrop := true, autocrop := true }
  | .AUTOMATIC => { boundedAutocrop := true, autocrop := true }
  | .INDIVIDUAL => { autocrop := true }
  | _ => {}

/-- The `pixelAlphaMode` that `Spraymaker::saveSpray` derives from the format. -/
def saveSprayPixelAlphaMode (format : ImageFormat) : PixelAlphaMode :=
  let pixelAlphaMode := PixelAlphaMode.INVALID
  let pixelAlphaMode :=
    if hasOneBitAlpha format || hasAlpha format == false then PixelAlphaMode.THRESHOLD
    else pixelAlphaMode
  if hasMultiBitAlpha format then PixelAlphaMode.FULL else pixelAlphaMode

/-- Conversion of an `int` to `uint` (two's complement, 32 bits). -/
def toUInt32 (i : Int) : Nat := (i % (U32 : Int)).toNat

/-- The bounding-box loop `for(int frame = 0; frame < frames; frame++)` that
`Spraymaker::saveSpray` runs for one mip level when `boundedAutocrop` is set:
the value of `boundedAutocrop` and the accumulated `bb` when the loop is left.
The first argument is the number of passes left, `getImage` gives the image of
a frame at this level. -/
def boundingBoxLoop (getImage : Nat → Image) (pixelAlphaMode : PixelAlphaMode)
    (alphaThreshold : Int) (forceBoundedAutocrop : Bool) :
    Nat → Nat → Nat → Nat → BoundingBox → Bool × BoundingBox
  | 0, _, _, _, bb => (true, bb)
  | n + 1, frame, lastWidth, lastHeight, bb =>
    let img := getImage frame
    let lastWidth := if frame = 0 then img.width else lastWidth
    let lastHeight := if frame = 0 then img.height else lastHeight
    if forceBoundedAutocrop = false ∧ (img.width ≠ lastWidth ∨ img.height ≠ lastHeight) then
      (false, bb)
    else
      let bb := bb.add (getImageBorders img.data img.width img.height pixelAlphaMode
        (toUInt32 alphaThreshold))
      boundingBoxLoop getImage pixelAlphaMode alphaThreshold forceBoundedAutocrop
        n (frame + 1) img.width img.height bb

/-- The crop `Spraymaker::saveSpray` applies to one frame: with the shared box
`bb` of the level, with the frame's own box, or none. The rectangle of a crop
with box `bb` is `img.crop(bb.left, bb.top, bb.width, bb.height)`. -/
inductive Crop where
  | shared (bb : BoundingBox)
  | individual (bb : BoundingBox)
  | none
  deriving DecidableEq, Repr

/-- Whether a frame is cropped with the shared bounding box of its level. -/
def Crop.isShared : Crop → Bool
  | .shared _ => true
  | _ => false

/-- One pass of the frame loop of `Spraymaker::saveSpray`, as far as the order
and the crop go: the level, the frame, the target size of the level and the
crop applied before the resize. -/
structure Emitted where
  mipmap : Nat
  frame : Nat
  mipWidth : Nat
  mipHeight : Nat
  crop : Crop
  deriving DecidableEq, Repr

/-- The frame loop `for(int frame = 0; frame < frames; frame++)` of one mip
level of `Spraymaker::saveSpray`: the frames encoded after `n` passes, in
order. -/
def emitFrames (getImage : Nat → Image) (pixelAlphaMode : PixelAlphaMode) (alphaThreshold : Int)
    (flags : AutocropFlags) (bb : BoundingBox) (mipmap mipWidth mipHeight : Nat) :
    Nat → List Emitted
  | 0 => []
  | frame + 1 =>
    let img := getImage frame
    let crop :=
      if flags.forceBoundedAutocrop || flags.boundedAutocrop then Crop.shared bb
      else if flags.autocrop then
        Crop.individual (getImageBorders img.data img.width img.height pixelAlphaMode
          (toUInt32 alphaThreshold))
      else Crop.none
    emitFrames getImage pixelAlphaMode alphaThreshold flags bb mipmap mipWidth mipHeight frame
      ++ [{ mipmap := mipmap, frame := frame, mipWidth := mipWidth, mipHeight := mipHeight,
            crop := crop }]

/-- The mip loop `for(int mipmap = mipmaps - 1; mipmap >= 0; mipmap--)` of
`Spraymaker::saveSpray`: the frames encoded from level `mipmap` down to level
0, in order. The first argument is `mipmap + 1`; `flags` carries
`boundedAutocrop`, which is declared before the loop, from level to level. -/
def emitMips (getImage : Nat → Nat → Image) (pixelAlphaMode : PixelAlphaMode)
    (alphaThreshold : Int) (width height frames : Nat) : Nat → AutocropFlags → List Emitted
  | 0, _ => []
  | mipmap + 1, flags =>
    let mipWidth := max 1 (shr32 width mipmap)
    let mipHeight := max 1 (shr32 height mipmap)
    let scanned :=
      if flags.boundedAutocrop then
        boundingBoxLoop (getImage mipmap) pixelAlphaMode alphaThreshold
          flags.forceBoundedAutocrop frames 0 0 0 {}
      else (flags.boundedAutocrop, {})
    let flags := { flags with boundedAutocrop := scanned.1 }
    emitFrames (getImage mipmap) pixelAlphaMode alphaThreshold flags scanned.2
        mipmap mipWidth mipHeight frames
      ++ emitMips getImage pixelAlphaMode alphaThreshold width height frames mipmap flags

/-- The frames `Spraymaker::saveSpray` encodes, in order, each with its level
size and crop, for the job parameters of the model. -/
def saveSprayTrace (format : ImageFormat) (width height mipmaps frames : Nat)
    (autocropMode : AutocropMode) (alphaThreshold : Int) (getImage : Nat → Nat → Image) :
    List Emitted :=
  emitMips getImage (saveSprayPixelAlphaMode format) alphaThreshold width height frames
    mipmaps (autocropFlags autocropMode)

/-- The four bytes of the pixel at column `x`, row `y` of a buffer of 4-byte
RGBA pixels, read at the offset `x*4 + y*width*4` the lambdas of
`getImageBorders` and `saveSpray` form in `uint` arithmetic. -/
def readPixel (ptr : Nat → Nat) (x y width : Nat) : ColorQuad :=
  let offset := (x * 4 + y * width * 4) % U32
  { r := ptr offset, g := ptr (offset + 1), b := ptr (offset + 2), a := ptr (offset + 3) }

/-- The lambda `replaceEffectivePixel` of `Spraymaker::saveSpray`: the buffer
after the call. `bgRed`, `bgGreen`, `bgBlue` are the background components of
the model; the four bytes of the pixel are overwritten with the bytes
`pixel >> (c*8)` of the computed word. -/
def replaceEffectivePixel (bgRed bgGreen bgBlue : Nat) (ptr : Nat → Nat) (x y width : Nat)
    (pixelAlphaMode : PixelAlphaMode) (alphaThreshold : Int) : Nat → Nat :=
  let offset := (x * 4 + y * width * 4) % U32
  let pixel := ((ptr offset <<< 0) ||| (ptr (offset + 1) <<< 8)) ||| (ptr (offset + 2) <<< 16)
  let pixel :=
    match pixelAlphaMode with
    | .FULL => pixel ||| ((ptr (offset + 3) <<< 24) % U32)
    | .THRESHOLD =>
      if (ptr (offset + 3) : Int) < alphaThreshold then
        (((bgRed <<< 0) ||| (bgGreen <<< 8)) ||| (bgBlue <<< 16)) % U32
      else pixel ||| 0xff000000
    | _ => pixel
  fun i => if offset ≤ i ∧ i < offset + 4 then (pixel >>> ((i - offset) * 8)) % 256 else ptr i

/-- The inner loop `for(uint y = 0; y < img.height(); y++)` of the transparency
fix-up of `Spraymaker::saveSpray` at column `x`: the buffer after `n` passes. -/
def fixColumn (bgRed bgGreen bgBlue : Nat) (x width : Nat) (alphaThreshold : Int) :
    Nat → (Nat → Nat) → Nat → Nat
  | 0, ptr => ptr
  | y + 1, ptr =>
    replaceEffectivePixel bgRed bgGreen bgBlue
      (fixColumn bgRed bgGreen bgBlue x width alphaThreshold y ptr) x y width
      PixelAlphaMode.THRESHOLD alphaThreshold

/-- The outer loop `for(uint x = 0; x < img.width(); x++)` of the transparency
fix-up: the buffer after `n` passes. -/
def fixColumns (bgRed bgGreen bgBlue : Nat) (width height : Nat) (alphaThreshold : Int) :
    Nat → (Nat → Nat) → Nat → Nat
  | 0, ptr => ptr
  | x + 1, ptr =>
    fixColumn bgRed bgGreen bgBlue x width alphaThreshold height
      (fixColumns bgRed bgGreen bgBlue width height alphaThreshold x ptr)

/-- The block "Fix transparency for 1-bit and nonalpha targets" of
`Spraymaker::saveSpray` on the image buffer `ptr` of `width x height` pixels. -/
def fixTransparency (format : ImageFormat) (bgRed bgGreen bgBlue : Nat) (width height : Nat)
    (alphaThreshold : Int) (ptr : Nat → Nat) : Nat → Nat :=
  if hasOneBitAlpha format || hasAlpha format == false then
    fixColumns bgRed bgGreen bgBlue width height alphaThreshold width ptr
  else ptr

/-- The pixel the contract of the transparency fix-up assigns to a pixel:
the background colour with alpha 0 below the threshold, the colour itself with
alpha 255 otherwise. -/
def fixedPixel (bgRed bgGreen bgBlue : Nat) (alphaThreshold : Int) (p : ColorQuad) : ColorQuad :=
  if (p.a : Int) < alphaThreshold then { r := bgRed, g := bgGreen, b := bgBlue, a := 0 }
  else { r := p.r, g := p.g, b := p.b, a := 255 }

/-- An image given by the list of its bytes. -/
def imageOf (bytes : List Nat) (width height : Nat) : Image :=
  { data := bufferOf bytes, width := width, height := height }

/-- The byte of a pixel at position `c` of its 4-byte cell: R, G, B, A. -/
def ColorQuad.byte (q : ColorQuad) (c : Nat) : Nat :=
  if c = 0 then q.r else if c = 1 then q.g else if c = 2 then q.b else q.a

/-- The pixel stored in the 4-byte cell number `k` of a buffer. -/
def pixelAt (ptr : Nat → Nat) (k : Nat) : ColorQuad :=
  { r := ptr (4 * k), g := ptr (4 * k + 1), b := ptr (4 * k + 2), a := ptr (4 * k + 3) }

/-! ## Size arithmetic -/

theorem shiftRight_le_self (w m : Nat) : w >>> m ≤ w := by
  rw [Nat.shiftRight_eq_div_pow]
  exact Nat.div_le_self _ _

theorem shiftRight_mono {a b : Nat} (h : a ≤ b) (m : Nat) : a >>> m ≤ b >>> m := by
  rw [Nat.shiftRight_eq_div_pow, Nat.shiftRight_eq_div_pow]
  exact Nat.div_le_div_right h

theorem mipDim_mono {a b : Nat} (h : a ≤ b) (m : Nat) : max 1 (a >>> m) ≤ max 1 (b >>> m) :=
  max_le_max (le_refl 1) (shiftRight_mono h m)

theorem mipDim_le_succ (w m : Nat) : max 1 (w >>> m) ≤ w + 1 :=
  max_le (by omega) (le_trans (shiftRight_le_self w m) (by omega))

theorem ceilDiv4_mono {a b : Nat} (h : a ≤ b) : ceilDiv4 a ≤ ceilDiv4 b := by
  unfold ceilDiv4
  omega

theorem ceilDiv4_pos {a : Nat} (h : 1 ≤ a) : 1 ≤ ceilDiv4 a := by
  unfold ceilDiv4
  omega

/-- The value `ceilDiv4 x` is the least `k` with `x ≤ 4 * k`. -/
theorem ceilDiv4_le_iff (x k : Nat) : ceilDiv4 x ≤ k ↔ x ≤ 4 * k := by
  unfold ceilDiv4
  omega

/-- Below a count of 32 the shift of the code is the shift of the contract. -/
theorem shr32_of_lt (x : Nat) {k : Nat} (h : k < 32) : shr32 x k = x >>> k := by
  unfold shr32
  rw [Nat.mod_eq_of_lt h]

theorem sizeOfImageLoop_modEq (w h bpp n : Nat) (hn : n ≤ 32) :
    sizeOfImageLoop w h bpp n ≡
      ∑ m in Finset.range n, max 1 (w >>> m) * max 1 (h >>> m) * bpp [MOD U32] := by
  induction n with
  | zero => simp [sizeOfImageLoop, Nat.ModEq]
  | succ n ih =>
    rw [Finset.sum_range_succ]
    show (sizeOfImageLoop w h bpp n
      + (((max 1 (shr32 w n) * max 1 (shr32 h n)) % U32) * bpp) % U32) % U32 ≡ _ [MOD U32]
    rw [shr32_of_lt w (show n < 32 by omega), shr32_of_lt h (show n < 32 by omega)]
    refine (Nat.mod_modEq _ _).trans (Nat.ModEq.add (ih (by omega)) ?_)
    exact (Nat.mod_modEq _ _).trans (Nat.ModEq.mul_right _ (Nat.mod_modEq _ _))

theorem sizeOfImage_eq_mod (w h n f bpp : Nat) (hn : n ≤ 32) :
    sizeOfImage w h n f bpp = exactPixelSize w h n f bpp % U32 := by
  unfold sizeOfImage exactPixelSize
  rw [Nat.mul_comm f]
  exact Nat.ModEq.mul_right f (sizeOfImageLoop_modEq w h bpp n hn)

theorem sizeOfDxtLoop_modEq (w h bpb n : Nat) (hn : n ≤ 32) (hw : w + 4 < U32)
    (hh : h + 4 < U32) :
    sizeOfDxtLoop w h bpb n ≡
      ∑ m in Finset.range n,
        ceilDiv4 (max 1 (w >>> m)) * ceilDiv4 (max 1 (h >>> m)) * bpb [MOD U32] := by
  induction n with
  | zero => simp [sizeOfDxtLoop, Nat.ModEq]
  | succ n ih =>
    rw [Finset.sum_range_succ]
    have h1 : ((max 1 (w >>> n) + 3) % U32) >>> 2 = ceilDiv4 (max 1 (w >>> n)) := by
      have := mipDim_le_succ w n
      rw [Nat.mod_eq_of_lt (by omega), Nat.shiftRight_eq_div_pow]
      rfl
    have h2 : ((max 1 (h >>> n) + 3) % U32) >>> 2 = ceilDiv4 (max 1 (h >>> n)) := by
      have := mipDim_le_succ h n
      rw [Nat.mod_eq_of_lt (by omega), Nat.shiftRight_eq_div_pow]
      rfl
    show (sizeOfDxtLoop w h bpb n
      + (((((max 1 (shr32 w n) + 3) % U32) >>> 2)
            * (((max 1 (shr32 h n) + 3) % U32) >>> 2)) % U32
          * bpb) % U32) % U32 ≡ _ [MOD U32]
    rw [shr32_of_lt w (show n < 32 by omega), shr32_of_lt h (show n < 32 by omega), h1, h2]
    refine (Nat.mod_modEq _ _).trans (Nat.ModEq.add (ih (by omega)) ?_)
    exact (Nat.mod_modEq _ _).trans (Nat.ModEq.mul_right _ (Nat.mod_modEq _ _))

theorem sizeOfDxtImage_eq_mod (w h n f bpb : Nat) (hn : n ≤ 32) (hw : w + 4 < U32)
    (hh : h + 4 < U32) :
    sizeOfDxtImage w h n f bpb = exactDxtSize w h n f bpb % U32 := by
  unfold sizeOfDxtImage exactDxtSize
  rw [Nat.mul_comm f]
  exact Nat.ModEq.mul_right f (sizeOfDxtLoop_modEq w h bpb n hn hw hh)

/-- When the exact block size fits in 32 bits and is not trivially zero, the
dimensions are far below the point where `mipWidth + 3` wraps. -/
theorem dims_small_of_exactDxtSize_lt (w h n f bpb : Nat) (hn : 1 ≤ n) (hf : 1 ≤ f)
    (hb : 8 ≤ bpb) (hfit : exactDxtSize w h n f bpb < U32) : w + 4 < U32 ∧ h + 4 < U32 := by
  unfold exactDxtSize at hfit
  have hmem : 0 ∈ Finset.range n := Finset.mem_range.mpr (by omega)
  have hterm : ceilDiv4 (max 1 (w >>> 0)) * ceilDiv4 (max 1 (h >>> 0)) * bpb ≤
      ∑ m in Finset.range n,
        ceilDiv4 (max 1 (w >>> m)) * ceilDiv4 (max 1 (h >>> m)) * bpb :=
    Finset.single_le_sum
      (f := fun m => ceilDiv4 (max 1 (w >>> m)) * ceilDiv4 (max 1 (h >>> m)) * bpb)
      (fun _ _ => Nat.zero_le _) hmem
  have hsum : (∑ m in Finset.range n,
        ceilDiv4 (max 1 (w >>> m)) * ceilDiv4 (max 1 (h >>> m)) * bpb) ≤
      f * ∑ m in Finset.range n,
        ceilDiv4 (max 1 (w >>> m)) * ceilDiv4 (max 1 (h >>> m)) * bpb :=
    Nat.le_mul_of_pos_left _ hf
  simp only [Nat.shiftRight_zero] at hterm
  have hA : 1 ≤ ceilDiv4 (max 1 w) := ceilDiv4_pos (le_max_left _ _)
  have hB : 1 ≤ ceilDiv4 (max 1 h) := ceilDiv4_pos (le_max_left _ _)
  have hwA : ceilDiv4 (max 1 w) * 8 ≤ ceilDiv4 (max 1 w) * ceilDiv4 (max 1 h) * bpb := by
    calc ceilDiv4 (max 1 w) * 8 = ceilDiv4 (max 1 w) * 1 * 8 := by ring
      _ ≤ ceilDiv4 (max 1 w) * ceilDiv4 (max 1 h) * bpb :=
        Nat.mul_le_mul (Nat.mul_le_mul_left _ hB) hb
  have hhA : ceilDiv4 (max 1 h) * 8 ≤ ceilDiv4 (max 1 w) * ceilDiv4 (max 1 h) * bpb := by
    calc ceilDiv4 (max 1 h) * 8 = 1 * ceilDiv4 (max 1 h) * 8 := by ring
      _ ≤ ceilDiv4 (max 1 w) * ceilDiv4 (max 1 h) * bpb :=
        Nat.mul_le_mul (Nat.mul_le_mul_right _ hA) hb
  have hw1 : w ≤ max 1 w := le_max_right _ _
  have hh1 : h ≤ max 1 h := le_max_right _ _
  have hU : U32 = 4294967296 := rfl
  have hw2 : max 1 w ≤ 4 * 536870911 := (ceilDiv4_le_iff _ _).mp (by omega)
  have hh2 : max 1 h ≤ 4 * 536870911 := (ceilDiv4_le_iff _ _).mp (by omega)
  constructor <;> omega

theorem isDxt_bytesPerBlock {format : ImageFormat} (h : isDxt format = true) :
    bytesPerBlock format = 8 ∨ bytesPerBlock format = 16 := by
  cases format <;> simp_all [isDxt, bytesPerBlock]

/-- For at most 32 levels the code computes the exact size modulo `2^32`; it is
the exact size whenever that fits in 32 unsigned bits. -/
theorem getImageDataSize_eq_exact (format : ImageFormat) (w h n f : Nat) (hn32 : n ≤ 32)
    (hfit : exactDataSize format w h n f < U32) :
    getImageDataSize format w h n f = exactDataSize format w h n f := by
  unfold getImageDataSize exactDataSize at *
  by_cases hd : isDxt format = true
  · simp only [hd, if_true] at hfit ⊢
    rcases Nat.eq_zero_or_pos n with hn | hn
    · subst hn
      simp [sizeOfDxtImage, sizeOfDxtLoop, exactDxtSize]
    rcases Nat.eq_zero_or_pos f with hf | hf
    · subst hf
      simp [sizeOfDxtImage, exactDxtSize]
    have hb : 8 ≤ bytesPerBlock format := by
      rcases isDxt_bytesPerBlock hd with h8 | h16 <;> omega
    obtain ⟨hw, hh⟩ := dims_small_of_exactDxtSize_lt w h n f _ hn hf hb hfit
    rw [sizeOfDxtImage_eq_mod w h n f _ hn32 hw hh, Nat.mod_eq_of_lt hfit]
  · simp only [hd] at hfit ⊢
    simp only [Bool.false_eq_true, if_false] at hfit ⊢
    rw [sizeOfImage_eq_mod _ _ _ _ _ hn32, Nat.mod_eq_of_lt hfit]

theorem exactPixelSize_mono {w h n f w' h' n' f' : Nat} (bpp : Nat) (hw : w ≤ w') (hh : h ≤ h')
    (hn : n ≤ n') (hf : f ≤ f') :
    exactPixelSize w h n f bpp ≤ exactPixelSize w' h' n' f' bpp := by
  unfold exactPixelSize
  refine Nat.mul_le_mul hf ?_
  refine le_trans (Finset.sum_le_sum fun m _ => ?_)
    (Finset.sum_le_sum_of_subset (Finset.range_mono hn))
  exact Nat.mul_le_mul_right _ (Nat.mul_le_mul (mipDim_mono hw m) (mipDim_mono hh m))

theorem exactDxtSize_mono {w h n f w' h' n' f' : Nat} (bpb : Nat) (hw : w ≤ w') (hh : h ≤ h')
    (hn : n ≤ n') (hf : f ≤ f') :
    exactDxtSize w h n f bpb ≤ exactDxtSize w' h' n' f' bpb := by
  unfold exactDxtSize
  refine Nat.mul_le_mul hf ?_
  refine le_trans (Finset.sum_le_sum fun m _ => ?_)
    (Finset.sum_le_sum_of_subset (Finset.range_mono hn))
  exact Nat.mul_le_mul_right _
    (Nat.mul_le_mul (ceilDiv4_mono (mipDim_mono hw m)) (ceilDiv4_mono (mipDim_mono hh m)))

theorem exactDataSize_mono (format : ImageFormat) {w h n f w' h' n' f' : Nat} (hw : w ≤ w')
    (hh : h ≤ h') (hn : n ≤ n') (hf : f ≤ f') :
    exactDataSize format w h n f ≤ exactDataSize format w' h' n' f' := by
  unfold exactDataSize
  split
  · exact exactDxtSize_mono _ hw hh hn hf
  · exact exactPixelSize_mono _ hw hh hn hf

theorem getMaxMipmapsLoop_eq (fuel : Nat) : ∀ res mipmaps : Nat, res ≤ fuel →
    getMaxMipmapsLoop fuel res mipmaps = mipmaps + Nat.log 2 res := by
  induction fuel with
  | zero =>
    intro res mipmaps h
    have : res = 0 := by omega
    subst this
    simp [getMaxMipmapsLoop]
  | succ fuel ih =>
    intro res mipmaps h
    show (if res >>> 1 ≠ 0 then getMaxMipmapsLoop fuel (res >>> 1) (mipmaps + 1) else mipmaps) = _
    have hs : res >>> 1 = res / 2 := by rw [Nat.shiftRight_eq_div_pow, pow_one]
    rw [hs]
    by_cases h0 : res / 2 = 0
    · have hlt : res < 2 := by omega
      simp [h0, Nat.log_of_lt hlt]
    · have hge : 2 ≤ res := by omega
      rw [if_pos h0, ih _ _ (by omega), Nat.log_of_one_lt_of_le (by decide) hge]
      omega

theorem getMaxMipmaps_eq (w h : Nat) : getMaxMipmaps w h = 1 + Nat.log 2 (max w h) :=
  getMaxMipmapsLoop_eq _ _ _ (le_refl _)

/-- The number of passes does not depend on the bound once it is at least `res`. -/
theorem getMaxMipmapsLoop_fuel (fuel res mipmaps : Nat) (h : res ≤ fuel) :
    getMaxMipmapsLoop fuel res mipmaps = getMaxMipmapsLoop res res mipmaps := by
  rw [getMaxMipmapsLoop_eq _ _ _ h, getMaxMipmapsLoop_eq _ _ _ (le_refl _)]

theorem lastMip_eq_one {d M k : Nat} (hd : d ≤ M) (hM : M < 2 ^ (k + 1)) :
    max 1 (d >>> k) = 1 := by
  have h2 : d >>> k < 2 := by
    rw [Nat.shiftRight_eq_div_pow, Nat.div_lt_iff_lt_mul (Nat.pos_pow_of_pos _ (by decide))]
    rw [pow_succ] at hM
    omega
  exact max_eq_left (by omega)

/-- C7. For every width and height whose larger side is at least 1,
`getMaxMipmaps` returns `1 + floor(log2(max(width, height)))`: it is at least 1,
it is the unique `m >= 1` with `2^(m-1) <= max(width, height) < 2^m`, it is 1
when the larger side is 1, and the last mip level `max(1, dim >> (m-1))` is 1
in both dimensions. -/
theorem getMaxMipmaps_spec (w h : Nat) (hpos : 1 ≤ max w h) :
    getMaxMipmaps w h = 1 + Nat.log 2 (max w h) ∧
    1 ≤ getMaxMipmaps w h ∧
    2 ^ (getMaxMipmaps w h - 1) ≤ max w h ∧ max w h < 2 ^ getMaxMipmaps w h ∧
    (∀ m : Nat, 1 ≤ m → 2 ^ (m - 1) ≤ max w h → max w h < 2 ^ m → m = getMaxMipmaps w h) ∧
    (max w h = 1 → getMaxMipmaps w h = 1) ∧
    max 1 (w >>> (getMaxMipmaps w h - 1)) = 1 ∧ max 1 (h >>> (getMaxMipmaps w h - 1)) = 1 := by
  have heq := getMaxMipmaps_eq w h
  have hne : max w h ≠ 0 := by omega
  have hlo : 2 ^ Nat.log 2 (max w h) ≤ max w h := Nat.pow_log_le_self 2 hne
  have hhi : max w h < 2 ^ (Nat.log 2 (max w h) + 1) := Nat.lt_pow_succ_log_self (by decide) _
  have hsub : getMaxMipmaps w h - 1 = Nat.log 2 (max w h) := by omega
  have hadd : getMaxMipmaps w h = Nat.log 2 (max w h) + 1 := by omega
  refine ⟨heq, by omega, ?_, ?_, ?_, ?_, ?_, ?_⟩
  · rw [hsub]; exact hlo
  · rw [hadd]; exact hhi
  · intro m hm h1 h2
    have ha : m - 1 < Nat.log 2 (max w h) + 1 :=
      (Nat.pow_lt_pow_iff_right (by decide : 1 < 2)).mp (lt_of_le_of_lt h1 hhi)
    have hb : Nat.log 2 (max w h) < m :=
      (Nat.pow_lt_pow_iff_right (by decide : 1 < 2)).mp (lt_of_le_of_lt hlo h2)
    omega
  · intro h1
    rw [heq, h1]
    simp
  · rw [hsub]; exact lastMip_eq_one (le_max_left w h) hhi
  · rw [hsub]; exact lastMip_eq_one (le_max_right w h) hhi

/-- C7, at a concrete input: a 256 x 1 image has 9 mip levels, a 1 x 1 image has 1. -/
theorem getMaxMipmaps_spec_witness :
    1 ≤ max 256 1 ∧ getMaxMipmaps 256 1 = 1 + Nat.log 2 (max 256 1) ∧
      getMaxMipmaps 256 1 = 9 ∧ getMaxMipmaps 1 1 = 1 :=
  ⟨by decide, (getMaxMipmaps_spec 256 1 (by decide)).1, by decide,
    (getMaxMipmaps_spec 1 1 (by decide)).2.2.2.2.2.1 (by decide)⟩

/-- C3, as stated, fails: for an 8 x 8 DXT1 image with 33 mip levels and one
frame the contract formula gives 288 bytes, which fits in 32 bits, but the code
shifts by 32 at the last level, takes that level as 8 x 8 again and returns
312. -/
theorem getImageDataSize_dxt_exact_fails_at_33_levels :
    isDxt DXT1 = true ∧
    1 * ∑ m in Finset.range 33,
      ceilDiv4 (max 1 (8 >>> m)) * ceilDiv4 (max 1 (8 >>> m)) * bytesPerBlock DXT1 = 288 ∧
    getImageDataSize DXT1 8 8 33 1 = 312 := by
  decide

/-- C3, amended. For every block-compressed format and all width, height,
mipmaps and frames with `mipmaps <= 32` for which the result fits in 32
unsigned bits, `getImageDataSize` equals
`frames x sum over m in [0, mipmaps) of ceil(max(1, width>>m)/4) x
ceil(max(1, height>>m)/4) x bytesPerBlock(format)`, where `bytesPerBlock` is 8
for DXT1 and DXT1A and 16 for DXT3 and DXT5. -/
theorem getImageDataSize_dxt_exact (format : ImageFormat) (width height mipmaps frames : Nat)
    (hfmt : isDxt format = true) (hmip : mipmaps ≤ 32)
    (hfit : frames * ∑ m in Finset.range mipmaps,
      ceilDiv4 (max 1 (width >>> m)) * ceilDiv4 (max 1 (height >>> m)) * bytesPerBlock format
        < U32) :
    getImageDataSize format width height mipmaps frames =
      frames * ∑ m in Finset.range mipmaps,
        ceilDiv4 (max 1 (width >>> m)) * ceilDiv4 (max 1 (height >>> m)) * bytesPerBlock format
    ∧ bytesPerBlock format = (if format = DXT1 ∨ format = DXT1A then 8 else 16) := by
  constructor
  · have h := getImageDataSize_eq_exact format width height mipmaps frames hmip
    simp only [exactDataSize, hfmt, if_true, exactDxtSize] at h
    exact h hfit
  · cases format <;> simp_all [isDxt, bytesPerBlock]

/-- C3 amended, at the concrete input of the specification: a 64 x 64 DXT1A image with
one mip level and one frame takes 16 x 16 blocks of 8 bytes, 2048 bytes, and
the computed file size is 64 + 2048. -/
theorem getImageDataSize_dxt_exact_witness :
    isDxt DXT1A = true ∧ getImageDataSize DXT1A 64 64 1 1 = 16 * 16 * 8 ∧
      newVtfFileSize DXT1A 64 64 1 1 = 64 + 2048 :=
  ⟨rfl, (getImageDataSize_dxt_exact DXT1A 64 64 1 1 rfl (by decide) (by decide)).1.trans (by decide),
    by decide⟩

/-- C4, as stated, fails: for a 4 x 4 RGBA8888 image with 33 mip levels and one
frame the contract formula gives 204 bytes, which fits in 32 bits, but the code
shifts by 32 at the last level, takes that level as 4 x 4 again and returns
264. -/
theorem getImageDataSize_pixel_exact_fails_at_33_levels :
    isDxt RGBA8888 = false ∧
    1 * ∑ m in Finset.range 33,
      max 1 (4 >>> m) * max 1 (4 >>> m) * bytesPerPixel RGBA8888 = 204 ∧
    getImageDataSize RGBA8888 4 4 33 1 = 264 := by
  decide

/-- C4, amended. For every pixel-based (non-block) format and all width, height,
mipmaps and frames with `mipmaps <= 32` for which the result fits in 32
unsigned bits, `getImageDataSize` equals
`frames x sum over m in [0, mipmaps) of max(1, width>>m) x
max(1, height>>m) x bytesPerPixel(format)`. -/
theorem getImageDataSize_pixel_exact (format : ImageFormat) (width height mipmaps frames : Nat)
    (hfmt : isDxt format = false) (hmip : mipmaps ≤ 32)
    (hfit : frames * ∑ m in Finset.range mipmaps,
      max 1 (width >>> m) * max 1 (height >>> m) * bytesPerPixel format < U32) :
    getImageDataSize format width height mipmaps frames =
      frames * ∑ m in Finset.range mipmaps,
        max 1 (width >>> m) * max 1 (height >>> m) * bytesPerPixel format := by
  have h := getImageDataSize_eq_exact format width height mipmaps frames hmip
  simp only [exactDataSize, hfmt, Bool.false_eq_true, if_false, exactPixelSize] at h
  exact h hfit

/-- C4 amended, at a concrete input: a 3 x 2 RGB888 image with two mip levels and two
frames takes 2 x (3 x 2 + 1 x 1) x 3 = 42 bytes. -/
theorem getImageDataSize_pixel_exact_witness :
    isDxt RGB888 = false ∧ getImageDataSize RGB888 3 2 2 2 = 42 :=
  ⟨rfl, (getImageDataSize_pixel_exact RGB888 3 2 2 2 rfl (by decide) (by decide)).trans (by decide)⟩

/-- C6, as stated, fails: in 32-bit unsigned arithmetic the size of a
32768 x 32768 RGBA8888 image wraps to 0, which is smaller than the size of the
32767 x 32768 image. It also fails where the exact size fits in 32 bits: going
from 32 to 33 mip levels of a 32768 x 32768 BGR565 image the code shifts by 32,
adds the full level a second time, and the sum wraps from 2863311562 down to
715827914. -/
theorem getImageDataSize_not_mono :
    (32767 ≤ 32768 ∧
      getImageDataSize RGBA8888 32768 32768 1 1 < getImageDataSize RGBA8888 32767 32768 1 1) ∧
    exactDataSize BGR565 32768 32768 33 1 < U32 ∧
    getImageDataSize BGR565 32768 32768 32 1 = 2863311562 ∧
    getImageDataSize BGR565 32768 32768 33 1 = 715827914 := by
  decide

/-- C6, amended. `getImageDataSize` is non-decreasing in each of width, height,
mipmaps and frames (the format held fixed) as long as the larger mipmap count
is at most 32 and the exact size at the larger arguments fits in 32 unsigned
bits. -/
theorem getImageDataSize_mono_of_fits (format : ImageFormat)
    (width height mipmaps frames width' height' mipmaps' frames' : Nat)
    (hw : width ≤ width') (hh : height ≤ height') (hm : mipmaps ≤ mipmaps')
    (hf : frames ≤ frames') (hm32 : mipmaps' ≤ 32)
    (hfit : exactDataSize format width' height' mipmaps' frames' < U32) :
    getImageDataSize format width height mipmaps frames ≤
      getImageDataSize format width' height' mipmaps' frames' := by
  have hle := exactDataSize_mono format hw hh hm hf
  rw [getImageDataSize_eq_exact _ _ _ _ _ hm32 hfit,
    getImageDataSize_eq_exact _ _ _ _ _ (le_trans hm hm32) (lt_of_le_of_lt hle hfit)]
  exact hle

/-- C6 amended, at a concrete input: growing a 4 x 4 DXT1 image with one mip
level and one frame to 8 x 5 with two levels and three frames does not shrink
the size. -/
theorem getImageDataSize_mono_of_fits_witness :
    exactDataSize DXT1 8 5 2 3 < U32 ∧
      getImageDataSize DXT1 4 4 1 1 ≤ getImageDataSize DXT1 8 5 2 3 :=
  ⟨by decide, getImageDataSize_mono_of_fits DXT1 4 4 1 1 8 5 2 3 (by decide) (by decide)
    (by decide) (by decide) (by decide) (by decide)⟩

/-! ## The resolution search -/

theorem nextRes_gt {step res : Nat} (powerOfTwo : Bool) (h1 : 1 ≤ step) (h2 : step ≤ res)
    (h3 : res ≤ 65535) :
    res < (if powerOfTwo then (res <<< 1) % U32 else (res + step) % U32) ∧
    (if powerOfTwo then (res <<< 1) % U32 else (res + step) % U32) =
      (if powerOfTwo then 2 * res else res + step) := by
  have hU : U32 = 4294967296 := rfl
  have hs : res <<< 1 = 2 * res := by rw [Nat.shiftLeft_eq, pow_one, Nat.mul_comm]
  cases powerOfTwo
  · simp only [Bool.false_eq_true, if_false]
    rw [Nat.mod_eq_of_lt (by omega)]
    omega
  · simp only [if_true]
    rw [hs, Nat.mod_eq_of_lt (by omega)]
    omega

theorem stepBack_eq {step res : Nat} (powerOfTwo : Bool) (h2 : step ≤ res) (h3 : res ≤ 65535) :
    (if powerOfTwo then res >>> 1 else (res + U32 - step) % U32) =
      (if powerOfTwo then res / 2 else res - step) := by
  have hU : U32 = 4294967296 := rfl
  cases powerOfTwo
  · simp only [Bool.false_eq_true, if_false]
    have : res + U32 - step = (res - step) + U32 := by omega
    rw [this, Nat.add_mod_right, Nat.mod_eq_of_lt (by omega)]
  · simp only [if_true]
    rw [Nat.shiftRight_eq_div_pow, pow_one]

/-- Invariant rule for the search loop: an invariant that keeps `1 <= step <= res`,
together with a postcondition established on each of the three ways out of the
loop, gives a result satisfying the postcondition, within `65536 - res` passes. -/
theorem getMaxResLoop_rule (format : ImageFormat) (frames size step : Nat)
    (square powerOfTwo varyMipmaps : Bool)
    (Inv : Nat → Nat → Nat → Nat → List Nat → Prop) (Post : SearchResult → Prop)
    (hbase : ∀ res w h m c, Inv res w h m c → 1 ≤ step ∧ step ≤ res)
    (hexit : ∀ res w h m c, Inv res w h m c → 65535 < res → Post ⟨w, h, c⟩)
    (hexact : ∀ res w h m c, Inv res w h m c → res ≤ 65535 →
      getImageDataSize format res res
        (if varyMipmaps then getMaxMipmaps res res else m) frames = size →
      Post ⟨res, res, c ++ [res]⟩)
    (hover : ∀ res w h m c, Inv res w h m c → res ≤ 65535 →
      size < getImageDataSize format res res
        (if varyMipmaps then getMaxMipmaps res res else m) frames →
      Post ⟨if (decide (getImageDataSize format res
                  (if powerOfTwo then res >>> 1 else (res + U32 - step) % U32)
                  (if varyMipmaps then getMaxMipmaps res
                      (if powerOfTwo then res >>> 1 else (res + U32 - step) % U32)
                    else (if varyMipmaps then getMaxMipmaps res res else m)) frames > size)
                || square) = true
            then (if powerOfTwo then res >>> 1 else (res + U32 - step) % U32) else res,
          if powerOfTwo then res >>> 1 else (res + U32 - step) % U32, c ++ [res]⟩)
    (hstep : ∀ res w h m c, Inv res w h m c → res ≤ 65535 →
      getImageDataSize format res res
        (if varyMipmaps then getMaxMipmaps res res else m) frames < size →
      Inv (if powerOfTwo then (res <<< 1) % U32 else (res + step) % U32) res res
        (if varyMipmaps then getMaxMipmaps res res else m) (c ++ [res])) :
    ∀ fuel res w h m c, 65536 ≤ fuel + res → Inv res w h m c →
      ∃ r, getMaxResLoop format frames size step square powerOfTwo varyMipmaps
        fuel res w h m c = some r ∧ Post r := by
  intro fuel
  induction fuel with
  | zero =>
    intro res w h m c hf hinv
    have hres : ¬ res ≤ 65535 := by omega
    exact ⟨⟨w, h, c⟩, by simp [getMaxResLoop, hres], hexit _ _ _ _ _ hinv (by omega)⟩
  | succ fuel ih =>
    intro res w h m c hf hinv
    by_cases hres : res ≤ 65535
    · rcases Nat.lt_trichotomy (getImageDataSize format res res
          (if varyMipmaps then getMaxMipmaps res res else m) frames) size with hlt | heq | hgt
      · obtain ⟨h1, h2⟩ := hbase _ _ _ _ _ hinv
        have hnext := (nextRes_gt powerOfTwo h1 h2 hres).1
        obtain ⟨r, hr, hp⟩ := ih _ res res
          (if varyMipmaps then getMaxMipmaps res res else m) (c ++ [res])
          (by omega) (hstep _ _ _ _ _ hinv hres hlt)
        refine ⟨r, ?_, hp⟩
        rw [← hr]
        simp only [getMaxResLoop, hres, if_true]
        rw [if_neg (by omega), if_neg (by omega)]
      · refine ⟨_, ?_, hexact _ _ _ _ _ hinv hres heq⟩
        simp only [getMaxResLoop, hres, if_true]
        rw [if_pos heq]
      · refine ⟨_, ?_, hover _ _ _ _ _ hinv hres hgt⟩
        simp only [getMaxResLoop, hres, if_true]
        rw [if_neg (by omega), if_pos hgt]
    · exact ⟨⟨w, h, c⟩, by simp [getMaxResLoop, hres], hexit _ _ _ _ _ hinv (by omega)⟩

theorem getMaxResForTargetSize_of_run {format : ImageFormat} {mipmaps frames size step : Nat}
    {square powerOfTwo : Bool} {r : SearchResult}
    (h : getMaxResForTargetSizeRun format mipmaps frames size step square powerOfTwo = some r) :
    getMaxResForTargetSize format mipmaps frames size step square powerOfTwo =
      some (r.width, r.height) := by
  simp [getMaxResForTargetSize, h]

theorem max_one_ge (step : Nat) : 1 ≤ max 1 step := le_max_left _ _

theorem ite_le_of_le {c : Prop} [Decidable c] {a b n : Nat} (ha : a ≤ n) (hb : b ≤ n) :
    (if c then a else b) ≤ n := by
  split
  · exact ha
  · exact hb

theorem length_snoc (c : List Nat) (x : Nat) : (c ++ [x]).length = c.length + 1 := by simp

theorem forall_mem_snoc {c : List Nat} {x n : Nat} (hall : ∀ y ∈ c, y ≤ n) (hx : x ≤ n) :
    ∀ y ∈ c ++ [x], y ≤ n := by
  intro y hy
  rcases List.mem_append.mp hy with hy | hy
  · exact hall y hy
  · simp at hy; omega

/-- The search returns within 65535 passes, with bounded candidates and results. -/
theorem getMaxResRun_terminates (format : ImageFormat)
    (mipmaps frames size step : Nat) (square powerOfTwo : Bool) :
    ∃ r, getMaxResForTargetSizeRun format mipmaps frames size step square powerOfTwo = some r ∧
      getMaxResForTargetSize format mipmaps frames size step square powerOfTwo
        = some (r.width, r.height) ∧
      r.width ≤ 65535 ∧ r.height ≤ 65535 ∧
      r.candidates.length ≤ 65535 ∧ ∀ c ∈ r.candidates, c ≤ 65535 := by
  have hrule := getMaxResLoop_rule format frames size (max 1 step) square powerOfTwo
    (decide (mipmaps = 0))
    (fun res w h _ c => (1 ≤ max 1 step ∧ max 1 step ≤ res) ∧ w ≤ 65535 ∧ h ≤ 65535 ∧
      c.length ≤ 65535 ∧ (res ≤ 65535 → c.length < res) ∧ ∀ x ∈ c, x ≤ 65535)
    (fun r => r.width ≤ 65535 ∧ r.height ≤ 65535 ∧
      r.candidates.length ≤ 65535 ∧ ∀ c ∈ r.candidates, c ≤ 65535)
    (fun res w h m c hinv => hinv.1)
    (fun res w h m c hinv _ => ⟨hinv.2.1, hinv.2.2.1, hinv.2.2.2.1, hinv.2.2.2.2.2⟩)
    (fun res w h m c hinv hres _ => by
      obtain ⟨_, _, _, _, hlen, hall⟩ := hinv
      have := hlen hres
      have hl : (c ++ [res]).length ≤ 65535 := by rw [length_snoc]; omega
      exact ⟨hres, hres, hl, forall_mem_snoc hall hres⟩)
    (fun res w h m c hinv hres _ => by
      obtain ⟨⟨_, h2⟩, _, _, _, hlen, hall⟩ := hinv
      have := hlen hres
      have hl : (c ++ [res]).length ≤ 65535 := by rw [length_snoc]; omega
      have hH := stepBack_eq powerOfTwo h2 hres
      have hHle : (if powerOfTwo then res >>> 1 else (res + U32 - max 1 step) % U32) ≤ 65535 := by
        rw [hH]; split <;> omega
      exact ⟨ite_le_of_le hHle hres, hHle, hl, forall_mem_snoc hall hres⟩)
    (fun res w h m c hinv hres _ => by
      obtain ⟨⟨h1, h2⟩, _, _, _, hlen, hall⟩ := hinv
      have := hlen hres
      have hl := length_snoc c res
      have hnext := (nextRes_gt powerOfTwo h1 h2 hres).1
      exact ⟨⟨h1, by omega⟩, hres, hres, by omega, fun _ => by omega,
        forall_mem_snoc hall hres⟩)
  obtain ⟨r, hr, hp⟩ := hrule 65535 (max 1 step) 0 0 mipmaps []
    (by have := max_one_ge step; omega)
    ⟨⟨max_one_ge step, le_refl _⟩, by omega, by omega, by simp,
      fun _ => max_one_ge step, by simp⟩
  exact ⟨r, hr, getMaxResForTargetSize_of_run hr, hp⟩

/-- C10. The search `getMaxResForTargetSize` terminates for every input (step 0,
clamped to 1, and budgets below every candidate included): it returns within
65535 passes through the loop body; every candidate it evaluates is at most
65535, it evaluates at most 65535 candidates, and the returned width and
height are at most 65535, so they fit the 16-bit fields of the header. -/
theorem getMaxResForTargetSize_terminates (format : ImageFormat)
    (mipmaps frames size step : Nat) (square powerOfTwo : Bool) :
    ∃ r, getMaxResForTargetSizeRun format mipmaps frames size step square powerOfTwo = some r ∧
      getMaxResForTargetSize format mipmaps frames size step square powerOfTwo
        = some (r.width, r.height) ∧
      r.width ≤ 65535 ∧ r.height ≤ 65535 ∧
      r.candidates.length ≤ 65535 ∧ ∀ c ∈ r.candidates, c ≤ 65535 :=
  getMaxResRun_terminates format mipmaps frames size step square powerOfTwo

/-- C8. With `square = true` the width returned by `getMaxResForTargetSize`
equals the returned height, for every format, mipmap count, frame count,
budget, step and `powerOfTwo` flag (on an exact hit, on the step back from an
over-budget candidate, and when the ceiling ends the search). -/
theorem getMaxResForTargetSize_square (format : ImageFormat)
    (mipmaps frames size step : Nat) (powerOfTwo : Bool) :
    ∃ w, getMaxResForTargetSize format mipmaps frames size step true powerOfTwo = some (w, w) := by
  have hrule := getMaxResLoop_rule format frames size (max 1 step) true powerOfTwo
    (decide (mipmaps = 0))
    (fun res w h _ _ => (1 ≤ max 1 step ∧ max 1 step ≤ res) ∧ w = h)
    (fun r => r.width = r.height)
    (fun res w h m c hinv => hinv.1)
    (fun res w h m c hinv _ => hinv.2)
    (fun res w h m c _ _ _ => rfl)
    (fun res w h m c _ _ _ => by simp)
    (fun res w h m c hinv hres _ =>
      ⟨⟨hinv.1.1, le_of_lt (lt_of_le_of_lt hinv.1.2
        (nextRes_gt powerOfTwo hinv.1.1 hinv.1.2 hres).1)⟩, rfl⟩)
  obtain ⟨r, hr, hp⟩ := hrule 65535 (max 1 step) 0 0 mipmaps []
    (by have := max_one_ge step; omega) ⟨⟨max_one_ge step, le_refl _⟩, rfl⟩
  refine ⟨r.width, ?_⟩
  rw [getMaxResForTargetSize_of_run hr]
  change r.width = r.height at hp
  rw [← hp]

theorem loopMips_eq (mipmaps0 m w h : Nat) (hm : mipmaps0 ≠ 0 → m = mipmaps0) :
    (if decide (mipmaps0 = 0) = true then getMaxMipmaps w h else m) =
      searchMipmaps mipmaps0 w h := by
  unfold searchMipmaps
  by_cases h0 : mipmaps0 = 0
  · simp [h0]
  · simp [h0, hm h0]

theorem loopMips_keep (mipmaps0 m x : Nat) (hm : mipmaps0 ≠ 0 → m = mipmaps0) :
    mipmaps0 ≠ 0 → (if decide (mipmaps0 = 0) = true then x else m) = mipmaps0 := by
  intro h0
  simp [h0, hm h0]

/-- The search stays within budget once its first candidate does. -/
theorem getMaxResRun_within_budget (format : ImageFormat)
    (mipmaps frames size step : Nat) (square powerOfTwo : Bool)
    (hstep : max 1 step ≤ 65535)
    (hfirst : getImageDataSize format (max 1 step) (max 1 step)
      (searchMipmaps mipmaps (max 1 step) (max 1 step)) frames ≤ size) :
    ∃ r, getMaxResForTargetSizeRun format mipmaps frames size step square powerOfTwo = some r ∧
      getImageDataSize format r.width r.height
        (searchMipmaps mipmaps r.width r.height) frames ≤ size := by
  have hrule := getMaxResLoop_rule format frames size (max 1 step) square powerOfTwo
    (decide (mipmaps = 0))
    (fun res w h m _ => (1 ≤ max 1 step ∧ max 1 step ≤ res) ∧ (mipmaps ≠ 0 → m = mipmaps) ∧
      (res = max 1 step ∨
        (w = h ∧ getImageDataSize format w w (searchMipmaps mipmaps w w) frames < size ∧
          (if powerOfTwo then res >>> 1 else (res + U32 - max 1 step) % U32) = w)))
    (fun r => getImageDataSize format r.width r.height
        (searchMipmaps mipmaps r.width r.height) frames ≤ size)
    (fun res w h m c hinv => hinv.1)
    (fun res w h m c hinv hres => by
      obtain ⟨_, _, hfst | ⟨hwh, hlt, _⟩⟩ := hinv
      · omega
      · show getImageDataSize format w h (searchMipmaps mipmaps w h) frames ≤ size
        rw [← hwh]
        exact le_of_lt hlt)
    (fun res w h m c hinv hres heq => by
      obtain ⟨_, hm, _⟩ := hinv
      rw [loopMips_eq mipmaps m res res hm] at heq
      exact le_of_eq heq)
    (fun res w h m c hinv hres hgt => by
      obtain ⟨_, hm, hfst | ⟨hwh, hlt, hback⟩⟩ := hinv
      · rw [loopMips_eq mipmaps m res res hm, hfst] at hgt
        omega
      · rw [loopMips_eq mipmaps _ res _ (loopMips_keep mipmaps m _ hm), hback]
        by_cases hc : (decide (getImageDataSize format res w
            (searchMipmaps mipmaps res w) frames > size) || square) = true
        · rw [if_pos hc]
          exact le_of_lt hlt
        · rw [if_neg hc]
          simp only [Bool.or_eq_true, decide_eq_true_eq, not_or] at hc
          show getImageDataSize format res w (searchMipmaps mipmaps res w) frames ≤ size
          omega)
    (fun res w h m c hinv hres hlt => by
      obtain ⟨⟨h1, h2⟩, hm, _⟩ := hinv
      have hnext := nextRes_gt powerOfTwo h1 h2 hres
      refine ⟨⟨h1, by omega⟩, loopMips_keep mipmaps m _ hm, Or.inr ⟨rfl, ?_, ?_⟩⟩
      · rw [loopMips_eq mipmaps m res res hm] at hlt
        exact hlt
      · rw [hnext.2]
        have hU : U32 = 4294967296 := rfl
        cases powerOfTwo
        · simp only [Bool.false_eq_true, if_false]
          have : res + max 1 step + U32 - max 1 step = res + U32 := by omega
          rw [this, Nat.add_mod_right, Nat.mod_eq_of_lt (by omega)]
        · simp only [if_true]
          rw [Nat.shiftRight_eq_div_pow, pow_one]
          omega)
  exact hrule 65535 (max 1 step) 0 0 mipmaps []
    (by have := max_one_ge step; omega)
    ⟨⟨max_one_ge step, le_refl _⟩, fun _ => rfl, Or.inl rfl⟩

/-- C2, as stated, fails: with a budget of 4 bytes, below the 8 bytes of the
smallest DXT1 candidate at step 4, the power-of-two search steps back from
4 x 4 to 2 x 2, whose data size (one block, 8 bytes) is over the budget. -/
theorem getMaxResForTargetSize_over_budget :
    getMaxResForTargetSize DXT1 1 1 4 4 false true = some (2, 2) ∧
      ¬ getImageDataSize DXT1 2 2 (searchMipmaps 1 2 2) 1 ≤ 4 := by
  decide

/-- C2, amended. Whenever the step (clamped to at least 1) is at most 65535
and the first candidate `step x step` is not over the budget, the
`(width, height)` returned by `getMaxResForTargetSize` satisfies
`getImageDataSize(format, width, height, m, frames) <= budget`, where `m` is
the given mipmap count, or `getMaxMipmaps(width, height)` when the given count
is 0. -/
theorem getMaxResForTargetSize_within_budget (format : ImageFormat)
    (mipmaps frames size step : Nat) (square powerOfTwo : Bool)
    (hstep : max 1 step ≤ 65535)
    (hfirst : getImageDataSize format (max 1 step) (max 1 step)
      (searchMipmaps mipmaps (max 1 step) (max 1 step)) frames ≤ size) :
    ∃ w h, getMaxResForTargetSize format mipmaps frames size step square powerOfTwo
        = some (w, h) ∧
      getImageDataSize format w h (searchMipmaps mipmaps w h) frames ≤ size := by
  obtain ⟨r, hr, hp⟩ := getMaxResRun_within_budget format mipmaps frames size step square
    powerOfTwo hstep hfirst
  exact ⟨r.width, r.height, getMaxResForTargetSize_of_run hr, hp⟩

/-- C2 amended, at a concrete input: DXT1 with automatic mip count, one frame,
a budget of 100 bytes and step 4 in power-of-two mode. -/
theorem getMaxResForTargetSize_within_budget_witness :
    max 1 4 ≤ 65535 ∧
    getImageDataSize DXT1 (max 1 4) (max 1 4) (searchMipmaps 0 (max 1 4) (max 1 4)) 1 ≤ 100 ∧
    ∃ w h, getMaxResForTargetSize DXT1 0 1 100 4 false true = some (w, h) ∧
      getImageDataSize DXT1 w h (searchMipmaps 0 w h) 1 ≤ 100 :=
  ⟨by decide, by decide,
    getMaxResForTargetSize_within_budget DXT1 0 1 100 4 false true (by decide) (by decide)⟩

theorem ite_dvd {c : Prop} [Decidable c] {d a b : Nat} (ha : d ∣ a) (hb : d ∣ b) :
    d ∣ (if c then a else b) := by
  split
  · exact ha
  · exact hb

theorem ite_pow_two {c : Prop} [Decidable c] {a b : Nat} (ha : ∃ k, a = 2 ^ k)
    (hb : ∃ k, b = 2 ^ k) : ∃ k, (if c then a else b) = 2 ^ k := by
  split
  · exact ha
  · exact hb


/-- Without `powerOfTwo`, every candidate and every result of the search is a
multiple of the clamped step. -/
theorem getMaxResRun_multiple (format : ImageFormat)
    (mipmaps frames size step : Nat) (square : Bool) :
    ∃ r, getMaxResForTargetSizeRun format mipmaps frames size step square false = some r ∧
      max 1 step ∣ r.width ∧ max 1 step ∣ r.height := by
  have hrule := getMaxResLoop_rule format frames size (max 1 step) square false
    (decide (mipmaps = 0))
    (fun res w h _ _ => (1 ≤ max 1 step ∧ max 1 step ≤ res) ∧
      max 1 step ∣ res ∧ max 1 step ∣ w ∧ max 1 step ∣ h)
    (fun r => max 1 step ∣ r.width ∧ max 1 step ∣ r.height)
    (fun res w h m c hinv => hinv.1)
    (fun res w h m c hinv _ => hinv.2.2)
    (fun res w h m c hinv _ _ => ⟨hinv.2.1, hinv.2.1⟩)
    (fun res w h m c hinv hres _ => by
      obtain ⟨⟨h1, h2⟩, hd, _, _⟩ := hinv
      have hdH : max 1 step ∣
          (if false = true then res >>> 1 else (res + U32 - max 1 step) % U32) := by
        rw [stepBack_eq false h2 hres]
        simp only [Bool.false_eq_true, if_false]
        exact Nat.dvd_sub' hd (dvd_refl _)
      exact ⟨ite_dvd hdH hd, hdH⟩)
    (fun res w h m c hinv hres _ => by
      obtain ⟨⟨h1, h2⟩, hd, _, _⟩ := hinv
      have hnext := nextRes_gt false h1 h2 hres
      simp only [Bool.false_eq_true, if_false] at hnext ⊢
      refine ⟨⟨h1, by omega⟩, ?_, hd, hd⟩
      rw [hnext.2]
      exact Dvd.dvd.add hd (dvd_refl _))
  exact hrule 65535 (max 1 step) 0 0 mipmaps []
    (by have := max_one_ge step; omega)
    ⟨⟨max_one_ge step, le_refl _⟩, dvd_refl _, dvd_zero _, dvd_zero _⟩

theorem half_pow_two {res k : Nat} (hk : res = 2 ^ k) (h2 : 2 ≤ res) :
    ∃ a, res / 2 = 2 ^ a := by
  cases k with
  | zero => simp at hk; omega
  | succ k =>
    refine ⟨k, ?_⟩
    rw [hk, pow_succ]
    simp

/-- With `powerOfTwo`, a power-of-two step of at most 65535 and (for step 1) a
first candidate within budget, every result of the search is a power of two. -/
theorem getMaxResRun_pow_two (format : ImageFormat)
    (mipmaps frames size step : Nat) (square : Bool) (j : Nat) (hj : step = 2 ^ j)
    (hstep : step ≤ 65535)
    (hfirst : step = 1 → getImageDataSize format 1 1 (searchMipmaps mipmaps 1 1) frames ≤ size) :
    ∃ r, getMaxResForTargetSizeRun format mipmaps frames size step square true = some r ∧
      (∃ a, r.width = 2 ^ a) ∧ (∃ b, r.height = 2 ^ b) := by
  have hs1 : 1 ≤ step := by rw [hj]; exact Nat.one_le_two_pow
  have hmax : max 1 step = step := max_eq_right hs1
  have hrule := getMaxResLoop_rule format frames size (max 1 step) square true
    (decide (mipmaps = 0))
    (fun res w h m _ => (1 ≤ max 1 step ∧ max 1 step ≤ res) ∧ (mipmaps ≠ 0 → m = mipmaps) ∧
      (∃ k, res = 2 ^ k) ∧
      (res = step ∨ (2 ≤ res ∧ (∃ a, w = 2 ^ a) ∧ ∃ b, h = 2 ^ b)))
    (fun r => (∃ a, r.width = 2 ^ a) ∧ (∃ b, r.height = 2 ^ b))
    (fun res w h m c hinv => hinv.1)
    (fun res w h m c hinv hres => by
      obtain ⟨_, _, _, hfst | ⟨_, hw, hh⟩⟩ := hinv
      · omega
      · exact ⟨hw, hh⟩)
    (fun res w h m c hinv _ _ => ⟨hinv.2.2.1, hinv.2.2.1⟩)
    (fun res w h m c hinv hres hgt => by
      obtain ⟨⟨h1, h2⟩, hm, ⟨k, hk⟩, hdisj⟩ := hinv
      have h2res : 2 ≤ res := by
        rcases hdisj with hfst | ⟨h2r, _, _⟩
        · by_contra hlt
          have hres1 : res = 1 := by omega
          rw [loopMips_eq mipmaps m res res hm, hres1] at hgt
          have := hfirst (by omega)
          omega
        · exact h2r
      have hhalf : ∃ a,
          (if true = true then res >>> 1 else (res + U32 - max 1 step) % U32) = 2 ^ a := by
        rw [stepBack_eq true h2 hres]
        simp only [if_true]
        exact half_pow_two hk h2res
      exact ⟨ite_pow_two hhalf ⟨k, hk⟩, hhalf⟩)
    (fun res w h m c hinv hres _ => by
      obtain ⟨⟨h1, h2⟩, hm, ⟨k, hk⟩, _⟩ := hinv
      have hnext := nextRes_gt true h1 h2 hres
      simp only [if_true] at hnext ⊢
      rw [hnext.2]
      refine ⟨⟨h1, by omega⟩, loopMips_keep mipmaps m _ hm, ⟨k + 1, ?_⟩,
        Or.inr ⟨by omega, ⟨k, hk⟩, ⟨k, hk⟩⟩⟩
      rw [hk, pow_succ, Nat.mul_comm])
  exact hrule 65535 (max 1 step) 0 0 mipmaps []
    (by omega)
    ⟨⟨max_one_ge step, le_refl _⟩, fun _ => rfl, ⟨j, by rw [hmax, hj]⟩, Or.inl hmax⟩

/-- C9, as stated, fails: in power-of-two mode with step 1 (a power of two)
and a budget of 3 bytes, below the 4 bytes of a 1 x 1 RGBA8888 image, the
search steps back to 0 x 0, and 0 is not a power of two. -/
theorem getMaxResForTargetSize_not_pow_two :
    getMaxResForTargetSize RGBA8888 1 1 3 1 false true = some (0, 0) ∧
      ¬ ∃ k : Nat, 0 = 2 ^ k := by
  refine ⟨by decide, ?_⟩
  rintro ⟨k, hk⟩
  have := Nat.one_le_two_pow (n := k)
  omega

/-- C9, amended. For every input with `step >= 1`: when `powerOfTwo` is false
the returned width and height are both multiples of `step`; when `powerOfTwo`
is true, `step` is a power of two of at most 65535 and, in case `step = 1`, the
first candidate 1 x 1 is not over the budget, the returned width and height
are both powers of two. -/
theorem getMaxResForTargetSize_step_aligned (format : ImageFormat)
    (mipmaps frames size step : Nat) (square powerOfTwo : Bool) (hstep : 1 ≤ step) :
    ∃ w h, getMaxResForTargetSize format mipmaps frames size step square powerOfTwo
        = some (w, h) ∧
      (powerOfTwo = false → step ∣ w ∧ step ∣ h) ∧
      (powerOfTwo = true → (∃ j, step = 2 ^ j) → step ≤ 65535 →
        (step = 1 → getImageDataSize format 1 1 (searchMipmaps mipmaps 1 1) frames ≤ size) →
        (∃ a, w = 2 ^ a) ∧ (∃ b, h = 2 ^ b)) := by
  have hmax : max 1 step = step := max_eq_right hstep
  obtain ⟨r, hr, _⟩ := getMaxResRun_terminates format mipmaps frames size step
    square powerOfTwo
  refine ⟨r.width, r.height, getMaxResForTargetSize_of_run hr, ?_, ?_⟩
  · intro hp
    subst hp
    obtain ⟨r', hr', hd⟩ := getMaxResRun_multiple format mipmaps frames size step square
    rw [hr] at hr'
    cases hr'
    rw [hmax] at hd
    exact hd
  · intro hp hj hle hfirst
    subst hp
    obtain ⟨j, hj⟩ := hj
    obtain ⟨r', hr', hd⟩ := getMaxResRun_pow_two format mipmaps frames size step square j hj
      hle hfirst
    rw [hr] at hr'
    cases hr'
    exact hd

/-- C9 amended, at concrete inputs: RGB888 with step 3 (multiples of 3), and
DXT1 with step 4 in power-of-two mode (powers of two). -/
theorem getMaxResForTargetSize_step_aligned_witness :
    (1 ≤ 3 ∧ ∃ w h, getMaxResForTargetSize RGB888 1 1 1000 3 false false = some (w, h) ∧
      3 ∣ w ∧ 3 ∣ h) ∧
    (1 ≤ 4 ∧ (∃ j, 4 = 2 ^ j) ∧ 4 ≤ 65535 ∧
      ∃ w h, getMaxResForTargetSize DXT1 0 1 1000 4 true true = some (w, h) ∧
        (∃ a, w = 2 ^ a) ∧ (∃ b, h = 2 ^ b)) := by
  refine ⟨⟨by decide, ?_⟩, ⟨by decide, ⟨2, rfl⟩, by decide, ?_⟩⟩
  · obtain ⟨w, h, hr, hm, _⟩ :=
      getMaxResForTargetSize_step_aligned RGB888 1 1 1000 3 false false (by decide)
    exact ⟨w, h, hr, hm rfl⟩
  · obtain ⟨w, h, hr, _, hp⟩ :=
      getMaxResForTargetSize_step_aligned DXT1 0 1 1000 4 true true (by decide)
    exact ⟨w, h, hr, hp rfl ⟨2, rfl⟩ (by decide) (by intro h4; omega)⟩

/-! ## The write cursor of `saveSpray` -/

theorem saveSprayFrameLoop_pixel (format : ImageFormat) (mw mh : Nat) (hfmt : isDxt format = false)
    (n pos : Nat) : saveSprayFrameLoop format mw mh n pos = pos + n * (mw * mh) := by
  induction n with
  | zero => simp [saveSprayFrameLoop]
  | succ n ih =>
    simp only [saveSprayFrameLoop, hfmt, Bool.false_eq_true, if_false, ih]
    ring

theorem saveSprayFrameLoop_dxt (format : ImageFormat) (mw mh : Nat) (hfmt : isDxt format = true)
    (n pos : Nat) :
    saveSprayFrameLoop format mw mh n pos =
      pos + n * (ceilDiv4 mw * ceilDiv4 mh * bytesPerBlock format) := by
  have h8 : 8 * (bytesPerBlock format / 8) = bytesPerBlock format := by
    rcases isDxt_bytesPerBlock hfmt with h | h <;> rw [h]
  induction n with
  | zero => simp [saveSprayFrameLoop]
  | succ n ih =>
    simp only [saveSprayFrameLoop, hfmt, if_true, ih, dxtElementCount]
    have : 8 * ((mw + 3) / 4 * ((mh + 3) / 4) * (bytesPerBlock format / 8)) =
        ceilDiv4 mw * ceilDiv4 mh * bytesPerBlock format := by
      unfold ceilDiv4
      calc 8 * ((mw + 3) / 4 * ((mh + 3) / 4) * (bytesPerBlock format / 8))
          = (mw + 3) / 4 * ((mh + 3) / 4) * (8 * (bytesPerBlock format / 8)) := by ring
        _ = (mw + 3) / 4 * ((mh + 3) / 4) * bytesPerBlock format := by rw [h8]
    rw [this]
    ring

/-- On the pixel path the cursor advances by one byte per pixel: for at most 32
levels it ends at the header size plus the number of pixels of all levels and
frames. -/
theorem saveSprayCursor_pixel (format : ImageFormat) (width height mipmaps frames : Nat)
    (hfmt : isDxt format = false) (hm : mipmaps ≤ 32) :
    saveSprayCursor format width height mipmaps frames =
      sizeofVtfHeader71 + exactPixelSize width height mipmaps frames 1 := by
  unfold saveSprayCursor exactPixelSize
  generalize sizeofVtfHeader71 = pos
  induction mipmaps generalizing pos with
  | zero => simp [saveSprayMipLoop]
  | succ n ih =>
    simp only [saveSprayMipLoop, saveSprayFrameLoop_pixel format _ _ hfmt, ih (by omega),
      Finset.sum_range_succ, shr32_of_lt _ (show n < 32 by omega)]
    ring

/-- On the block path, for at most 32 levels, the cursor ends at the header
size plus the exact data size. -/
theorem saveSprayCursor_dxt (format : ImageFormat) (width height mipmaps frames : Nat)
    (hfmt : isDxt format = true) (hm : mipmaps ≤ 32) :
    saveSprayCursor format width height mipmaps frames =
      sizeofVtfHeader71 + exactDxtSize width height mipmaps frames (bytesPerBlock format) := by
  unfold saveSprayCursor exactDxtSize
  generalize sizeofVtfHeader71 = pos
  induction mipmaps generalizing pos with
  | zero => simp [saveSprayMipLoop]
  | succ n ih =>
    simp only [saveSprayMipLoop, saveSprayFrameLoop_dxt format _ _ hfmt, ih (by omega),
      Finset.sum_range_succ, shr32_of_lt _ (show n < 32 by omega)]
    ring

/-- C1, at the failing input: for a 1 x 1 RGBA8888 image with one mip level and
one frame `convertPixelFormat` writes 4 bytes and the computed file size is
64 + 4 = 68, but the cursor of `saveSpray` is advanced by the pixel count only
and ends at 65. -/
theorem saveSprayCursor_short_of_file_size :
    saveSprayCursor RGBA8888 1 1 1 1 = 65 ∧ newVtfFileSize RGBA8888 1 1 1 1 = 68 ∧
      convertPixelFormat integerFloatOps [⟨10, 20, 30, 40⟩] 1 (mapFormat RGBA8888).crnFormat
        RGBA8888 128 = .ok [10, 20, 30, 40] :=
  ⟨by decide, by decide, rfl⟩

/-! ## Pixel conversion -/

theorem pixelLoop_length (body : ColorQuad → List Nat)
    (hbody : ∀ p, (body p).length = (body ⟨0, 0, 0, 0⟩).length) :
    ∀ (n : Nat) (data : List ColorQuad), n ≤ data.length →
      (pixelLoop body n data).length = n * (body ⟨0, 0, 0, 0⟩).length := by
  intro n
  induction n with
  | zero => intro data _; simp [pixelLoop]
  | succ n ih =>
    intro data h
    cases data with
    | nil => simp at h
    | cons p rest =>
      simp only [List.length_cons, Nat.add_le_add_iff_right] at h
      simp only [pixelLoop, List.length_append, hbody p, ih rest h]
      ring

/-- C5, as stated, fails: ARGB8888 is a pixel format of the catalog with 4
bytes per pixel, but `convertPixelFormat` has no branch for it and writes
nothing. -/
theorem convertPixelFormat_ARGB8888_writes_nothing :
    isDxt ARGB8888 = false ∧ 1 * bytesPerPixel ARGB8888 = 4 ∧
      convertPixelFormat integerFloatOps [⟨10, 20, 30, 40⟩] 1 (mapFormat ARGB8888).crnFormat
        ARGB8888 128 = .ok [] :=
  ⟨rfl, rfl, rfl⟩

/-- C5, amended. For every pixel-based format of the catalog, every count >= 0
of source pixels held by the source buffer, and the source layout the catalog
assigns to the format: for every format other than P8, ARGB8888,
RGBA16161616F, R32F and RGB323232F, `convertPixelFormat` writes exactly
`count x bytesPerPixel(format)` bytes; for ARGB8888, RGBA16161616F, R32F and
RGB323232F (no encoding branch) it writes nothing; for P8 (whose catalog
layout is `PIXEL_FMT_INVALID`) it raises the unsupported-layout error. -/
theorem convertPixelFormat_length (fp : FloatOps) (format : ImageFormat)
    (dataPtr : List ColorQuad) (count alphaThreshold : Int)
    (hfmt : isDxt format = false) (hvalid : format ≠ INVALID)
    (hcount : 0 ≤ count) (hbuf : count.toNat ≤ dataPtr.length) :
    ((format ≠ P8 ∧ format ≠ ARGB8888 ∧ format ≠ RGBA16161616F ∧ format ≠ R32F ∧
        format ≠ RGB323232F) →
      ∃ out, convertPixelFormat fp dataPtr count (mapFormat format).crnFormat format
          alphaThreshold = .ok out ∧
        (out.length : Int) = count * (bytesPerPixel format : Int)) ∧
    ((format = ARGB8888 ∨ format = RGBA16161616F ∨ format = R32F ∨ format = RGB323232F) →
      convertPixelFormat fp dataPtr count (mapFormat format).crnFormat format
        alphaThreshold = .ok []) ∧
    (format = P8 →
      ∃ e, convertPixelFormat fp dataPtr count (mapFormat format).crnFormat format
        alphaThreshold = .error e) := by
  have hn : ((count.toNat : Nat) : Int) = count := Int.toNat_of_nonneg hcount
  refine ⟨?_, ?_, ?_⟩
  · intro himpl
    cases format <;>
      first
      | (exfalso; revert hfmt hvalid himpl; simp [isDxt]; done)
      | (refine ⟨_, rfl, ?_⟩
         refine (congrArg Nat.cast (pixelLoop_length _ ?_ _ _ hbuf)).trans ?_
         · exact fun _ => rfl
         · rw [Nat.cast_mul, hn]
           rfl)
  · intro h
    rcases h with h | h | h | h <;> subst h <;> rfl
  · intro h
    subst h
    exact ⟨_, rfl⟩

/-- C5 amended, at a concrete input: two pixels converted to BGR565 give 4 bytes. -/
theorem convertPixelFormat_length_witness :
    isDxt BGR565 = false ∧ BGR565 ≠ INVALID ∧ (0 : Int) ≤ 2 ∧
    ∃ out, convertPixelFormat integerFloatOps [⟨255, 0, 0, 255⟩, ⟨0, 255, 0, 0⟩] 2
        (mapFormat BGR565).crnFormat BGR565 128 = .ok out ∧
      (out.length : Int) = 2 * (bytesPerPixel BGR565 : Int) :=
  ⟨rfl, by decide, by decide,
    (convertPixelFormat_length integerFloatOps BGR565 [⟨255, 0, 0, 255⟩, ⟨0, 255, 0, 0⟩] 2 128
      rfl (by decide) (by decide) (by decide)).1 (by decide)⟩

/-! ## Border detection -/

theorem scanAny_eq_false_iff (differs : Nat → Bool) (n : Nat) : ∀ i,
    scanAny differs n i = false ↔ ∀ j, i ≤ j → j < i + n → differs j = false := by
  induction n with
  | zero =>
    intro i
    simp only [scanAny, true_iff]
    intro j h1 h2
    omega
  | succ n ih =>
    intro i
    simp only [scanAny]
    by_cases hd : differs i = true
    · simp only [hd, if_true]
      constructor
      · intro h; cases h
      · intro h
        have := h i (le_refl _) (by omega)
        rw [hd] at this
        cases this
    · simp only [hd, if_false, Bool.false_eq_true]
      rw [ih (i + 1)]
      constructor
      · intro h j h1 h2
        rcases Nat.eq_or_lt_of_le h1 with heq | hlt
        · subst heq
          simpa using hd
        · exact h j hlt (by omega)
      · intro h j h1 h2
        exact h j (by omega) (by omega)

theorem scanAny_eq_true_iff (differs : Nat → Bool) (n i : Nat) :
    scanAny differs n i = true ↔ ∃ j, i ≤ j ∧ j < i + n ∧ differs j = true := by
  constructor
  · intro h
    by_contra hne
    have hf : scanAny differs n i = false := by
      rw [scanAny_eq_false_iff]
      intro j h1 h2
      by_contra hd
      exact hne ⟨j, h1, h2, by simpa using hd⟩
    rw [hf] at h
    cases h
  · rintro ⟨j, h1, h2, hd⟩
    by_contra hne
    have hf : scanAny differs n i = false := by simpa using hne
    rw [scanAny_eq_false_iff] at hf
    rw [hf j h1 h2] at hd
    cases hd

theorem scanFirst_eq_some (hit : Nat → Bool) (n : Nat) : ∀ i x,
    scanFirst hit n i = some x →
      i ≤ x ∧ x < i + n ∧ hit x = true ∧ ∀ j, i ≤ j → j < x → hit j = false := by
  induction n with
  | zero =>
    intro i x h
    simp [scanFirst] at h
  | succ n ih =>
    intro i x h
    simp only [scanFirst] at h
    by_cases hd : hit i = true
    · simp only [hd, if_true, Option.some.injEq] at h
      subst h
      exact ⟨le_refl _, by omega, hd, fun j h1 h2 => by omega⟩
    · simp only [hd, if_false, Bool.false_eq_true] at h
      obtain ⟨h1, h2, h3, h4⟩ := ih (i + 1) x h
      refine ⟨by omega, by omega, h3, ?_⟩
      intro j hj1 hj2
      rcases Nat.eq_or_lt_of_le hj1 with heq | hlt
      · subst heq
        simpa using hd
      · exact h4 j hlt hj2

theorem leftEdge_lt (ptr : Nat → Nat) (width height : Nat) (mode : PixelAlphaMode)
    (th : Int) (hw : 1 ≤ width) : leftEdge ptr width height mode th < width := by
  unfold leftEdge
  simp only []
  split
  · next x hx =>
    have := scanFirst_eq_some _ _ _ _ hx
    omega
  · omega

theorem rightEdge_le (ptr : Nat → Nat) (width height : Nat) (mode : PixelAlphaMode)
    (th : Int) : rightEdge ptr width height mode th ≤ width - 1 := by
  unfold rightEdge
  simp only []
  split <;> omega

theorem topEdge_lt (ptr : Nat → Nat) (width height : Nat) (mode : PixelAlphaMode)
    (th : Int) (hh : 1 ≤ height) : topEdge ptr width height mode th < height := by
  unfold topEdge
  simp only []
  split
  · next y hy =>
    have := scanFirst_eq_some _ _ _ _ hy
    omega
  · omega

theorem bottomEdge_le (ptr : Nat → Nat) (width height : Nat) (mode : PixelAlphaMode)
    (th : Int) : bottomEdge ptr width height mode th ≤ height - 1 := by
  unfold bottomEdge
  simp only []
  split <;> omega

/-- The guard and the size fields of `getImageBorders`, on the raw edges. -/
theorem guard_valid {l r n : Nat} (hn : 1 ≤ n) (hr : r ≤ n - 1) :
    (if decide (l > r) = true then 0 else l) ≤
        (if decide (l > r) = true then n - 1 else r) ∧
      (if decide (l > r) = true then n - 1 else r) ≤ n - 1 ∧
      1 ≤ (if (if decide (l > r) = true then 0 else l) =
            (if decide (l > r) = true then n - 1 else r) then n
          else 1 + (if decide (l > r) = true then n - 1 else r)
            - (if decide (l > r) = true then 0 else l)) := by
  by_cases h : l > r
  · simp only [h, decide_True, if_true]
    refine ⟨by omega, le_refl _, ?_⟩
    split <;> omega
  · simp only [h, decide_False, Bool.false_eq_true, if_false]
    refine ⟨by omega, hr, ?_⟩
    split <;> omega

theorem getImageBorders_fields (pixels : Nat → Nat) (width height : Nat) (mode : PixelAlphaMode)
    (th : Nat) (l r t b : Nat)
    (hl : leftEdge pixels width height mode (toInt32 th) = l)
    (hr : rightEdge pixels width height mode (toInt32 th) = r)
    (ht : topEdge pixels width height mode (toInt32 th) = t)
    (hb : bottomEdge pixels width height mode (toInt32 th) = b) :
    getImageBorders pixels width height mode th =
      { left := if decide (l > r) = true then 0 else l,
        right := if decide (l > r) = true then width - 1 else r,
        top := if decide (t > b) = true then 0 else t,
        bottom := if decide (t > b) = true then height - 1 else b,
        width := if (if decide (l > r) = true then 0 else l)
            = (if decide (l > r) = true then width - 1 else r) then width
          else 1 + (if decide (l > r) = true then width - 1 else r)
            - (if decide (l > r) = true then 0 else l),
        height := if (if decide (t > b) = true then 0 else t)
            = (if decide (t > b) = true then height - 1 else b) then height
          else 1 + (if decide (t > b) = true then height - 1 else b)
            - (if decide (t > b) = true then 0 else t) } := by
  subst hl hr ht hb
  rfl

/-- C14. For every image with at least one column and one row, every alpha
mode and threshold, the box returned by `getImageBorders` is never empty or
inverted: `left <= right <= width-1`, `top <= bottom <= height-1`, the width
and height fields are at least 1; and whenever the raw edge scans give
`left > right` (resp. `top > bottom`) the result is reset to `left = 0`,
`right = width-1` (resp. `top = 0`, `bottom = height-1`). -/
theorem getImageBorders_valid (pixels : Nat → Nat) (width height : Nat) (mode : PixelAlphaMode)
    (alphaThreshold : Nat) (hw : 1 ≤ width) (hh : 1 ≤ height) :
    (getImageBorders pixels width height mode alphaThreshold).left ≤
      (getImageBorders pixels width height mode alphaThreshold).right ∧
    (getImageBorders pixels width height mode alphaThreshold).right ≤ width - 1 ∧
    (getImageBorders pixels width height mode alphaThreshold).top ≤
      (getImageBorders pixels width height mode alphaThreshold).bottom ∧
    (getImageBorders pixels width height mode alphaThreshold).bottom ≤ height - 1 ∧
    1 ≤ (getImageBorders pixels width height mode alphaThreshold).width ∧
    1 ≤ (getImageBorders pixels width height mode alphaThreshold).height ∧
    (leftEdge pixels width height mode (toInt32 alphaThreshold) >
        rightEdge pixels width height mode (toInt32 alphaThreshold) →
      (getImageBorders pixels width height mode alphaThreshold).left = 0 ∧
      (getImageBorders pixels width height mode alphaThreshold).right = width - 1) ∧
    (topEdge pixels width height mode (toInt32 alphaThreshold) >
        bottomEdge pixels width height mode (toInt32 alphaThreshold) →
      (getImageBorders pixels width height mode alphaThreshold).top = 0 ∧
      (getImageBorders pixels width height mode alphaThreshold).bottom = height - 1) := by
  rw [getImageBorders_fields pixels width height mode alphaThreshold _ _ _ _ rfl rfl rfl rfl]
  have hx := guard_valid (l := leftEdge pixels width height mode (toInt32 alphaThreshold)) hw
    (rightEdge_le pixels width height mode (toInt32 alphaThreshold))
  have hy := guard_valid (l := topEdge pixels width height mode (toInt32 alphaThreshold)) hh
    (bottomEdge_le pixels width height mode (toInt32 alphaThreshold))
  refine ⟨hx.1, hx.2.1, hy.1, hy.2.1, hx.2.2, hy.2.2, ?_, ?_⟩
  · intro h
    simp only [h, decide_True, if_true, and_self]
  · intro h
    simp only [h, decide_True, if_true, and_self]

/-- C14, at a concrete input: in the 2 x 1 image with two different pixels the
raw scans give left = 1 > right = 0, and the box is reset to the full width. -/
theorem getImageBorders_valid_witness :
    leftEdge (bufferOf [1, 1, 1, 255, 2, 2, 2, 255]) 2 1 .FULL (toInt32 128) >
      rightEdge (bufferOf [1, 1, 1, 255, 2, 2, 2, 255]) 2 1 .FULL (toInt32 128) ∧
    (getImageBorders (bufferOf [1, 1, 1, 255, 2, 2, 2, 255]) 2 1 .FULL 128).left = 0 ∧
    (getImageBorders (bufferOf [1, 1, 1, 255, 2, 2, 2, 255]) 2 1 .FULL 128).right = 2 - 1 :=
  ⟨by decide,
    (getImageBorders_valid (bufferOf [1, 1, 1, 255, 2, 2, 2, 255]) 2 1 .FULL 128
      (by decide) (by decide)).2.2.2.2.2.2.1 (by decide)⟩

theorem leftEdge_uniform (ptr : Nat → Nat) (width height : Nat) (mode : PixelAlphaMode) (th : Int)
    (hu : ∀ x, x < width → ∀ y, y < height →
      getEffectivePixel ptr x y width mode th = getEffectivePixel ptr 0 0 width mode th) :
    leftEdge ptr width height mode th = 0 := by
  unfold leftEdge
  simp only []
  split
  · next x hx =>
    obtain ⟨_, h2, h3, _⟩ := scanFirst_eq_some _ _ _ _ hx
    rw [scanAny_eq_true_iff] at h3
    obtain ⟨y, _, hy, hd⟩ := h3
    rw [hu x (by omega) y (by omega)] at hd
    simp at hd
  · rfl

theorem topEdge_uniform (ptr : Nat → Nat) (width height : Nat) (mode : PixelAlphaMode) (th : Int)
    (hu : ∀ x, x < width → ∀ y, y < height →
      getEffectivePixel ptr x y width mode th = getEffectivePixel ptr 0 0 width mode th) :
    topEdge ptr width height mode th = 0 := by
  unfold topEdge
  simp only []
  split
  · next y hy =>
    obtain ⟨_, h2, h3, _⟩ := scanFirst_eq_some _ _ _ _ hy
    rw [scanAny_eq_true_iff] at h3
    obtain ⟨x, _, hx, hd⟩ := h3
    rw [hu x (by omega) y (by omega)] at hd
    simp at hd
  · rfl

theorem rightEdge_uniform (ptr : Nat → Nat) (width height : Nat) (mode : PixelAlphaMode)
    (th : Int) (hw : 1 ≤ width) (hh : 1 ≤ height)
    (hu : ∀ x, x < width → ∀ y, y < height →
      getEffectivePixel ptr x y width mode th = getEffectivePixel ptr 0 0 width mode th) :
    rightEdge ptr width height mode th = width - 1 := by
  unfold rightEdge
  simp only []
  split
  · next x hx =>
    obtain ⟨_, h2, h3, _⟩ := scanFirst_eq_some _ _ _ _ hx
    rw [scanAny_eq_true_iff] at h3
    obtain ⟨y, _, hy, hd⟩ := h3
    rw [hu (width - 1 - x) (by omega) y (by omega), hu (width - 1) (by omega) 0 (by omega)] at hd
    simp at hd
  · rfl

theorem bottomEdge_uniform (ptr : Nat → Nat) (width height : Nat) (mode : PixelAlphaMode)
    (th : Int) (hw : 1 ≤ width) (hh : 1 ≤ height)
    (hu : ∀ x, x < width → ∀ y, y < height →
      getEffectivePixel ptr x y width mode th = getEffectivePixel ptr 0 0 width mode th) :
    bottomEdge ptr width height mode th = height - 1 := by
  unfold bottomEdge
  simp only []
  split
  · next y hy =>
    obtain ⟨_, h2, h3, _⟩ := scanFirst_eq_some _ _ _ _ hy
    rw [scanAny_eq_true_iff] at h3
    obtain ⟨x, _, hx, hd⟩ := h3
    rw [hu x (by omega) (height - 1 - y) (by omega), hu 0 (by omega) (height - 1) (by omega)] at hd
    simp at hd
  · rfl

/-- C13. For every image with at least one column and one row, every alpha mode
and every threshold: if all pixels have the same effective key, the box
returned by `getImageBorders` spans the full image, `left = 0`,
`right = width-1`, `top = 0`, `bottom = height-1`, width field `width` and
height field `height`. -/
theorem getImageBorders_uniform (pixels : Nat → Nat) (width height : Nat) (mode : PixelAlphaMode)
    (alphaThreshold : Nat) (hw : 1 ≤ width) (hh : 1 ≤ height)
    (huniform : ∀ x, x < width → ∀ y, y < height →
      getEffectivePixel pixels x y width mode (toInt32 alphaThreshold) =
        getEffectivePixel pixels 0 0 width mode (toInt32 alphaThreshold)) :
    getImageBorders pixels width height mode alphaThreshold =
      { left := 0, right := width - 1, top := 0, bottom := height - 1,
        width := width, height := height } := by
  rw [getImageBorders_fields pixels width height mode alphaThreshold 0 (width - 1) 0 (height - 1)
    (leftEdge_uniform _ _ _ _ _ huniform) (rightEdge_uniform _ _ _ _ _ hw hh huniform)
    (topEdge_uniform _ _ _ _ _ huniform) (bottomEdge_uniform _ _ _ _ _ hw hh huniform)]
  have h1 : ¬ 0 > width - 1 := by omega
  have h2 : ¬ 0 > height - 1 := by omega
  simp only [h1, h2, decide_False, Bool.false_eq_true, if_false]
  have e1 : (if 0 = width - 1 then width else 1 + (width - 1) - 0) = width := by
    split <;> omega
  have e2 : (if 0 = height - 1 then height else 1 + (height - 1) - 0) = height := by
    split <;> omega
  rw [e1, e2]

/-- C13, at a concrete input: a 2 x 2 image of four equal pixels under the
threshold policy. -/
theorem getImageBorders_uniform_witness :
    getImageBorders (bufferOf [9, 8, 7, 200, 9, 8, 7, 200, 9, 8, 7, 200, 9, 8, 7, 200]) 2 2
        .THRESHOLD 128 =
      { left := 0, right := 2 - 1, top := 0, bottom := 2 - 1, width := 2, height := 2 } :=
  getImageBorders_uniform _ 2 2 .THRESHOLD 128 (by decide) (by decide) (by decide)

/-! ## Format catalog and header -/

/-- C11. For each of the 30 formats other than the `INVALID` sentinel, exactly
one of `bytesPerPixel` and `bytesPerBlock` is nonzero, `bytesPerBlock` is
nonzero exactly when `isDxt` holds, and so the unit size `getImageDataSize`
multiplies by is nonzero (a 1 x 1 image with one level and one frame has a
nonzero size). -/
theorem unit_size_exclusive (format : ImageFormat) (hvalid : format ≠ INVALID) :
    ((bytesPerPixel format ≠ 0 ∧ bytesPerBlock format = 0) ∨
      (bytesPerPixel format = 0 ∧ bytesPerBlock format ≠ 0)) ∧
    (bytesPerBlock format ≠ 0 ↔ isDxt format = true) ∧
    (if isDxt format then bytesPerBlock format else bytesPerPixel format) ≠ 0 ∧
    getImageDataSize format 1 1 1 1 =
      (if isDxt format then bytesPerBlock format else bytesPerPixel format) := by
  cases format <;> first | exact absurd rfl hvalid | decide

/-- C11, at a concrete input: RGB565 has 2 bytes per pixel and no block size. -/
theorem unit_size_exclusive_witness :
    RGB565 ≠ INVALID ∧ bytesPerPixel RGB565 = 2 ∧ bytesPerBlock RGB565 = 0 ∧
      ((bytesPerPixel RGB565 ≠ 0 ∧ bytesPerBlock RGB565 = 0) ∨
        (bytesPerPixel RGB565 = 0 ∧ bytesPerBlock RGB565 ≠ 0)) :=
  ⟨by decide, rfl, rfl, (unit_size_exclusive RGB565 (by decide)).1⟩

/-- C17. With 1-byte packing the fields of `VTF_HEADER_71`, in declaration
order with sizes 4, 8, 4, 2, 2, 4, 2, 2, 4, 12, 4, 4, 4, 1, 4, 1, 1, 1, occupy
exactly 64 bytes at the offsets of the layout table; the total equals the
constant `saveSpray` writes to the header-size field for every job, the header
size added in the file-size computation, and the start of the write cursor. -/
theorem header_layout :
    (VTF_HEADER_71_fields.map HeaderField.size = VTF_HEADER_71_fieldSizes ∧
      VTF_HEADER_71_fieldSizes = [4, 8, 4, 2, 2, 4, 2, 2, 4, 12, 4, 4, 4, 1, 4, 1, 1, 1] ∧
      sizeofVtfHeader71 = 64 ∧
      HeaderField.signature.offset = 0 ∧ HeaderField.version.offset = 4 ∧
      HeaderField.headerSize.offset = 12 ∧ HeaderField.width.offset = 16 ∧
      HeaderField.height.offset = 18 ∧ HeaderField.flags.offset = 20 ∧
      HeaderField.frames.offset = 24 ∧ HeaderField.firstFrame.offset = 26 ∧
      HeaderField.padding0.offset = 28 ∧ HeaderField.reflectivity.offset = 32 ∧
      HeaderField.padding1.offset = 44 ∧ HeaderField.bumpmapScale.offset = 48 ∧
      HeaderField.highResImageFormat.offset = 52 ∧ HeaderField.mipmapCount.offset = 56 ∧
      HeaderField.lowResImageFormat.offset = 57 ∧ HeaderField.lowResImageWidth.offset = 61 ∧
      HeaderField.lowResImageHeight.offset = 62 ∧ HeaderField.padding2.offset = 63 ∧
      HeaderField.padding2.offset + HeaderField.padding2.size = sizeofVtfHeader71) ∧
    (∀ (format : ImageFormat) (width height mipmaps frames : Int) (mode : TextureSampleMode),
      (saveSprayHeader format width height mipmaps frames mode).headerSize
        = sizeofVtfHeader71) ∧
    (∀ (format : ImageFormat) (width height mipmaps frames : Nat),
      newVtfFileSize format width height mipmaps frames =
        toInt32 (getImageDataSize format width height mipmaps frames + 64)) ∧
    (∀ (format : ImageFormat) (width height frames : Nat),
      saveSprayCursor format width height 0 frames = 64) := by
  have hclosed : sizeofVtfHeader71 = 64 := by decide
  refine ⟨by decide, ?_, ?_, ?_⟩
  · intro format width height mipmaps frames mode
    exact hclosed.symm
  · intro format width height mipmaps frames
    rw [← hclosed]
    rfl
  · intro format width height frames
    rw [← hclosed]
    rfl

/-- The flag bits of `saveSpray`, one test per bit of interest. -/
theorem saveSprayFlags_bits (format : ImageFormat) (mipmaps : Int) (mode : TextureSampleMode) :
    hasFlag (saveSprayFlags format mipmaps mode) VTF_FLAGS.NOMIP = decide (mipmaps = 1) ∧
    hasFlag (saveSprayFlags format mipmaps mode) VTF_FLAGS.ONEBITALPHA = hasOneBitAlpha format ∧
    hasFlag (saveSprayFlags format mipmaps mode) VTF_FLAGS.EIGHTBITALPHA
      = hasMultiBitAlpha format ∧
    hasFlag (saveSprayFlags format mipmaps mode) VTF_FLAGS.POINTSAMPLE
      = decide (mipmaps = 1 ∧ mode = TextureSampleMode.POINT_SAMPLE) ∧
    hasFlag (saveSprayFlags format mipmaps mode) VTF_FLAGS.ANISOTROPIC
      = decide (mode = TextureSampleMode.ANISOTROPIC) ∧
    hasFlag (saveSprayFlags format mipmaps mode) VTF_FLAGS.TRILINEAR
      = decide (mode = TextureSampleMode.TRILINEAR) := by
  unfold saveSprayFlags
  by_cases hm : mipmaps = 1
  · subst hm
    cases mode <;> cases hasOneBitAlpha format <;> cases hasMultiBitAlpha format <;> decide
  · simp only [hm, false_and, if_false, decide_False]
    cases mode <;> cases hasOneBitAlpha format <;> cases hasMultiBitAlpha format <;> decide

/-- C18. For every mipmap count and every texture sample mode, the header flags
computed by `saveSpray` contain at most one of the POINTSAMPLE, TRILINEAR and
ANISOTROPIC bits; the NOMIP bit is set iff the mipmap count is 1; and
POINTSAMPLE is set only when the mipmap count is 1, so never without NOMIP. -/
theorem saveSprayFlags_sample_mode (format : ImageFormat) (mipmaps : Int)
    (mode : TextureSampleMode) :
    ¬ (hasFlag (saveSprayFlags format mipmaps mode) VTF_FLAGS.POINTSAMPLE = true ∧
        hasFlag (saveSprayFlags format mipmaps mode) VTF_FLAGS.TRILINEAR = true) ∧
    ¬ (hasFlag (saveSprayFlags format mipmaps mode) VTF_FLAGS.POINTSAMPLE = true ∧
        hasFlag (saveSprayFlags format mipmaps mode) VTF_FLAGS.ANISOTROPIC = true) ∧
    ¬ (hasFlag (saveSprayFlags format mipmaps mode) VTF_FLAGS.TRILINEAR = true ∧
        hasFlag (saveSprayFlags format mipmaps mode) VTF_FLAGS.ANISOTROPIC = true) ∧
    (hasFlag (saveSprayFlags format mipmaps mode) VTF_FLAGS.NOMIP = true ↔ mipmaps = 1) ∧
    (hasFlag (saveSprayFlags format mipmaps mode) VTF_FLAGS.POINTSAMPLE = true →
      mipmaps = 1) ∧
    (hasFlag (saveSprayFlags format mipmaps mode) VTF_FLAGS.POINTSAMPLE = true →
      hasFlag (saveSprayFlags format mipmaps mode) VTF_FLAGS.NOMIP = true) ∧
    (saveSprayHeader format 0 0 mipmaps 0 mode).flags = saveSprayFlags format mipmaps mode := by
  obtain ⟨h1, _, _, h4, h5, h6⟩ := saveSprayFlags_bits format mipmaps mode
  rw [h1, h4, h5, h6]
  refine ⟨?_, ?_, ?_, ?_, ?_, ?_, rfl⟩
  · simp only [decide_eq_true_eq]
    rintro ⟨⟨_, h⟩, h'⟩
    rw [h] at h'
    cases h'
  · simp only [decide_eq_true_eq]
    rintro ⟨⟨_, h⟩, h'⟩
    rw [h] at h'
    cases h'
  · simp only [decide_eq_true_eq]
    rintro ⟨h, h'⟩
    rw [h] at h'
    cases h'
  · exact decide_eq_true_iff
  · simp only [decide_eq_true_eq]
    exact fun h => h.1
  · simp only [decide_eq_true_eq]
    exact fun h => h.1

/-- C19. For every format, the header flags have the ONEBITALPHA bit set iff
`hasOneBitAlpha(format)` and the EIGHTBITALPHA bit set iff
`hasMultiBitAlpha(format)`; the two are distinct bits and never both set,
because no format is classified as both one-bit and multi-bit alpha; and
`hasAlpha` is exactly one-bit or multi-bit. -/
theorem saveSprayFlags_alpha (format : ImageFormat) (mipmaps : Int) (mode : TextureSampleMode) :
    (hasFlag (saveSprayFlags format mipmaps mode) VTF_FLAGS.ONEBITALPHA = true ↔
      hasOneBitAlpha format = true) ∧
    (hasFlag (saveSprayFlags format mipmaps mode) VTF_FLAGS.EIGHTBITALPHA = true ↔
      hasMultiBitAlpha format = true) ∧
    VTF_FLAGS.ONEBITALPHA ≠ VTF_FLAGS.EIGHTBITALPHA ∧
    VTF_FLAGS.ONEBITALPHA &&& VTF_FLAGS.EIGHTBITALPHA = 0 ∧
    ¬ (hasFlag (saveSprayFlags format mipmaps mode) VTF_FLAGS.ONEBITALPHA = true ∧
        hasFlag (saveSprayFlags format mipmaps mode) VTF_FLAGS.EIGHTBITALPHA = true) ∧
    ¬ (hasOneBitAlpha format = true ∧ hasMultiBitAlpha format = true) ∧
    (hasAlpha format = true ↔
      (hasOneBitAlpha format = true ∨ hasMultiBitAlpha format = true)) := by
  obtain ⟨_, h2, h3, _⟩ := saveSprayFlags_bits format mipmaps mode
  rw [h2, h3]
  have hex : ¬ (hasOneBitAlpha format = true ∧ hasMultiBitAlpha format = true) := by
    cases format <;> decide
  refine ⟨Iff.rfl, Iff.rfl, by decide, by decide, hex, hex, ?_⟩
  unfold hasAlpha
  simp

/-! ## Packed 16-bit formats -/

set_option maxRecDepth 100000 in
theorem byte_fields (x : Nat) (hx : x < 256) :
    (x &&& 0xF8) <<< 8 = (x >>> 3) <<< 11 ∧ (x &&& 0xFC) <<< 3 = (x >>> 2) <<< 5 ∧
    (x &&& 0xF8) >>> 3 = x >>> 3 ∧ (x &&& 0xF8) <<< 7 = (x >>> 3) <<< 10 ∧
    (x &&& 0xF8) <<< 2 = (x >>> 3) <<< 5 ∧ (x &&& 0x80) <<< 8 = (x >>> 7) <<< 15 ∧
    (x &&& 0xF0) <<< 4 = (x >>> 4) <<< 8 ∧ (x &&& 0xF0) <<< 0 = (x >>> 4) <<< 4 ∧
    (x &&& 0xF0) >>> 4 = x >>> 4 ∧ (x &&& 0xF0) <<< 8 = (x >>> 4) <<< 12 := by
  revert x
  decide

set_option maxRecDepth 100000 in
theorem byte_bounds (x : Nat) (hx : x < 256) :
    (x >>> 3) <<< 11 < 2 ^ 16 ∧ (x >>> 2) <<< 5 < 2 ^ 16 ∧ x >>> 3 < 2 ^ 16 ∧
    (x >>> 7) <<< 15 < 2 ^ 16 ∧ (x >>> 3) <<< 10 < 2 ^ 16 ∧ (x >>> 3) <<< 5 < 2 ^ 16 ∧
    (x >>> 4) <<< 12 < 2 ^ 16 ∧ (x >>> 4) <<< 8 < 2 ^ 16 ∧ (x >>> 4) <<< 4 < 2 ^ 16 ∧
    x >>> 4 < 2 ^ 16 := by
  revert x
  decide

set_option maxRecDepth 100000 in
theorem byte_565 (x : Nat) (hx : x < 256) :
    bitField ((x >>> 3) <<< 11) 11 31 = x >>> 3 ∧ bitField ((x >>> 3) <<< 11) 5 63 = 0 ∧
    bitField ((x >>> 3) <<< 11) 0 31 = 0 ∧
    bitField ((x >>> 2) <<< 5) 11 31 = 0 ∧ bitField ((x >>> 2) <<< 5) 5 63 = x >>> 2 ∧
    bitField ((x >>> 2) <<< 5) 0 31 = 0 ∧
    bitField (x >>> 3) 11 31 = 0 ∧ bitField (x >>> 3) 5 63 = 0 ∧
    bitField (x >>> 3) 0 31 = x >>> 3 := by
  revert x
  decide

set_option maxRecDepth 100000 in
theorem byte_5551 (x : Nat) (hx : x < 256) :
    bitField ((x >>> 7) <<< 15) 15 1 = x >>> 7 ∧ bitField ((x >>> 7) <<< 15) 10 31 = 0 ∧
    bitField ((x >>> 7) <<< 15) 5 31 = 0 ∧ bitField ((x >>> 7) <<< 15) 0 31 = 0 ∧
    bitField ((x >>> 3) <<< 10) 15 1 = 0 ∧ bitField ((x >>> 3) <<< 10) 10 31 = x >>> 3 ∧
    bitField ((x >>> 3) <<< 10) 5 31 = 0 ∧ bitField ((x >>> 3) <<< 10) 0 31 = 0 ∧
    bitField ((x >>> 3) <<< 5) 15 1 = 0 ∧ bitField ((x >>> 3) <<< 5) 10 31 = 0 ∧
    bitField ((x >>> 3) <<< 5) 5 31 = x >>> 3 ∧ bitField ((x >>> 3) <<< 5) 0 31 = 0 ∧
    bitField (x >>> 3) 15 1 = 0 ∧ bitField (x >>> 3) 10 31 = 0 ∧
    bitField (x >>> 3) 5 31 = 0 ∧ bitField (x >>> 3) 0 31 = x >>> 3 := by
  revert x
  decide

set_option maxRecDepth 100000 in
theorem byte_4444 (x : Nat) (hx : x < 256) :
    bitField ((x >>> 4) <<< 12) 12 15 = x >>> 4 ∧ bitField ((x >>> 4) <<< 12) 8 15 = 0 ∧
    bitField ((x >>> 4) <<< 12) 4 15 = 0 ∧ bitField ((x >>> 4) <<< 12) 0 15 = 0 ∧
    bitField ((x >>> 4) <<< 8) 12 15 = 0 ∧ bitField ((x >>> 4) <<< 8) 8 15 = x >>> 4 ∧
    bitField ((x >>> 4) <<< 8) 4 15 = 0 ∧ bitField ((x >>> 4) <<< 8) 0 15 = 0 ∧
    bitField ((x >>> 4) <<< 4) 12 15 = 0 ∧ bitField ((x >>> 4) <<< 4) 8 15 = 0 ∧
    bitField ((x >>> 4) <<< 4) 4 15 = x >>> 4 ∧ bitField ((x >>> 4) <<< 4) 0 15 = 0 ∧
    bitField (x >>> 4) 12 15 = 0 ∧ bitField (x >>> 4) 8 15 = 0 ∧
    bitField (x >>> 4) 4 15 = 0 ∧ bitField (x >>> 4) 0 15 = x >>> 4 := by
  revert x
  decide

theorem shiftRight_or (a b k : Nat) : (a ||| b) >>> k = (a >>> k) ||| (b >>> k) := by
  apply Nat.eq_of_testBit_eq
  intro i
  simp only [Nat.testBit_shiftRight, Nat.testBit_or]

theorem bitField_or (a b shift mask : Nat) :
    bitField (a ||| b) shift mask = bitField a shift mask ||| bitField b shift mask := by
  unfold bitField
  rw [shiftRight_or, Nat.and_distrib_right]

theorem wordBGR565_fields (r g b : Nat) (hr : r < 256) (hg : g < 256) (hb : b < 256) :
    wordBGR565 r g b < 65536 ∧ bitField (wordBGR565 r g b) 11 31 = r >>> 3 ∧
      bitField (wordBGR565 r g b) 5 63 = g >>> 2 ∧ bitField (wordBGR565 r g b) 0 31 = b >>> 3 := by
  obtain ⟨r1, r2, r3, _⟩ := byte_565 r hr
  obtain ⟨_, _, _, g1, g2, g3, _⟩ := byte_565 g hg
  obtain ⟨_, _, _, _, _, _, b1, b2, b3⟩ := byte_565 b hb
  have br := byte_bounds r hr
  have bg := byte_bounds g hg
  have bb := byte_bounds b hb
  unfold wordBGR565
  refine ⟨Nat.or_lt_two_pow (Nat.or_lt_two_pow br.1 bg.2.1) bb.2.2.1, ?_, ?_, ?_⟩
  · rw [bitField_or, bitField_or, r1, g1, b1]; simp
  · rw [bitField_or, bitField_or, r2, g2, b2]; simp
  · rw [bitField_or, bitField_or, r3, g3, b3]; simp

theorem wordBGRA5551_fields (r g b a : Nat) (hr : r < 256) (hg : g < 256) (hb : b < 256)
    (ha : a < 256) :
    wordBGRA5551 r g b a < 65536 ∧ bitField (wordBGRA5551 r g b a) 15 1 = a >>> 7 ∧
      bitField (wordBGRA5551 r g b a) 10 31 = r >>> 3 ∧
      bitField (wordBGRA5551 r g b a) 5 31 = g >>> 3 ∧
      bitField (wordBGRA5551 r g b a) 0 31 = b >>> 3 := by
  obtain ⟨a1, a2, a3, a4, _⟩ := byte_5551 a ha
  obtain ⟨_, _, _, _, r1, r2, r3, r4, _⟩ := byte_5551 r hr
  obtain ⟨_, _, _, _, _, _, _, _, g1, g2, g3, g4, _⟩ := byte_5551 g hg
  obtain ⟨_, _, _, _, _, _, _, _, _, _, _, _, b1, b2, b3, b4⟩ := byte_5551 b hb
  have bnda := byte_bounds a ha
  have bndr := byte_bounds r hr
  have bndg := byte_bounds g hg
  have bndb := byte_bounds b hb
  unfold wordBGRA5551
  refine ⟨Nat.or_lt_two_pow (Nat.or_lt_two_pow (Nat.or_lt_two_pow bnda.2.2.2.1 bndr.2.2.2.2.1)
    bndg.2.2.2.2.2.1) bndb.2.2.1, ?_, ?_, ?_, ?_⟩
  · rw [bitField_or, bitField_or, bitField_or, a1, r1, g1, b1]; simp
  · rw [bitField_or, bitField_or, bitField_or, a2, r2, g2, b2]; simp
  · rw [bitField_or, bitField_or, bitField_or, a3, r3, g3, b3]; simp
  · rw [bitField_or, bitField_or, bitField_or, a4, r4, g4, b4]; simp

theorem wordBGRA4444_fields (r g b a : Nat) (hr : r < 256) (hg : g < 256) (hb : b < 256)
    (ha : a < 256) :
    wordBGRA4444 r g b a < 65536 ∧ bitField (wordBGRA4444 r g b a) 12 15 = a >>> 4 ∧
      bitField (wordBGRA4444 r g b a) 8 15 = r >>> 4 ∧
      bitField (wordBGRA4444 r g b a) 4 15 = g >>> 4 ∧
      bitField (wordBGRA4444 r g b a) 0 15 = b >>> 4 := by
  obtain ⟨a1, a2, a3, a4, _⟩ := byte_4444 a ha
  obtain ⟨_, _, _, _, r1, r2, r3, r4, _⟩ := byte_4444 r hr
  obtain ⟨_, _, _, _, _, _, _, _, g1, g2, g3, g4, _⟩ := byte_4444 g hg
  obtain ⟨_, _, _, _, _, _, _, _, _, _, _, _, b1, b2, b3, b4⟩ := byte_4444 b hb
  have bnda := byte_bounds a ha
  have bndr := byte_bounds r hr
  have bndg := byte_bounds g hg
  have bndb := byte_bounds b hb
  unfold wordBGRA4444
  refine ⟨Nat.or_lt_two_pow (Nat.or_lt_two_pow (Nat.or_lt_two_pow bnda.2.2.2.2.2.2.1
    bndr.2.2.2.2.2.2.2.1) bndg.2.2.2.2.2.2.2.2.1) bndb.2.2.2.2.2.2.2.2.2, ?_, ?_, ?_, ?_⟩
  · rw [bitField_or, bitField_or, bitField_or, a1, r1, g1, b1]; simp
  · rw [bitField_or, bitField_or, bitField_or, a2, r2, g2, b2]; simp
  · rw [bitField_or, bitField_or, bitField_or, a3, r3, g3, b3]; simp
  · rw [bitField_or, bitField_or, bitField_or, a4, r4, g4, b4]; simp

theorem lowHigh_value (w : Nat) (hw : w < 65536) :
    w % 256 + 256 * ((w >>> 8) % 256) = w := by
  rw [Nat.shiftRight_eq_div_pow]
  omega

theorem convert_BGR565 (fp : FloatOps) (src : CrnPixelFormat)
    (hsrc : isRecognisedLayout src = true) (r g b a : Nat) (hr : r < 256) (hg : g < 256)
    (hb : b < 256) (th : Int) :
    convertPixelFormat fp [⟨r, g, b, a⟩] 1 src BGR565 th = .ok (lowHigh (wordBGR565 r g b)) := by
  have h1 : convertPixelFormat fp [⟨r, g, b, a⟩] 1 src BGR565 th =
      .ok (lowHigh (((((r &&& 0xF8) <<< 8) ||| ((g &&& 0xFC) <<< 3))
        ||| ((b &&& 0xF8) >>> 3)) % 65536)) := by
    cases src <;> first | rfl | exact absurd hsrc (by decide)
  rw [h1, (byte_fields r hr).1, (byte_fields g hg).2.1, (byte_fields b hb).2.2.1]
  have hlt := (wordBGR565_fields r g b hr hg hb).1
  unfold wordBGR565 at hlt ⊢
  rw [Nat.mod_eq_of_lt hlt]

theorem convert_RGB565 (fp : FloatOps) (src : CrnPixelFormat)
    (hsrc : isRecognisedLayout src = true) (r g b a : Nat) (hr : r < 256) (hg : g < 256)
    (hb : b < 256) (th : Int) :
    convertPixelFormat fp [⟨r, g, b, a⟩] 1 src RGB565 th = .ok (lowHigh (wordRGB565 r g b)) := by
  have h1 : convertPixelFormat fp [⟨r, g, b, a⟩] 1 src RGB565 th =
      .ok (lowHigh (((((r &&& 0xF8) >>> 3) ||| ((g &&& 0xFC) <<< 3))
        ||| ((b &&& 0xF8) <<< 8)) % 65536)) := by
    cases src <;> first | rfl | exact absurd hsrc (by decide)
  rw [h1, (byte_fields r hr).2.2.1, (byte_fields g hg).2.1, (byte_fields b hb).1]
  have hlt := (wordBGR565_fields b g r hb hg hr).1
  have hw : ((r >>> 3) ||| ((g >>> 2) <<< 5)) ||| ((b >>> 3) <<< 11) = wordRGB565 r g b := by
    unfold wordRGB565
    ac_rfl
  rw [hw, Nat.mod_eq_of_lt (show wordRGB565 r g b < 65536 from hlt)]

theorem convert_5551 (fp : FloatOps) (src : CrnPixelFormat)
    (hsrc : isRecognisedLayout src = true) (r g b a : Nat) (hr : r < 256) (hg : g < 256)
    (hb : b < 256) (ha : a < 256) (th : Int) :
    convertPixelFormat fp [⟨r, g, b, a⟩] 1 src BGRA5551 th
        = .ok (lowHigh (wordBGRA5551 r g b a)) ∧
      convertPixelFormat fp [⟨r, g, b, a⟩] 1 src BGRX5551 th
        = .ok (lowHigh (wordBGRA5551 r g b a)) := by
  have h1 : convertPixelFormat fp [⟨r, g, b, a⟩] 1 src BGRA5551 th =
      .ok (lowHigh (((((r &&& 0xF8) <<< 7) ||| ((g &&& 0xF8) <<< 2))
        ||| (((b &&& 0xF8) >>> 3) ||| ((a &&& 0x80) <<< 8))) % 65536)) := by
    cases src <;> first | rfl | exact absurd hsrc (by decide)
  have h2 : convertPixelFormat fp [⟨r, g, b, a⟩] 1 src BGRX5551 th =
      .ok (lowHigh (((((r &&& 0xF8) <<< 7) ||| ((g &&& 0xF8) <<< 2))
        ||| (((b &&& 0xF8) >>> 3) ||| ((a &&& 0x80) <<< 8))) % 65536)) := by
    cases src <;> first | rfl | exact absurd hsrc (by decide)
  rw [h1, h2, (byte_fields r hr).2.2.2.1, (byte_fields g hg).2.2.2.2.1,
    (byte_fields b hb).2.2.1, (byte_fields a ha).2.2.2.2.2.1]
  have hlt := (wordBGRA5551_fields r g b a hr hg hb ha).1
  have hw : (((r >>> 3) <<< 10) ||| ((g >>> 3) <<< 5)) ||| ((b >>> 3) ||| ((a >>> 7) <<< 15))
      = wordBGRA5551 r g b a := by
    unfold wordBGRA5551
    ac_rfl
  rw [hw, Nat.mod_eq_of_lt hlt]
  exact ⟨rfl, rfl⟩

theorem convert_BGRA4444 (fp : FloatOps) (src : CrnPixelFormat)
    (hsrc : isRecognisedLayout src = true) (r g b a : Nat) (hr : r < 256) (hg : g < 256)
    (hb : b < 256) (ha : a < 256) (th : Int) :
    convertPixelFormat fp [⟨r, g, b, a⟩] 1 src BGRA4444 th
      = .ok (lowHigh (wordBGRA4444 r g b a)) := by
  have h1 : convertPixelFormat fp [⟨r, g, b, a⟩] 1 src BGRA4444 th =
      .ok (lowHigh (((((r &&& 0xF0) <<< 4) ||| ((g &&& 0xF0) <<< 0))
        ||| (((b &&& 0xF0) >>> 4) ||| ((a &&& 0xF0) <<< 8))) % 65536)) := by
    cases src <;> first | rfl | exact absurd hsrc (by decide)
  rw [h1, (byte_fields r hr).2.2.2.2.2.2.1, (byte_fields g hg).2.2.2.2.2.2.2.1,
    (byte_fields b hb).2.2.2.2.2.2.2.2.1, (byte_fields a ha).2.2.2.2.2.2.2.2.2]
  have hlt := (wordBGRA4444_fields r g b a hr hg hb ha).1
  have hw : (((r >>> 4) <<< 8) ||| ((g >>> 4) <<< 4)) ||| ((b >>> 4) ||| ((a >>> 4) <<< 12))
      = wordBGRA4444 r g b a := by
    unfold wordBGRA4444
    ac_rfl
  rw [hw, Nat.mod_eq_of_lt hlt]

/-- C16. For every source pixel `(r, g, b, a)` of bytes, the 16-bit packed
formats emit two bytes, low byte then high byte, of the word `W` of the
contract: BGR565 `(r>>3)<<11 | (g>>2)<<5 | (b>>3)`, RGB565
`(b>>3)<<11 | (g>>2)<<5 | (r>>3)`, BGRA5551 and BGRX5551
`(a>>7)<<15 | (r>>3)<<10 | (g>>3)<<5 | (b>>3)`, BGRA4444
`(a>>4)<<12 | (r>>4)<<8 | (g>>4)<<4 | (b>>4)`. Each word fits 16 bits, is
recovered from its two bytes, and every channel's truncated top bits are
recovered from their own bit field of the word. -/
theorem packed16_words (fp : FloatOps) (src : CrnPixelFormat)
    (hsrc : isRecognisedLayout src = true) (r g b a : Nat) (hr : r < 256) (hg : g < 256)
    (hb : b < 256) (ha : a < 256) (th : Int) :
    (convertPixelFormat fp [⟨r, g, b, a⟩] 1 src BGR565 th = .ok (lowHigh (wordBGR565 r g b)) ∧
      convertPixelFormat fp [⟨r, g, b, a⟩] 1 src RGB565 th = .ok (lowHigh (wordRGB565 r g b)) ∧
      convertPixelFormat fp [⟨r, g, b, a⟩] 1 src BGRA5551 th
        = .ok (lowHigh (wordBGRA5551 r g b a)) ∧
      convertPixelFormat fp [⟨r, g, b, a⟩] 1 src BGRX5551 th
        = .ok (lowHigh (wordBGRA5551 r g b a)) ∧
      convertPixelFormat fp [⟨r, g, b, a⟩] 1 src BGRA4444 th
        = .ok (lowHigh (wordBGRA4444 r g b a))) ∧
    (∀ w, w < 65536 → lowHigh w = [w % 256, (w >>> 8) % 256] ∧
      w % 256 + 256 * ((w >>> 8) % 256) = w) ∧
    (wordBGR565 r g b < 65536 ∧ bitField (wordBGR565 r g b) 11 31 = r >>> 3 ∧
      bitField (wordBGR565 r g b) 5 63 = g >>> 2 ∧ bitField (wordBGR565 r g b) 0 31 = b >>> 3) ∧
    (wordRGB565 r g b < 65536 ∧ bitField (wordRGB565 r g b) 11 31 = b >>> 3 ∧
      bitField (wordRGB565 r g b) 5 63 = g >>> 2 ∧ bitField (wordRGB565 r g b) 0 31 = r >>> 3) ∧
    (wordBGRA5551 r g b a < 65536 ∧ bitField (wordBGRA5551 r g b a) 15 1 = a >>> 7 ∧
      bitField (wordBGRA5551 r g b a) 10 31 = r >>> 3 ∧
      bitField (wordBGRA5551 r g b a) 5 31 = g >>> 3 ∧
      bitField (wordBGRA5551 r g b a) 0 31 = b >>> 3) ∧
    (wordBGRA4444 r g b a < 65536 ∧ bitField (wordBGRA4444 r g b a) 12 15 = a >>> 4 ∧
      bitField (wordBGRA4444 r g b a) 8 15 = r >>> 4 ∧
      bitField (wordBGRA4444 r g b a) 4 15 = g >>> 4 ∧
      bitField (wordBGRA4444 r g b a) 0 15 = b >>> 4) ∧
    (r >>> 3 = r / 8 ∧ r >>> 4 = r / 16 ∧ g >>> 2 = g / 4 ∧ a >>> 7 = a / 128) := by
  refine ⟨⟨convert_BGR565 fp src hsrc r g b a hr hg hb th,
      convert_RGB565 fp src hsrc r g b a hr hg hb th,
      (convert_5551 fp src hsrc r g b a hr hg hb ha th).1,
      (convert_5551 fp src hsrc r g b a hr hg hb ha th).2,
      convert_BGRA4444 fp src hsrc r g b a hr hg hb ha th⟩,
    fun w hw => ⟨rfl, lowHigh_value w hw⟩,
    wordBGR565_fields r g b hr hg hb, wordBGR565_fields b g r hb hg hr,
    wordBGRA5551_fields r g b a hr hg hb ha, wordBGRA4444_fields r g b a hr hg hb ha, ?_⟩
  simp [Nat.shiftRight_eq_div_pow]

/-- C16, at a concrete input: the pixel (255, 128, 64, 255) in BGR565 is the
word 0xFC08, emitted as the bytes 0x08, 0xFC. -/
theorem packed16_words_witness :
    isRecognisedLayout PIXEL_FMT_R8G8B8 = true ∧ wordBGR565 255 128 64 = 0xFC08 ∧
      convertPixelFormat integerFloatOps [⟨255, 128, 64, 255⟩] 1 PIXEL_FMT_R8G8B8 BGR565 0
        = .ok (lowHigh (wordBGR565 255 128 64)) ∧
      lowHigh (wordBGR565 255 128 64) = [0x08, 0xFC] :=
  ⟨rfl, by decide,
    (packed16_words integerFloatOps PIXEL_FMT_R8G8B8 rfl 255 128 64 255 (by decide) (by decide)
      (by decide) (by decide) 0).1.1, by decide⟩

/-! ## Bluescreen formats and the source-layout check -/

/-- C12. For both bluescreen formats, every source pixel `(r, g, b, a)` and
every `alphaThreshold`: the three bytes emitted are `B, G, R` for
BGR888_BLUESCREEN and `R, G, B` for RGB888_BLUESCREEN of one colour
`(R, G, B)`; a pixel with `a < alphaThreshold` encodes to the key colour
`(0, 0, 255)`; a pixel with `a >= alphaThreshold` whose colour equals the key
is emitted as `(0, 0, 254)`, and every other colour is passed through
unchanged; hence the emitted colour equals the key iff `a < alphaThreshold`. -/
theorem bluescreen_encoding (fp : FloatOps) (src : CrnPixelFormat)
    (hsrc : isRecognisedLayout src = true) (r g b a : Nat) (alphaThreshold : Int) :
    ∃ R G B : Nat,
      convertPixelFormat fp [⟨r, g, b, a⟩] 1 src BGR888_BLUESCREEN alphaThreshold
        = .ok [B, G, R] ∧
      convertPixelFormat fp [⟨r, g, b, a⟩] 1 src RGB888_BLUESCREEN alphaThreshold
        = .ok [R, G, B] ∧
      ((a : Int) < alphaThreshold → (R, G, B) = (0, 0, 255)) ∧
      (¬ (a : Int) < alphaThreshold → (r, g, b) = (0, 0, 255) → (R, G, B) = (0, 0, 254)) ∧
      (¬ (a : Int) < alphaThreshold → (r, g, b) ≠ (0, 0, 255) → (R, G, B) = (r, g, b)) ∧
      ((R, G, B) = (0, 0, 255) ↔ (a : Int) < alphaThreshold) := by
  refine ⟨if decide ((a : Int) < alphaThreshold) = true then 0 else r,
    if decide ((a : Int) < alphaThreshold) = true then 0 else g,
    if decide ((a : Int) < alphaThreshold) = true then 255
      else (if r = 0 ∧ g = 0 ∧ b = 255 then 254 else b), ?_, ?_, ?_, ?_, ?_, ?_⟩
  · cases src <;> first | rfl | exact absurd hsrc (by decide)
  · cases src <;> first | rfl | exact absurd hsrc (by decide)
  · intro h
    simp [h]
  · intro h hk
    simp only [Prod.mk.injEq] at hk
    obtain ⟨h1, h2, h3⟩ := hk
    subst h1 h2 h3
    simp [h]
  · intro h hk
    simp only [ne_eq, Prod.mk.injEq] at hk
    simp only [h, decide_False, Bool.false_eq_true, if_false, Prod.mk.injEq, true_and]
    rw [if_neg hk]
  · by_cases h : (a : Int) < alphaThreshold
    · simp [h]
    · simp only [h, decide_False, Bool.false_eq_true, if_false, Prod.mk.injEq, iff_false]
      rintro ⟨h1, h2, h3⟩
      subst h1 h2
      by_cases hb : b = 255
      · subst hb
        simp at h3
      · simp [hb] at h3

/-- C12, at concrete inputs: a half-transparent red pixel below the threshold
becomes the key colour, and an opaque pure-blue pixel is emitted with blue 254. -/
theorem bluescreen_encoding_witness :
    isRecognisedLayout PIXEL_FMT_A8R8G8B8 = true ∧
    convertPixelFormat integerFloatOps [⟨255, 0, 0, 100⟩] 1 PIXEL_FMT_A8R8G8B8
      BGR888_BLUESCREEN 128 = .ok [255, 0, 0] ∧
    convertPixelFormat integerFloatOps [⟨0, 0, 255, 200⟩] 1 PIXEL_FMT_A8R8G8B8
      RGB888_BLUESCREEN 128 = .ok [0, 0, 254] ∧
    ∃ R G B : Nat,
      convertPixelFormat integerFloatOps [⟨0, 0, 255, 200⟩] 1 PIXEL_FMT_A8R8G8B8
        BGR888_BLUESCREEN 128 = .ok [B, G, R] ∧ (R, G, B) = (0, 0, 254) := by
  refine ⟨rfl, rfl, rfl, ?_⟩
  obtain ⟨R, G, B, h1, _, _, h4, _⟩ :=
    bluescreen_encoding integerFloatOps PIXEL_FMT_A8R8G8B8 rfl 0 0 255 200 128
  exact ⟨R, G, B, h1, h4 (by decide) rfl⟩

theorem convertPixelFormat_ok_of_recognised (fp : FloatOps) (dataPtr : List ColorQuad)
    (count : Int) (src : CrnPixelFormat) (dst : ImageFormat) (th : Int)
    (hsrc : isRecognisedLayout src = true) :
    ∃ out, convertPixelFormat fp dataPtr count src dst th = .ok out := by
  cases src <;> first
    | exact absurd hsrc (by decide)
    | (cases dst <;> exact ⟨_, rfl⟩)

theorem convertPixelFormat_error_of_unrecognised (fp : FloatOps) (dataPtr : List ColorQuad)
    (count : Int) (src : CrnPixelFormat) (dst : ImageFormat) (th : Int)
    (hsrc : isRecognisedLayout src = false) :
    convertPixelFormat fp dataPtr count src dst th =
      .error "Unsupported crnlib pixel format. This should never happen." := by
  cases src <;> first
    | exact absurd hsrc (by decide)
    | rfl

/-- C15. The conversion `convertPixelFormat` raises an error if and only if
the source channel layout is not one of the five recognised layouts, for every
destination format, count and threshold; when it raises, the result is the
exception alone (no byte has been written, the check precedes the encoding
branches), and an unrecognised layout never yields output under a default
layout. -/
theorem convertPixelFormat_raises_iff (fp : FloatOps) (dataPtr : List ColorQuad)
    (count : Int) (src : CrnPixelFormat) (dst : ImageFormat) (th : Int) :
    ((∃ e, convertPixelFormat fp dataPtr count src dst th = .error e) ↔
      isRecognisedLayout src = false) ∧
    ((∃ out, convertPixelFormat fp dataPtr count src dst th = .ok out) ↔
      isRecognisedLayout src = true) ∧
    (isRecognisedLayout src = true ↔
      (src = PIXEL_FMT_A8R8G8B8 ∨ src = PIXEL_FMT_R8G8B8 ∨ src = PIXEL_FMT_A8L8 ∨
        src = PIXEL_FMT_L8 ∨ src = PIXEL_FMT_A8)) := by
  refine ⟨⟨?_, ?_⟩, ⟨?_, ?_⟩, ?_⟩
  · rintro ⟨e, he⟩
    by_contra hr
    have hr' : isRecognisedLayout src = true := by simpa using hr
    obtain ⟨out, ho⟩ := convertPixelFormat_ok_of_recognised fp dataPtr count src dst th hr'
    rw [ho] at he
    cases he
  · intro hr
    exact ⟨_, convertPixelFormat_error_of_unrecognised fp dataPtr count src dst th hr⟩
  · rintro ⟨out, ho⟩
    by_contra hr
    have hr' : isRecognisedLayout src = false := by simpa using hr
    rw [convertPixelFormat_error_of_unrecognised fp dataPtr count src dst th hr'] at ho
    cases ho
  · exact convertPixelFormat_ok_of_recognised fp dataPtr count src dst th
  · cases src <;> simp [isRecognisedLayout]

/-! ## Bounding box union -/

theorem BoundingBox.add_comm (x y : BoundingBox) : x.add y = y.add x := by
  simp only [BoundingBox.add, BoundingBox.mk.injEq]
  exact ⟨min_comm _ _, max_comm _ _, min_comm _ _, max_comm _ _, max_comm _ _, max_comm _ _⟩

theorem BoundingBox.add_assoc (x y z : BoundingBox) : (x.add y).add z = x.add (y.add z) := by
  simp only [BoundingBox.add, BoundingBox.mk.injEq]
  exact ⟨min_assoc _ _ _, max_assoc _ _ _, min_assoc _ _ _, max_assoc _ _ _, max_assoc _ _ _,
    max_assoc _ _ _⟩

theorem BoundingBox.add_self (x : BoundingBox) : x.add x = x := by
  cases x
  simp [BoundingBox.add]

theorem BoundingBox.default_add (b : BoundingBox) (hl : b.left < U32) (ht : b.top < U32) :
    ({} : BoundingBox).add b = b ∧ b.add {} = b := by
  have hU : U32 = 4294967296 := rfl
  have hl' : b.left ≤ 4294967295 := by omega
  have ht' : b.top ≤ 4294967295 := by omega
  cases b
  simp only [BoundingBox.add, BoundingBox.mk.injEq]
  exact ⟨⟨min_eq_right hl', max_eq_right (Nat.zero_le _), min_eq_right ht',
      max_eq_right (Nat.zero_le _), max_eq_right (Nat.zero_le _), max_eq_right (Nat.zero_le _)⟩,
    ⟨min_eq_left hl', max_eq_left (Nat.zero_le _), min_eq_left ht',
      max_eq_left (Nat.zero_le _), max_eq_left (Nat.zero_le _), max_eq_left (Nat.zero_le _)⟩⟩

theorem BoundingBox.add_right_comm (z x y : BoundingBox) :
    (z.add x).add y = (z.add y).add x := by
  rw [BoundingBox.add_assoc, BoundingBox.add_comm x y, ← BoundingBox.add_assoc]

theorem foldl_add_min (p : BoundingBox → Nat)
    (hp : ∀ x y : BoundingBox, p (x.add y) = min (p x) (p y)) (boxes : List BoundingBox) :
    ∀ init : BoundingBox,
      p (boxes.foldl BoundingBox.add init) ≤ p init ∧
      (∀ b ∈ boxes, p (boxes.foldl BoundingBox.add init) ≤ p b) ∧
      (p (boxes.foldl BoundingBox.add init) = p init ∨
        ∃ b ∈ boxes, p (boxes.foldl BoundingBox.add init) = p b) := by
  induction boxes with
  | nil =>
    intro init
    simp
  | cons b rest ih =>
    intro init
    obtain ⟨h1, h2, h3⟩ := ih (init.add b)
    rw [hp] at h1 h3
    simp only [List.foldl_cons, List.mem_cons, forall_eq_or_imp, exists_eq_or_imp]
    refine ⟨le_trans h1 (min_le_left _ _), ⟨le_trans h1 (min_le_right _ _), h2⟩, ?_⟩
    rcases h3 with h3 | h3
    · rcases min_choice (p init) (p b) with hm | hm
      · exact Or.inl (h3.trans hm)
      · exact Or.inr (Or.inl (h3.trans hm))
    · exact Or.inr (Or.inr h3)

theorem foldl_add_max (p : BoundingBox → Nat)
    (hp : ∀ x y : BoundingBox, p (x.add y) = max (p x) (p y)) (boxes : List BoundingBox) :
    ∀ init : BoundingBox,
      p init ≤ p (boxes.foldl BoundingBox.add init) ∧
      (∀ b ∈ boxes, p b ≤ p (boxes.foldl BoundingBox.add init)) ∧
      (p (boxes.foldl BoundingBox.add init) = p init ∨
        ∃ b ∈ boxes, p (boxes.foldl BoundingBox.add init) = p b) := by
  induction boxes with
  | nil =>
    intro init
    simp
  | cons b rest ih =>
    intro init
    obtain ⟨h1, h2, h3⟩ := ih (init.add b)
    rw [hp] at h1 h3
    simp only [List.foldl_cons, List.mem_cons, forall_eq_or_imp, exists_eq_or_imp]
    refine ⟨le_trans (le_max_left _ _) h1, ⟨le_trans (le_max_right _ _) h1, h2⟩, ?_⟩
    rcases h3 with h3 | h3
    · rcases max_choice (p init) (p b) with hm | hm
      · exact Or.inl (h3.trans hm)
      · exact Or.inr (Or.inl (h3.trans hm))
    · exact Or.inr (Or.inr h3)

/-- Accumulating into the default box gives the least value of a field that is
combined with `min`, when the field starts at `2^32 - 1`. -/
theorem accumulate_min (p : BoundingBox → Nat)
    (hp : ∀ x y : BoundingBox, p (x.add y) = min (p x) (p y))
    (hinit : p {} = 4294967295) (boxes : List BoundingBox) (hne : boxes ≠ [])
    (hu32 : ∀ b ∈ boxes, p b < U32) :
    (∃ b ∈ boxes, p (accumulateBoxes boxes) = p b) ∧
      ∀ b ∈ boxes, p (accumulateBoxes boxes) ≤ p b := by
  have hU : U32 = 4294967296 := rfl
  obtain ⟨_, h2, h3⟩ := foldl_add_min p hp boxes {}
  refine ⟨?_, h2⟩
  rcases h3 with h3 | h3
  · obtain ⟨b0, hb0⟩ := List.exists_mem_of_ne_nil boxes hne
    refine ⟨b0, hb0, ?_⟩
    have := h2 b0 hb0
    have := hu32 b0 hb0
    unfold accumulateBoxes
    omega
  · exact h3

/-- Accumulating into the default box gives the greatest value of a field that
is combined with `max`, when the field starts at 0. -/
theorem accumulate_max (p : BoundingBox → Nat)
    (hp : ∀ x y : BoundingBox, p (x.add y) = max (p x) (p y))
    (hinit : p {} = 0) (boxes : List BoundingBox) (hne : boxes ≠ []) :
    (∃ b ∈ boxes, p (accumulateBoxes boxes) = p b) ∧
      ∀ b ∈ boxes, p b ≤ p (accumulateBoxes boxes) := by
  obtain ⟨_, h2, h3⟩ := foldl_add_max p hp boxes {}
  refine ⟨?_, h2⟩
  rcases h3 with h3 | h3
  · obtain ⟨b0, hb0⟩ := List.exists_mem_of_ne_nil boxes hne
    refine ⟨b0, hb0, ?_⟩
    have := h2 b0 hb0
    unfold accumulateBoxes
    omega
  · exact h3

theorem accumulateBoxes_perm {boxes boxes' : List BoundingBox} (h : boxes'.Perm boxes) :
    accumulateBoxes boxes' = accumulateBoxes boxes :=
  h.foldl_eq' (fun x _ y _ z => BoundingBox.add_right_comm z x y) {}

/-- C20. For every non-empty sequence of bounding boxes (with `uint` fields),
accumulating them with `+=` into a default-constructed box yields the minimum
of the lefts and of the tops and the maximum of the rights, bottoms, widths
and heights; the default box is an identity of the union; the result does not
depend on the order of the frames; and the union is commutative, associative
and idempotent. -/
theorem accumulateBoxes_union (boxes : List BoundingBox) (hne : boxes ≠ [])
    (hu32 : ∀ b ∈ boxes, b.left < U32 ∧ b.top < U32) :
    ((∃ b ∈ boxes, (accumulateBoxes boxes).left = b.left) ∧
      ∀ b ∈ boxes, (accumulateBoxes boxes).left ≤ b.left) ∧
    ((∃ b ∈ boxes, (accumulateBoxes boxes).top = b.top) ∧
      ∀ b ∈ boxes, (accumulateBoxes boxes).top ≤ b.top) ∧
    ((∃ b ∈ boxes, (accumulateBoxes boxes).right = b.right) ∧
      ∀ b ∈ boxes, b.right ≤ (accumulateBoxes boxes).right) ∧
    ((∃ b ∈ boxes, (accumulateBoxes boxes).bottom = b.bottom) ∧
      ∀ b ∈ boxes, b.bottom ≤ (accumulateBoxes boxes).bottom) ∧
    ((∃ b ∈ boxes, (accumulateBoxes boxes).width = b.width) ∧
      ∀ b ∈ boxes, b.width ≤ (accumulateBoxes boxes).width) ∧
    ((∃ b ∈ boxes, (accumulateBoxes boxes).height = b.height) ∧
      ∀ b ∈ boxes, b.height ≤ (accumulateBoxes boxes).height) ∧
    (∀ boxes' : List BoundingBox, boxes'.Perm boxes →
      accumulateBoxes boxes' = accumulateBoxes boxes) ∧
    (({} : BoundingBox) = ⟨4294967295, 0, 4294967295, 0, 0, 0⟩ ∧
      ∀ b : BoundingBox, b.left < U32 → b.top < U32 →
        ({} : BoundingBox).add b = b ∧ b.add {} = b) ∧
    (∀ x y : BoundingBox, x.add y = y.add x) ∧
    (∀ x y z : BoundingBox, (x.add y).add z = x.add (y.add z)) ∧
    (∀ x : BoundingBox, x.add x = x) := by
  refine ⟨accumulate_min (·.left) (fun _ _ => rfl) rfl boxes hne (fun b hb => (hu32 b hb).1),
    accumulate_min (·.top) (fun _ _ => rfl) rfl boxes hne (fun b hb => (hu32 b hb).2),
    accumulate_max (·.right) (fun _ _ => rfl) rfl boxes hne,
    accumulate_max (·.bottom) (fun _ _ => rfl) rfl boxes hne,
    accumulate_max (·.width) (fun _ _ => rfl) rfl boxes hne,
    accumulate_max (·.height) (fun _ _ => rfl) rfl boxes hne,
    fun _ h => accumulateBoxes_perm h,
    ⟨rfl, BoundingBox.default_add⟩,
    BoundingBox.add_comm, BoundingBox.add_assoc, BoundingBox.add_self⟩

/-- C20, at a concrete input: the union of the boxes of two frames, in either
order. -/
theorem accumulateBoxes_union_witness :
    accumulateBoxes [⟨2, 5, 1, 4, 4, 4⟩, ⟨0, 3, 2, 7, 4, 6⟩] = ⟨0, 5, 1, 7, 4, 6⟩ ∧
    accumulateBoxes [⟨0, 3, 2, 7, 4, 6⟩, ⟨2, 5, 1, 4, 4, 4⟩] =
      accumulateBoxes [⟨2, 5, 1, 4, 4, 4⟩, ⟨0, 3, 2, 7, 4, 6⟩] :=
  ⟨by decide,
    (accumulateBoxes_union [⟨2, 5, 1, 4, 4, 4⟩, ⟨0, 3, 2, 7, 4, 6⟩] (by decide)
      (by decide)).2.2.2.2.2.2.1 _ (List.Perm.swap _ _ _)⟩

/-! ## Union width, closed-form size, crop rectangle -/

/-- C21. There are two bounding boxes, each with `width = right-left+1` and
`height = bottom-top+1`, whose union has a width different from
`right-left+1` and a height different from `bottom-top+1`: the union of
`{left 0, right 1, width 2}` and `{left 5, right 6, width 2}` has left 0,
right 6 and width 2. -/
theorem union_width_not_extent :
    ∃ b1 b2 : BoundingBox,
      b1.width = b1.right - b1.left + 1 ∧ b1.height = b1.bottom - b1.top + 1 ∧
      b2.width = b2.right - b2.left + 1 ∧ b2.height = b2.bottom - b2.top + 1 ∧
      (b1.left = 0 ∧ b1.right = 1 ∧ b1.width = 2) ∧ (b2.left = 5 ∧ b2.right = 6 ∧ b2.width = 2) ∧
      (b1.add b2).left = 0 ∧ (b1.add b2).right = 6 ∧ (b1.add b2).width = 2 ∧
      (b1.add b2).width ≠ (b1.add b2).right - (b1.add b2).left + 1 ∧
      (b1.add b2).height ≠ (b1.add b2).bottom - (b1.add b2).top + 1 ∧
      accumulateBoxes [b1, b2] = b1.add b2 :=
  ⟨⟨0, 1, 0, 1, 2, 2⟩, ⟨5, 6, 5, 6, 2, 2⟩, by decide⟩

theorem getImageDataSize_of_bpp4 (format : ImageFormat) (h4 : bytesPerPixel format = 4)
    (w h n f : Nat) : getImageDataSize format w h n f = sizeOfImage w h n f 4 := by
  have hd : isDxt format = false := by
    cases format <;> first | rfl | exact absurd h4 (by decide)
  unfold getImageDataSize
  rw [hd, h4]
  rfl

set_option maxRecDepth 100000 in
/-- C22. For every `k` with `0 <= k <= 14` and `n = 2^k`, with the automatic
mip count `getMaxMipmaps(n, n) = k+1`, one frame and a format of 4 bytes per
pixel, `getImageDataSize` equals `4 x sum over m in [0, k] of (n>>m)^2`, which
is the closed form `4 x (4^(k+1) - 1) / 3`. -/
theorem getImageDataSize_geometric (format : ImageFormat) (h4 : bytesPerPixel format = 4)
    (k : Nat) (hk : k ≤ 14) :
    getMaxMipmaps (2 ^ k) (2 ^ k) = k + 1 ∧
    getImageDataSize format (2 ^ k) (2 ^ k) (getMaxMipmaps (2 ^ k) (2 ^ k)) 1 =
      4 * ∑ m in Finset.range (k + 1), ((2 ^ k) >>> m) ^ 2 ∧
    4 * ∑ m in Finset.range (k + 1), ((2 ^ k) >>> m) ^ 2 = 4 * ((4 ^ (k + 1) - 1) / 3) := by
  rw [getImageDataSize_of_bpp4 format h4]
  interval_cases k <;> decide

/-- C22, at the concrete input of the specification: 256 x 256 RGBA8888 with
automatic mip count has 9 levels and 4 x 87381 = 349524 bytes. -/
theorem getImageDataSize_geometric_witness :
    bytesPerPixel RGBA8888 = 4 ∧ getMaxMipmaps 256 256 = 9 ∧
    getImageDataSize RGBA8888 (2 ^ 8) (2 ^ 8) (getMaxMipmaps (2 ^ 8) (2 ^ 8)) 1 =
      4 * ∑ m in Finset.range (8 + 1), ((2 ^ 8) >>> m) ^ 2 ∧
    getImageDataSize RGBA8888 256 256 (getMaxMipmaps 256 256) 1 = 4 * 87381 ∧
    4 * 87381 = 349524 :=
  ⟨rfl, by decide, (getImageDataSize_geometric RGBA8888 rfl 8 (by decide)).2.1, by decide,
    by decide⟩

/-- C28, at the failing input: in the 3 x 1 image whose middle pixel differs
from the two outer ones both scans stop at column 1, so `left = right = 1`, and
the width field is the full image width 3, not `right-left+1 = 1`; the crop
rectangle `left + width = 4` reaches beyond the 3 columns of the image. -/
theorem getImageBorders_crop_outside_image :
    getImageBorders (bufferOf [1, 1, 1, 255, 2, 2, 2, 255, 1, 1, 1, 255]) 3 1 .FULL 128 =
      { left := 1, right := 1, top := 0, bottom := 0, width := 3, height := 1 } ∧
    (getImageBorders (bufferOf [1, 1, 1, 255, 2, 2, 2, 255, 1, 1, 1, 255]) 3 1 .FULL 128).width ≠
      (getImageBorders (bufferOf [1, 1, 1, 255, 2, 2, 2, 255, 1, 1, 1, 255]) 3 1 .FULL 128).right
        - (getImageBorders (bufferOf [1, 1, 1, 255, 2, 2, 2, 255, 1, 1, 1, 255]) 3 1
            .FULL 128).left + 1 ∧
    ¬ (getImageBorders (bufferOf [1, 1, 1, 255, 2, 2, 2, 255, 1, 1, 1, 255]) 3 1 .FULL 128).left
        + (getImageBorders (bufferOf [1, 1, 1, 255, 2, 2, 2, 255, 1, 1, 1, 255]) 3 1
            .FULL 128).width ≤ 3 := by
  decide

/-! ## Autocrop of animations -/

set_option maxRecDepth 100000 in
/-- C27. Evaluation of the encoding loop in automatic autocrop mode on two mip
levels of two frames: at level 1, processed first, the frames are 1x1 and 2x1
and disagree; at level 0 both frames are 5x1. Level 1 falls back to per-frame
cropping, and so does level 0, whose frames agree: frame 0 is cropped with its
own box (columns 1..2) and frame 1 with its own box (columns 2..3), not with
the shared box of the two (columns 1..3). -/
theorem saveSprayTrace_fallback_persists :
    ∃ small wide first second : List Nat,
      small = [1, 1, 1, 255] ∧ wide = [1, 1, 1, 255, 2, 2, 2, 255] ∧
      first = [1, 1, 1, 255, 2, 2, 2, 255, 2, 2, 2, 255, 1, 1, 1, 255, 1, 1, 1, 255] ∧
      second = [1, 1, 1, 255, 1, 1, 1, 255, 2, 2, 2, 255, 2, 2, 2, 255, 1, 1, 1, 255] ∧
      saveSprayTrace RGBA8888 5 1 2 2 AutocropMode.AUTOMATIC 128
          (fun m f =>
            if m = 1 then (if f = 0 then imageOf small 1 1 else imageOf wide 2 1)
            else (if f = 0 then imageOf first 5 1 else imageOf second 5 1)) =
        [⟨1, 0, 2, 1, Crop.individual ⟨0, 0, 0, 0, 1, 1⟩⟩,
         ⟨1, 1, 2, 1, Crop.individual ⟨0, 1, 0, 0, 2, 1⟩⟩,
         ⟨0, 0, 5, 1, Crop.individual ⟨1, 2, 0, 0, 2, 1⟩⟩,
         ⟨0, 1, 5, 1, Crop.individual ⟨2, 3, 0, 0, 2, 1⟩⟩] ∧
      (boundingBoxLoop (fun f => if f = 0 then imageOf first 5 1 else imageOf second 5 1)
          PixelAlphaMode.FULL 128 false 2 0 0 0 (BoundingBox.mk 4294967295 0 4294967295 0 0 0)).1
        = true :=
  ⟨[1, 1, 1, 255], [1, 1, 1, 255, 2, 2, 2, 255],
    [1, 1, 1, 255, 2, 2, 2, 255, 2, 2, 2, 255, 1, 1, 1, 255, 1, 1, 1, 255],
    [1, 1, 1, 255, 1, 1, 1, 255, 2, 2, 2, 255, 2, 2, 2, 255, 1, 1, 1, 255],
    rfl, rfl, rfl, rfl, by decide⟩

set_option maxRecDepth 100000 in
/-- C29. Evaluation of the bounded autocrop on one level of two 8x1 frames whose
content sits in columns 1..2 and in columns 5..6: the frames have the boxes
left 1, right 2, width 2 and left 5, right 6, width 2; both frames are cropped
with the shared box left 1, right 6, width 2, so the crop rectangle is the
columns 1 and 2 and leaves out the content of the second frame. -/
theorem shared_crop_cuts_content :
    ∃ first second : List Nat,
      first = [1, 1, 1, 255, 2, 2, 2, 255, 2, 2, 2, 255, 1, 1, 1, 255,
        1, 1, 1, 255, 1, 1, 1, 255, 1, 1, 1, 255, 1, 1, 1, 255] ∧
      second = [1, 1, 1, 255, 1, 1, 1, 255, 1, 1, 1, 255, 1, 1, 1, 255,
        1, 1, 1, 255, 2, 2, 2, 255, 2, 2, 2, 255, 1, 1, 1, 255] ∧
      getImageBorders (bufferOf first) 8 1 PixelAlphaMode.FULL 128 = ⟨1, 2, 0, 0, 2, 1⟩ ∧
      getImageBorders (bufferOf second) 8 1 PixelAlphaMode.FULL 128 = ⟨5, 6, 0, 0, 2, 1⟩ ∧
      accumulateBoxes [getImageBorders (bufferOf first) 8 1 PixelAlphaMode.FULL 128,
          getImageBorders (bufferOf second) 8 1 PixelAlphaMode.FULL 128]
        = ⟨1, 6, 0, 0, 2, 1⟩ ∧
      saveSprayTrace RGBA8888 8 1 1 2 AutocropMode.BOUNDINGBOX 128
          (fun _ f => if f = 0 then imageOf first 8 1 else imageOf second 8 1) =
        [⟨0, 0, 8, 1, Crop.shared ⟨1, 6, 0, 0, 2, 1⟩⟩,
         ⟨0, 1, 8, 1, Crop.shared ⟨1, 6, 0, 0, 2, 1⟩⟩] ∧
      ¬ (getImageBorders (bufferOf second) 8 1 PixelAlphaMode.FULL 128).right < 1 + 2 :=
  ⟨[1, 1, 1, 255, 2, 2, 2, 255, 2, 2, 2, 255, 1, 1, 1, 255,
      1, 1, 1, 255, 1, 1, 1, 255, 1, 1, 1, 255, 1, 1, 1, 255],
    [1, 1, 1, 255, 1, 1, 1, 255, 1, 1, 1, 255, 1, 1, 1, 255,
      1, 1, 1, 255, 2, 2, 2, 255, 2, 2, 2, 255, 1, 1, 1, 255],
    rfl, rfl, by decide⟩

/-! ## Order of the encoded frames -/

/-- The level, frame and level size of an encoded frame. -/
theorem emitFrames_keys (getImage : Nat → Image) (mode : PixelAlphaMode) (th : Int)
    (flags : AutocropFlags) (bb : BoundingBox) (mipmap mw mh : Nat) : ∀ n,
    (emitFrames getImage mode th flags bb mipmap mw mh n).map
        (fun e => (e.mipmap, e.frame, e.mipWidth, e.mipHeight)) =
      (List.range n).map (fun f => (mipmap, f, mw, mh)) := by
  intro n
  induction n with
  | zero => rfl
  | succ n ih =>
    simp only [emitFrames, List.map_append, ih, List.range_succ, List.map_cons, List.map_nil]

theorem emitMips_keys_length (getImage : Nat → Nat → Image) (mode : PixelAlphaMode) (th : Int)
    (width height frames : Nat) : ∀ n flags,
    ((emitMips getImage mode th width height frames n flags).map
        (fun e => (e.mipmap, e.frame, e.mipWidth, e.mipHeight))).length = n * frames := by
  intro n
  induction n with
  | zero => intro flags; simp [emitMips]
  | succ n ih =>
    intro flags
    simp only [emitMips, List.map_append, List.length_append, emitFrames_keys, ih,
      List.length_map, List.length_range]
    rw [Nat.succ_mul]
    omega

theorem emitMips_keys_get (getImage : Nat → Nat → Image) (mode : PixelAlphaMode) (th : Int)
    (width height frames : Nat) : ∀ n flags i, i < n * frames →
    ((emitMips getImage mode th width height frames n flags).map
        (fun e => (e.mipmap, e.frame, e.mipWidth, e.mipHeight)))[i]? =
      some (n - 1 - i / frames, i % frames, max 1 (shr32 width (n - 1 - i / frames)),
        max 1 (shr32 height (n - 1 - i / frames))) := by
  intro n
  induction n with
  | zero => intro flags i hi; simp at hi
  | succ n ih =>
    intro flags i hi
    have hf : 0 < frames := by
      rcases Nat.eq_zero_or_pos frames with h0 | h0
      · subst h0; simp at hi
      · exact h0
    simp only [emitMips, List.map_append, emitFrames_keys]
    by_cases hlt : i < frames
    · rw [List.getElem?_append_left (by simpa using hlt)]
      rw [List.getElem?_map, List.getElem?_range hlt]
      simp [Nat.div_eq_of_lt hlt, Nat.mod_eq_of_lt hlt]
    · have hge : frames ≤ i := by omega
      rw [List.getElem?_append_right (by simpa using hge)]
      simp only [List.length_map, List.length_range]
      have hi2 : i - frames < n * frames := by
        rw [Nat.succ_mul] at hi
        omega
      rw [ih _ _ hi2]
      have hd : i / frames = (i - frames) / frames + 1 := by
        conv_lhs => rw [show i = (i - frames) + frames by omega]
        exact Nat.add_div_right _ hf
      have hmod : i % frames = (i - frames) % frames := by
        conv_lhs => rw [show i = (i - frames) + frames by omega]
        exact Nat.add_mod_right _ _
      have hq : (i - frames) / frames < n := by
        rw [Nat.div_lt_iff_lt_mul hf]
        exact hi2
      have he : n + 1 - 1 - i / frames = n - 1 - (i - frames) / frames := by omega
      rw [he, hmod]

set_option maxRecDepth 100000 in
/-- C26, as stated, fails: for a 4 x 4 job with 33 mip levels and one frame the
first level emitted, level 32, is computed with a shift by 32 and has the full
size 4 x 4, and the next one, level 31, has size 1 x 1: the level sizes are not
non-decreasing and the first emitted level is not the smallest. -/
theorem saveSprayTrace_order_fails_at_33_levels :
    ((saveSprayTrace A8 4 4 33 1 AutocropMode.NONE 128
        (fun _ _ => imageOf [1, 1, 1, 255] 1 1)).map
          (fun e => (e.mipmap, e.frame, e.mipWidth, e.mipHeight)))[0]? = some (32, 0, 4, 4) ∧
    ((saveSprayTrace A8 4 4 33 1 AutocropMode.NONE 128
        (fun _ _ => imageOf [1, 1, 1, 255] 1 1)).map
          (fun e => (e.mipmap, e.frame, e.mipWidth, e.mipHeight)))[1]? = some (31, 0, 1, 1) := by
  decide

/-- C26, amended. For every width, height, mipmaps and frames of at least 1
with `mipmaps <= 32` (and every format, autocrop mode, threshold and source
images), the encoding loop of `saveSpray` emits `mipmaps * frames` frames; the
frame at position `i` of the output is frame `i % frames` of level
`mipmaps - 1 - i / frames` with the level size
`max(1, width >> m) x max(1, height >> m)`, so levels come in the order
`mipmaps-1, ..., 0` and frames in ascending order within a level; the level
sizes are non-decreasing along the output, the first emitted frame is frame 0
of the smallest level `mipmaps - 1` and the last is frame `frames - 1` of level
0 with the full size `width x height`. -/
theorem saveSprayTrace_order (format : ImageFormat) (width height mipmaps frames : Nat)
    (autocropMode : AutocropMode) (alphaThreshold : Int) (getImage : Nat → Nat → Image)
    (hw : 1 ≤ width) (hh : 1 ≤ height) (hm : 1 ≤ mipmaps) (hf : 1 ≤ frames)
    (hm32 : mipmaps ≤ 32) :
    ((saveSprayTrace format width height mipmaps frames autocropMode alphaThreshold
        getImage).map (fun e => (e.mipmap, e.frame, e.mipWidth, e.mipHeight))).length
      = mipmaps * frames ∧
    (∀ i, i < mipmaps * frames →
      ((saveSprayTrace format width height mipmaps frames autocropMode alphaThreshold
          getImage).map (fun e => (e.mipmap, e.frame, e.mipWidth, e.mipHeight)))[i]? =
        some (mipmaps - 1 - i / frames, i % frames,
          max 1 (width >>> (mipmaps - 1 - i / frames)),
          max 1 (height >>> (mipmaps - 1 - i / frames)))) ∧
    (∀ (i j : Nat) (a b : Emitted), i ≤ j →
      (saveSprayTrace format width height mipmaps frames autocropMode alphaThreshold
          getImage)[i]? = some a →
      (saveSprayTrace format width height mipmaps frames autocropMode alphaThreshold
          getImage)[j]? = some b →
      b.mipmap ≤ a.mipmap ∧ (a.mipmap = b.mipmap → a.frame ≤ b.frame) ∧
        a.mipWidth ≤ b.mipWidth ∧ a.mipHeight ≤ b.mipHeight) ∧
    ((saveSprayTrace format width height mipmaps frames autocropMode alphaThreshold
        getImage).map (fun e => (e.mipmap, e.frame, e.mipWidth, e.mipHeight)))[0]? =
      some (mipmaps - 1, 0, max 1 (width >>> (mipmaps - 1)), max 1 (height >>> (mipmaps - 1))) ∧
    ((saveSprayTrace format width height mipmaps frames autocropMode alphaThreshold
        getImage).map (fun e => (e.mipmap, e.frame, e.mipWidth, e.mipHeight)))[
          mipmaps * frames - 1]? = some (0, frames - 1, width, height) := by
  have hget : ∀ i, i < mipmaps * frames →
      ((emitMips getImage (saveSprayPixelAlphaMode format) alphaThreshold width height frames
          mipmaps (autocropFlags autocropMode)).map
            (fun e => (e.mipmap, e.frame, e.mipWidth, e.mipHeight)))[i]? =
        some (mipmaps - 1 - i / frames, i % frames,
          max 1 (width >>> (mipmaps - 1 - i / frames)),
          max 1 (height >>> (mipmaps - 1 - i / frames))) := by
    intro i hi
    have hlev : mipmaps - 1 - i / frames < 32 :=
      lt_of_le_of_lt (Nat.sub_le _ _) (by omega)
    rw [emitMips_keys_get getImage (saveSprayPixelAlphaMode format) alphaThreshold
      width height frames mipmaps (autocropFlags autocropMode) i hi,
      shr32_of_lt width hlev, shr32_of_lt height hlev]
  have hlen := emitMips_keys_length getImage (saveSprayPixelAlphaMode format) alphaThreshold
    width height frames mipmaps (autocropFlags autocropMode)
  have hpos : 0 < mipmaps * frames := Nat.mul_pos hm hf
  unfold saveSprayTrace
  refine ⟨hlen, hget, ?_, ?_, ?_⟩
  · intro i j a b hij ha hb
    have hj : j < mipmaps * frames := by
      have := (List.getElem?_eq_some.mp hb).1
      rw [List.length_map] at hlen
      omega
    have hi : i < mipmaps * frames := by omega
    have ha2 := hget i hi
    have hb2 := hget j hj
    rw [List.getElem?_map, ha] at ha2
    rw [List.getElem?_map, hb] at hb2
    simp only [Option.map_some', Option.some.injEq, Prod.mk.injEq] at ha2 hb2
    obtain ⟨a1, a2, a3, a4⟩ := ha2
    obtain ⟨b1, b2, b3, b4⟩ := hb2
    have hdiv : i / frames ≤ j / frames := Nat.div_le_div_right hij
    have hjq : j / frames < mipmaps := by
      rw [Nat.div_lt_iff_lt_mul hf]
      exact hj
    have hlev : mipmaps - 1 - j / frames ≤ mipmaps - 1 - i / frames := by omega
    refine ⟨by omega, ?_, ?_, ?_⟩
    · intro hab
      have hq : i / frames = j / frames := by omega
      have h1 := Nat.div_add_mod i frames
      have h2 := Nat.div_add_mod j frames
      rw [hq] at h1
      rw [a2, b2]
      omega
    · rw [a3, b3]
      exact max_le_max (le_refl 1) (by
        rw [Nat.shiftRight_eq_div_pow, Nat.shiftRight_eq_div_pow]
        exact Nat.div_le_div_left (Nat.pow_le_pow_right (by decide) hlev) (Nat.pos_pow_of_pos _ (by decide)))
    · rw [a4, b4]
      exact max_le_max (le_refl 1) (by
        rw [Nat.shiftRight_eq_div_pow, Nat.shiftRight_eq_div_pow]
        exact Nat.div_le_div_left (Nat.pow_le_pow_right (by decide) hlev) (Nat.pos_pow_of_pos _ (by decide)))
  · rw [hget 0 hpos]
    simp
  · rw [hget _ (by omega)]
    have hq : (mipmaps * frames - 1) / frames = mipmaps - 1 := by
      have : mipmaps * frames - 1 = (frames - 1) + (mipmaps - 1) * frames := by
        obtain ⟨m, rfl⟩ : ∃ m, mipmaps = m + 1 := ⟨mipmaps - 1, by omega⟩
        rw [Nat.succ_mul]
        simp only [Nat.add_sub_cancel]
        omega
      rw [this, Nat.add_mul_div_right _ _ (by omega), Nat.div_eq_of_lt (by omega)]
      omega
    have hr : (mipmaps * frames - 1) % frames = frames - 1 := by
      have : mipmaps * frames - 1 = (frames - 1) + (mipmaps - 1) * frames := by
        obtain ⟨m, rfl⟩ : ∃ m, mipmaps = m + 1 := ⟨mipmaps - 1, by omega⟩
        rw [Nat.succ_mul]
        simp only [Nat.add_sub_cancel]
        omega
      rw [this, Nat.add_mul_mod_self_right, Nat.mod_eq_of_lt (by omega)]
    rw [hq, hr]
    simp only [Nat.sub_self, Nat.shiftRight_zero]
    rw [max_eq_right hw, max_eq_right hh]

/-- Witness for C26 amended: a 4x2 job with 3 levels of 2 frames. -/
theorem saveSprayTrace_order_witness :
    (saveSprayTrace DXT1 4 2 3 2 AutocropMode.NONE 128
      (fun _ _ => imageOf [1, 1, 1, 255] 1 1)).map
        (fun e => (e.mipmap, e.frame, e.mipWidth, e.mipHeight)) =
      [(2, 0, 1, 1), (2, 1, 1, 1), (1, 0, 2, 1), (1, 1, 2, 1), (0, 0, 4, 2), (0, 1, 4, 2)] ∧
    ((saveSprayTrace DXT1 4 2 3 2 AutocropMode.NONE 128
      (fun _ _ => imageOf [1, 1, 1, 255] 1 1)).map
        (fun e => (e.mipmap, e.frame, e.mipWidth, e.mipHeight)))[3 * 2 - 1]? =
      some (0, 2 - 1, 4, 2) :=
  ⟨by decide, (saveSprayTrace_order DXT1 4 2 3 2 AutocropMode.NONE 128
    (fun _ _ => imageOf [1, 1, 1, 255] 1 1) (by decide) (by decide) (by decide)
    (by decide) (by decide)).2.2.2.2⟩

/-! ## Effective pixel keys -/

theorem pack_rgb (r g b : Nat) (hr : r < 256) (hg : g < 256) :
    ((r <<< 0) ||| (g <<< 8)) ||| (b <<< 16) = r + 256 * g + 65536 * b := by
  have h1 : (r <<< 0) ||| (g <<< 8) = 2 ^ 8 * g + r := by
    rw [Nat.shiftLeft_zero, Nat.shiftLeft_eq, Nat.or_comm, Nat.mul_comm g]
    exact (Nat.mul_add_lt_is_or (by omega) g).symm
  rw [h1, Nat.shiftLeft_eq, Nat.or_comm, Nat.mul_comm b]
  rw [← Nat.mul_add_lt_is_or (by omega) b]
  omega

theorem pack_opaque (x : Nat) (hx : x < 16777216) : x ||| 0xff000000 = x + 4278190080 := by
  have h : (0xff000000 : Nat) = 2 ^ 24 * 255 := by norm_num
  rw [h, Nat.or_comm, ← Nat.mul_add_lt_is_or (by omega) 255]
  omega

theorem pack_alpha (x a : Nat) (hx : x < 16777216) (ha : a < 256) :
    x ||| ((a <<< 24) % U32) = x + 16777216 * a := by
  have hU : U32 = 4294967296 := rfl
  rw [Nat.shiftLeft_eq, Nat.mod_eq_of_lt (by omega), Nat.or_comm, Nat.mul_comm a]
  rw [← Nat.mul_add_lt_is_or (by omega) a]
  omega

/-- The key of a pixel as a number, in terms of its four bytes. -/
theorem getEffectivePixel_eq (ptr : Nat → Nat) (x y width : Nat) (mode : PixelAlphaMode)
    (th : Int) (hr : (readPixel ptr x y width).r < 256) (hg : (readPixel ptr x y width).g < 256)
    (hb : (readPixel ptr x y width).b < 256) (ha : (readPixel ptr x y width).a < 256) :
    getEffectivePixel ptr x y width mode th =
      match mode with
      | .FULL => (readPixel ptr x y width).r + 256 * (readPixel ptr x y width).g
          + 65536 * (readPixel ptr x y width).b + 16777216 * (readPixel ptr x y width).a
      | .THRESHOLD =>
        if ((readPixel ptr x y width).a : Int) < th then 0
        else (readPixel ptr x y width).r + 256 * (readPixel ptr x y width).g
          + 65536 * (readPixel ptr x y width).b + 4278190080
      | _ => (readPixel ptr x y width).r + 256 * (readPixel ptr x y width).g
          + 65536 * (readPixel ptr x y width).b := by
  simp only [readPixel] at hr hg hb ha ⊢
  unfold getEffectivePixel
  simp only []
  rw [pack_rgb _ _ _ hr hg]
  cases mode
  · rfl
  · rfl
  · simp only []
    split
    · rfl
    · exact pack_opaque _ (by omega)
  · exact pack_alpha _ _ (by omega) ha

/-- C23. For any two pixels (of any two buffers, their bytes below 256) and any
threshold: under THRESHOLD, if both alphas are below the threshold the keys are
equal and both 0; if both alphas are at or above the threshold the keys are
equal iff the RGB triples are equal; if one alpha is below and the other at or
above, the keys differ. Under NONE the keys are equal iff the RGB triples are
equal, whatever the alphas. Under FULL the keys are equal iff all four bytes
are equal. -/
theorem getEffectivePixel_keys (ptr1 ptr2 : Nat → Nat) (x1 y1 w1 x2 y2 w2 : Nat) (th : Int)
    (h1 : (readPixel ptr1 x1 y1 w1).r < 256 ∧ (readPixel ptr1 x1 y1 w1).g < 256 ∧
      (readPixel ptr1 x1 y1 w1).b < 256 ∧ (readPixel ptr1 x1 y1 w1).a < 256)
    (h2 : (readPixel ptr2 x2 y2 w2).r < 256 ∧ (readPixel ptr2 x2 y2 w2).g < 256 ∧
      (readPixel ptr2 x2 y2 w2).b < 256 ∧ (readPixel ptr2 x2 y2 w2).a < 256) :
    (((readPixel ptr1 x1 y1 w1).a : Int) < th → ((readPixel ptr2 x2 y2 w2).a : Int) < th →
      getEffectivePixel ptr1 x1 y1 w1 .THRESHOLD th = 0 ∧
      getEffectivePixel ptr2 x2 y2 w2 .THRESHOLD th = 0) ∧
    (th ≤ ((readPixel ptr1 x1 y1 w1).a : Int) → th ≤ ((readPixel ptr2 x2 y2 w2).a : Int) →
      (getEffectivePixel ptr1 x1 y1 w1 .THRESHOLD th =
          getEffectivePixel ptr2 x2 y2 w2 .THRESHOLD th ↔
        (readPixel ptr1 x1 y1 w1).r = (readPixel ptr2 x2 y2 w2).r ∧
        (readPixel ptr1 x1 y1 w1).g = (readPixel ptr2 x2 y2 w2).g ∧
        (readPixel ptr1 x1 y1 w1).b = (readPixel ptr2 x2 y2 w2).b)) ∧
    (((readPixel ptr1 x1 y1 w1).a : Int) < th → th ≤ ((readPixel ptr2 x2 y2 w2).a : Int) →
      getEffectivePixel ptr1 x1 y1 w1 .THRESHOLD th ≠
        getEffectivePixel ptr2 x2 y2 w2 .THRESHOLD th) ∧
    (getEffectivePixel ptr1 x1 y1 w1 .NONE th = getEffectivePixel ptr2 x2 y2 w2 .NONE th ↔
      (readPixel ptr1 x1 y1 w1).r = (readPixel ptr2 x2 y2 w2).r ∧
      (readPixel ptr1 x1 y1 w1).g = (readPixel ptr2 x2 y2 w2).g ∧
      (readPixel ptr1 x1 y1 w1).b = (readPixel ptr2 x2 y2 w2).b) ∧
    (getEffectivePixel ptr1 x1 y1 w1 .FULL th = getEffectivePixel ptr2 x2 y2 w2 .FULL th ↔
      (readPixel ptr1 x1 y1 w1).r = (readPixel ptr2 x2 y2 w2).r ∧
      (readPixel ptr1 x1 y1 w1).g = (readPixel ptr2 x2 y2 w2).g ∧
      (readPixel ptr1 x1 y1 w1).b = (readPixel ptr2 x2 y2 w2).b ∧
      (readPixel ptr1 x1 y1 w1).a = (readPixel ptr2 x2 y2 w2).a) := by
  obtain ⟨r1, g1, b1, a1⟩ := h1
  obtain ⟨r2, g2, b2, a2⟩ := h2
  have e1 := fun mode => getEffectivePixel_eq ptr1 x1 y1 w1 mode th r1 g1 b1 a1
  have e2 := fun mode => getEffectivePixel_eq ptr2 x2 y2 w2 mode th r2 g2 b2 a2
  rw [e1 .THRESHOLD, e2 .THRESHOLD, e1 .NONE, e2 .NONE, e1 .FULL, e2 .FULL]
  simp only []
  refine ⟨?_, ?_, ?_, ?_, ?_⟩
  · intro ha hb
    rw [if_pos ha, if_pos hb]
    exact ⟨rfl, rfl⟩
  · intro ha hb
    rw [if_neg (by omega), if_neg (by omega)]
    omega
  · intro ha hb
    rw [if_pos ha, if_neg (by omega)]
    omega
  · omega
  · omega

/-- Witness for C23: an opaque red pixel and a half-transparent red pixel, at
threshold 100. -/
theorem getEffectivePixel_keys_witness :
    getEffectivePixel (bufferOf [255, 0, 0, 255]) 0 0 1 .THRESHOLD 100 =
        getEffectivePixel (bufferOf [255, 0, 0, 128]) 0 0 1 .THRESHOLD 100 ∧
    getEffectivePixel (bufferOf [255, 0, 0, 255]) 0 0 1 .FULL 100 ≠
        getEffectivePixel (bufferOf [255, 0, 0, 128]) 0 0 1 .FULL 100 := by
  have h := getEffectivePixel_keys (bufferOf [255, 0, 0, 255]) (bufferOf [255, 0, 0, 128])
    0 0 1 0 0 1 100 (by decide) (by decide)
  refine ⟨(h.2.1 (by decide) (by decide)).mpr (by decide), ?_⟩
  intro hne
  exact absurd (h.2.2.2.2.mp hne).2.2.2 (by decide)

/-! ## Tightness of the detected borders -/

theorem cell_offset {x y width height : Nat} (hx : x < width) (hy : y < height)
    (hfit : 4 * width * height ≤ U32) :
    (x * 4 + y * width * 4) % U32 = 4 * (x + y * width) := by
  have h1 : y * width + width ≤ height * width := by
    have := Nat.mul_le_mul_right width (Nat.succ_le_of_lt hy)
    rw [Nat.succ_mul] at this
    exact this
  have h2 : 4 * width * height = 4 * (height * width) := by ring
  rw [Nat.mod_eq_of_lt (by omega)]
  ring

theorem cell_div {x width : Nat} (y : Nat) (hx : x < width) : (x + y * width) / width = y := by
  rw [Nat.add_mul_div_right _ _ (by omega), Nat.div_eq_of_lt hx, Nat.zero_add]

theorem cell_mod {x width : Nat} (y : Nat) (hx : x < width) : (x + y * width) % width = x := by
  rw [Nat.add_mul_mod_self_right, Nat.mod_eq_of_lt hx]

theorem readPixel_at (ptr : Nat → Nat) {x y width k : Nat}
    (hoff : (x * 4 + y * width * 4) % U32 = 4 * k) : readPixel ptr x y width = pixelAt ptr k := by
  simp only [readPixel, pixelAt, hoff]

theorem word_bytes (r g b a : Nat) (hr : r < 256) (hg : g < 256) (hb : b < 256) (ha : a < 256)
    (c : Nat) (hc : c < 4) :
    ((r + 256 * g + 65536 * b + 16777216 * a) >>> (c * 8)) % 256
      = (ColorQuad.mk r g b a).byte c := by
  have h : c = 0 ∨ c = 1 ∨ c = 2 ∨ c = 3 := by omega
  rcases h with h | h | h | h <;> subst h <;>
    simp only [ColorQuad.byte, Nat.shiftRight_eq_div_pow] <;> norm_num <;> omega

/-- One call of `replaceEffectivePixel` under THRESHOLD rewrites the cell of
its pixel to the fixed pixel and leaves the other bytes alone. -/
theorem replaceEffectivePixel_at (bgRed bgGreen bgBlue : Nat) (ptr : Nat → Nat)
    {x y width k : Nat} (th : Int) (hoff : (x * 4 + y * width * 4) % U32 = 4 * k)
    (hbg : bgRed < 256 ∧ bgGreen < 256 ∧ bgBlue < 256) (hbytes : ∀ i, ptr i < 256) (i : Nat) :
    replaceEffectivePixel bgRed bgGreen bgBlue ptr x y width PixelAlphaMode.THRESHOLD th i =
      if i / 4 = k then (fixedPixel bgRed bgGreen bgBlue th (pixelAt ptr k)).byte (i % 4)
      else ptr i := by
  have hU : U32 = 4294967296 := rfl
  obtain ⟨hR, hG, hB⟩ := hbg
  have h0 := hbytes (4 * k)
  have h1 := hbytes (4 * k + 1)
  have h2 := hbytes (4 * k + 2)
  unfold replaceEffectivePixel
  simp only [hoff]
  by_cases hik : i / 4 = k
  · have hin : 4 * k ≤ i ∧ i < 4 * k + 4 := by omega
    have hc : i - 4 * k = i % 4 := by omega
    rw [if_pos hin, if_pos hik, hc]
    rw [pack_rgb _ _ _ h0 h1, pack_rgb _ _ _ hR hG]
    unfold fixedPixel pixelAt
    simp only []
    by_cases hth : ((ptr (4 * k + 3) : Nat) : Int) < th
    · rw [if_pos hth, if_pos hth,
        Nat.mod_eq_of_lt (show bgRed + 256 * bgGreen + 65536 * bgBlue < U32 by omega)]
      have := word_bytes bgRed bgGreen bgBlue 0 hR hG hB (by omega) (i % 4)
        (Nat.mod_lt _ (by omega))
      simpa using this
    · rw [if_neg hth, if_neg hth, pack_opaque _ (by omega)]
      exact word_bytes _ _ _ 255 h0 h1 h2 (by omega) (i % 4) (Nat.mod_lt _ (by omega))
  · have hout : ¬ (4 * k ≤ i ∧ i < 4 * k + 4) := by omega
    rw [if_neg hout, if_neg hik]

theorem replaceEffectivePixel_lt (bgRed bgGreen bgBlue : Nat) (ptr : Nat → Nat)
    (x y width : Nat) (mode : PixelAlphaMode) (th : Int) (hbytes : ∀ i, ptr i < 256) (i : Nat) :
    replaceEffectivePixel bgRed bgGreen bgBlue ptr x y width mode th i < 256 := by
  simp only [replaceEffectivePixel]
  split
  · exact Nat.mod_lt _ (by omega)
  · exact hbytes i

theorem fixColumn_lt (bgRed bgGreen bgBlue x width : Nat) (th : Int) (ptr : Nat → Nat)
    (hbytes : ∀ i, ptr i < 256) : ∀ n i,
    fixColumn bgRed bgGreen bgBlue x width th n ptr i < 256 := by
  intro n
  induction n with
  | zero => exact hbytes
  | succ n ih => exact replaceEffectivePixel_lt _ _ _ _ _ _ _ _ _ ih

theorem fixColumns_lt (bgRed bgGreen bgBlue width height : Nat) (th : Int) (ptr : Nat → Nat)
    (hbytes : ∀ i, ptr i < 256) : ∀ n i,
    fixColumns bgRed bgGreen bgBlue width height th n ptr i < 256 := by
  intro n
  induction n with
  | zero => exact hbytes
  | succ n ih => exact fixColumn_lt _ _ _ _ _ _ _ ih _

theorem pixelAt_congr {p q : Nat → Nat} {k : Nat} (h : ∀ i, i / 4 = k → p i = q i) :
    pixelAt p k = pixelAt q k := by
  unfold pixelAt
  rw [h (4 * k) (by omega), h (4 * k + 1) (by omega), h (4 * k + 2) (by omega),
    h (4 * k + 3) (by omega)]

theorem pixelAt_bytes {p : Nat → Nat} {k : Nat} {q : ColorQuad}
    (h : ∀ i, i / 4 = k → p i = q.byte (i % 4)) : pixelAt p k = q := by
  unfold pixelAt
  rw [h (4 * k) (by omega), h (4 * k + 1) (by omega), h (4 * k + 2) (by omega),
    h (4 * k + 3) (by omega)]
  have e0 : 4 * k % 4 = 0 := by omega
  have e1 : (4 * k + 1) % 4 = 1 := by omega
  have e2 : (4 * k + 2) % 4 = 2 := by omega
  have e3 : (4 * k + 3) % 4 = 3 := by omega
  rw [e0, e1, e2, e3]
  rfl

/-- The buffer after `n` passes of the inner loop at column `x`. -/
theorem fixColumn_apply (bgRed bgGreen bgBlue : Nat) {x width height : Nat} (th : Int)
    (ptr : Nat → Nat) (hx : x < width) (hfit : 4 * width * height ≤ U32)
    (hbg : bgRed < 256 ∧ bgGreen < 256 ∧ bgBlue < 256) (hbytes : ∀ i, ptr i < 256) :
    ∀ n, n ≤ height → ∀ i,
      fixColumn bgRed bgGreen bgBlue x width th n ptr i =
        if (i / 4) % width = x ∧ (i / 4) / width < n then
          (fixedPixel bgRed bgGreen bgBlue th (pixelAt ptr (i / 4))).byte (i % 4)
        else ptr i := by
  intro n
  induction n with
  | zero =>
    intro _ i
    simp [fixColumn]
  | succ n ih =>
    intro hn i
    have ih := ih (by omega)
    have hoff := cell_offset hx (show n < height by omega) hfit
    simp only [fixColumn]
    rw [replaceEffectivePixel_at bgRed bgGreen bgBlue _ th hoff hbg
      (fixColumn_lt _ _ _ _ _ _ _ hbytes n) i]
    have hkd := cell_div n hx
    have hkm := cell_mod n hx
    by_cases hik : i / 4 = x + n * width
    · rw [if_pos hik, if_pos (by rw [hik, hkd, hkm]; exact ⟨rfl, Nat.lt_succ_self _⟩), hik]
      congr 2
      apply pixelAt_congr
      intro j hj
      rw [ih j, if_neg (by rw [hj, hkd]; omega)]
    · rw [if_neg hik, ih i]
      by_cases hc : (i / 4) % width = x ∧ (i / 4) / width < n
      · rw [if_pos hc, if_pos ⟨hc.1, by omega⟩]
      · rw [if_neg hc, if_neg]
        rintro ⟨h1, h2⟩
        have hq : (i / 4) / width = n := by omega
        have := Nat.mod_add_div (i / 4) width
        rw [h1, hq, Nat.mul_comm] at this
        exact hik this.symm

/-- The buffer after `n` passes of the outer loop. -/
theorem fixColumns_apply (bgRed bgGreen bgBlue : Nat) {width height : Nat} (th : Int)
    (ptr : Nat → Nat) (hfit : 4 * width * height ≤ U32)
    (hbg : bgRed < 256 ∧ bgGreen < 256 ∧ bgBlue < 256) (hbytes : ∀ i, ptr i < 256) :
    ∀ n, n ≤ width → ∀ i,
      fixColumns bgRed bgGreen bgBlue width height th n ptr i =
        if (i / 4) % width < n ∧ (i / 4) / width < height then
          (fixedPixel bgRed bgGreen bgBlue th (pixelAt ptr (i / 4))).byte (i % 4)
        else ptr i := by
  intro n
  induction n with
  | zero =>
    intro _ i
    simp [fixColumns]
  | succ n ih =>
    intro hn i
    have ih := ih (by omega)
    simp only [fixColumns]
    rw [fixColumn_apply bgRed bgGreen bgBlue th _ (show n < width by omega) hfit hbg
      (fixColumns_lt _ _ _ _ _ _ _ hbytes n) height (le_refl _) i]
    by_cases hc : (i / 4) % width = n ∧ (i / 4) / width < height
    · rw [if_pos hc, if_pos ⟨by omega, hc.2⟩]
      congr 2
      apply pixelAt_congr
      intro j hj
      rw [ih j, if_neg (by rw [hj]; omega)]
    · rw [if_neg hc, ih i]
      by_cases hd : (i / 4) % width < n ∧ (i / 4) / width < height
      · rw [if_pos hd, if_pos ⟨by omega, hd.2⟩]
      · rw [if_neg hd, if_neg]
        rintro ⟨h1, h2⟩
        have : (i / 4) % width = n := by
          by_contra hne
          exact hd ⟨by omega, h2⟩
        exact hc ⟨this, h2⟩

theorem fixedPixel_idem (bgRed bgGreen bgBlue : Nat) (th : Int) (p : ColorQuad)
    (ha : p.a < 256) :
    fixedPixel bgRed bgGreen bgBlue th (fixedPixel bgRed bgGreen bgBlue th p)
      = fixedPixel bgRed bgGreen bgBlue th p := by
  unfold fixedPixel
  by_cases h : (p.a : Int) < th
  · have h0 : ((0 : Nat) : Int) < th := by omega
    simp only [h, if_true, h0]
  · have h255 : ¬ (((255 : Nat) : Int) < th) := by omega
    simp only [h, if_false, h255]

theorem fixColumns_pixel (bgRed bgGreen bgBlue : Nat) {width height : Nat} (th : Int)
    (ptr : Nat → Nat) (hfit : 4 * width * height ≤ U32)
    (hbg : bgRed < 256 ∧ bgGreen < 256 ∧ bgBlue < 256) (hbytes : ∀ i, ptr i < 256)
    (k : Nat) (hk : k % width < width ∧ k / width < height) :
    pixelAt (fixColumns bgRed bgGreen bgBlue width height th width ptr) k =
      fixedPixel bgRed bgGreen bgBlue th (pixelAt ptr k) := by
  apply pixelAt_bytes
  intro i hi
  rw [fixColumns_apply bgRed bgGreen bgBlue th ptr hfit hbg hbytes width (le_refl _) i, hi,
    if_pos hk]

theorem fixColumns_idem (bgRed bgGreen bgBlue : Nat) {width height : Nat} (th : Int)
    (ptr : Nat → Nat) (hfit : 4 * width * height ≤ U32)
    (hbg : bgRed < 256 ∧ bgGreen < 256 ∧ bgBlue < 256) (hbytes : ∀ i, ptr i < 256) :
    fixColumns bgRed bgGreen bgBlue width height th width
        (fixColumns bgRed bgGreen bgBlue width height th width ptr) =
      fixColumns bgRed bgGreen bgBlue width height th width ptr := by
  funext i
  rw [fixColumns_apply bgRed bgGreen bgBlue th _ hfit hbg
    (fixColumns_lt _ _ _ _ _ _ _ hbytes width) width (le_refl _) i]
  by_cases hc : (i / 4) % width < width ∧ (i / 4) / width < height
  · rw [if_pos hc, fixColumns_pixel bgRed bgGreen bgBlue th ptr hfit hbg hbytes _ hc,
      fixedPixel_idem _ _ _ _ _ (hbytes _),
      fixColumns_apply bgRed bgGreen bgBlue th ptr hfit hbg hbytes width (le_refl _) i,
      if_pos hc]
  · rw [if_neg hc]

theorem multiBit_not_fixed (format : ImageFormat) (h : hasMultiBitAlpha format = true) :
    (hasOneBitAlpha format || hasAlpha format == false) = false := by
  cases format <;> first | rfl | cases h

/-- C25. For every output format with one-bit alpha or no alpha, every
background colour with components in 0..255 and every threshold, on a buffer of
bytes whose `4 * width * height` bytes are addressable in 32 bits, the
transparency fix-up of `saveSpray` maps each pixel `(r, g, b, a)` of the image
to `(bgRed, bgGreen, bgBlue, 0)` when `a < threshold` and to `(r, g, b, 255)`
otherwise; afterwards the alpha of every pixel is 0 or 255, and applying the
fix-up a second time changes nothing. For formats with multi-bit alpha the
fix-up is not applied and the buffer is unchanged. -/
theorem fixTransparency_spec (format : ImageFormat) (bgRed bgGreen bgBlue width height : Nat)
    (th : Int) (ptr : Nat → Nat) (hbg : bgRed < 256 ∧ bgGreen < 256 ∧ bgBlue < 256)
    (hbytes : ∀ i, ptr i < 256) (hfit : 4 * width * height ≤ U32) :
    (hasOneBitAlpha format = true ∨ hasAlpha format = false →
      (∀ x y, x < width → y < height →
        readPixel (fixTransparency format bgRed bgGreen bgBlue width height th ptr) x y width =
          (if ((readPixel ptr x y width).a : Int) < th then
            ColorQuad.mk bgRed bgGreen bgBlue 0
          else ColorQuad.mk (readPixel ptr x y width).r (readPixel ptr x y width).g
            (readPixel ptr x y width).b 255) ∧
        ((readPixel (fixTransparency format bgRed bgGreen bgBlue width height th ptr)
            x y width).a = 0 ∨
          (readPixel (fixTransparency format bgRed bgGreen bgBlue width height th ptr)
            x y width).a = 255)) ∧
      fixTransparency format bgRed bgGreen bgBlue width height th
          (fixTransparency format bgRed bgGreen bgBlue width height th ptr) =
        fixTransparency format bgRed bgGreen bgBlue width height th ptr) ∧
    (hasMultiBitAlpha format = true →
      fixTransparency format bgRed bgGreen bgBlue width height th ptr = ptr) := by
  constructor
  · intro hf
    have hgate : (hasOneBitAlpha format || hasAlpha format == false) = true := by
      rcases hf with h | h <;> simp [h]
    unfold fixTransparency
    simp only [hgate, if_true]
    refine ⟨?_, fixColumns_idem bgRed bgGreen bgBlue th ptr hfit hbg hbytes⟩
    intro x y hx hy
    have hoff := cell_offset hx hy hfit
    have hk : (x + y * width) % width < width ∧ (x + y * width) / width < height := by
      rw [cell_div y hx, cell_mod y hx]
      exact ⟨hx, hy⟩
    have hpix : readPixel (fixColumns bgRed bgGreen bgBlue width height th width ptr) x y width
        = fixedPixel bgRed bgGreen bgBlue th (readPixel ptr x y width) := by
      rw [readPixel_at _ hoff, readPixel_at _ hoff]
      exact fixColumns_pixel bgRed bgGreen bgBlue th ptr hfit hbg hbytes _ hk
    rw [hpix]
    unfold fixedPixel
    refine ⟨rfl, ?_⟩
    split
    · exact Or.inl rfl
    · exact Or.inr rfl
  · intro hm
    unfold fixTransparency
    rw [multiBit_not_fixed format hm]
    rfl

/-- Witness for C25: a 2x1 image written as DXT1 with background (9, 8, 7) at
threshold 128. -/
theorem fixTransparency_spec_witness :
    readPixel (fixTransparency DXT1 9 8 7 2 1 128 (bufferOf [1, 2, 3, 127, 4, 5, 6, 128]))
        0 0 2 = ColorQuad.mk 9 8 7 0 ∧
    readPixel (fixTransparency DXT1 9 8 7 2 1 128 (bufferOf [1, 2, 3, 127, 4, 5, 6, 128]))
        1 0 2 = ColorQuad.mk 4 5 6 255 := by
  have hb : ∀ i, bufferOf [1, 2, 3, 127, 4, 5, 6, 128] i < 256 := by
    intro i
    show [1, 2, 3, 127, 4, 5, 6, 128].getD i 0 < 256
    have h : i < 8 ∨ 8 ≤ i := by omega
    rcases h with h | h
    · interval_cases i <;> decide
    · simp only [List.getD_eq_getElem?_getD]
      rw [List.getElem?_eq_none (by simpa using h)]
      decide
  have h := (fixTransparency_spec DXT1 9 8 7 2 1 128
    (bufferOf [1, 2, 3, 127, 4, 5, 6, 128]) (by decide) hb (by decide)).1
    (Or.inr (by decide))
  exact ⟨(h.1 0 0 (by decide) (by decide)).1, (h.1 1 0 (by decide) (by decide)).1⟩

/-! ## Round trip between size and search -/

theorem bytesPerPixel_pos (format : ImageFormat) (hfmt : format ≠ INVALID)
    (hd : isDxt format = false) : 1 ≤ bytesPerPixel format := by
  cases format <;> first | exact absurd rfl hfmt | decide | cases hd

theorem ceilDiv4_of_dvd {x : Nat} (h : 4 ∣ x) : ceilDiv4 x = x / 4 := by
  obtain ⟨a, rfl⟩ := h
  unfold ceilDiv4
  omega

theorem sum_lt_of_first {g g' : Nat → Nat} (n : Nat) (hle : ∀ m, g m ≤ g' m) (h0 : g 0 < g' 0) :
    ∑ m in Finset.range (n + 1), g m < ∑ m in Finset.range (n + 1), g' m := by
  rw [Finset.sum_range_succ', Finset.sum_range_succ']
  exact Nat.add_lt_add_of_le_of_lt (Finset.sum_le_sum fun m _ => hle (m + 1)) h0

/-- The exact data size of a square image grows strictly with the resolution,
for block formats along the multiples of 4. -/
theorem exactDataSize_strict (format : ImageFormat) (hfmt : format ≠ INVALID)
    {w t mipmaps frames : Nat} (hm : 1 ≤ mipmaps) (hf : 1 ≤ frames) (hw : 1 ≤ w) (hlt : w < t)
    (hd : isDxt format = true → 4 ∣ w ∧ 4 ∣ t) :
    exactDataSize format w w mipmaps frames < exactDataSize format t t mipmaps frames := by
  obtain ⟨n, rfl⟩ : ∃ n, mipmaps = n + 1 := ⟨mipmaps - 1, by omega⟩
  have hmw : max 1 (w >>> 0) = w := by rw [Nat.shiftRight_zero]; exact max_eq_right hw
  have hmt : max 1 (t >>> 0) = t := by rw [Nat.shiftRight_zero]; exact max_eq_right (by omega)
  unfold exactDataSize
  by_cases hdx : isDxt format = true
  · simp only [hdx, if_true]
    unfold exactDxtSize
    have hb : 8 ≤ bytesPerBlock format := by
      rcases isDxt_bytesPerBlock hdx with h8 | h16 <;> omega
    obtain ⟨⟨a, ha⟩, ⟨b, hb4⟩⟩ := hd hdx
    refine Nat.mul_lt_mul_of_pos_left ?_ (by omega)
    refine sum_lt_of_first n (fun m => ?_) ?_
    · exact Nat.mul_le_mul_right _ (Nat.mul_le_mul
        (ceilDiv4_mono (mipDim_mono (le_of_lt hlt) m))
        (ceilDiv4_mono (mipDim_mono (le_of_lt hlt) m)))
    · rw [hmw, hmt, ceilDiv4_of_dvd ⟨a, ha⟩, ceilDiv4_of_dvd ⟨b, hb4⟩]
      have hab : w / 4 < t / 4 := by omega
      have h1 : w / 4 * (w / 4) < t / 4 * (t / 4) := Nat.mul_self_lt_mul_self hab
      exact Nat.mul_lt_mul_of_pos_right h1 (by omega)
  · have hdf : isDxt format = false := by simpa using hdx
    simp only [hdf, Bool.false_eq_true, if_false]
    unfold exactPixelSize
    have hb := bytesPerPixel_pos format hfmt hdf
    refine Nat.mul_lt_mul_of_pos_left ?_ (by omega)
    refine sum_lt_of_first n (fun m => ?_) ?_
    · exact Nat.mul_le_mul_right _ (Nat.mul_le_mul
        (mipDim_mono (le_of_lt hlt) m) (mipDim_mono (le_of_lt hlt) m))
    · rw [hmw, hmt]
      have h1 : w * w < t * t := Nat.mul_self_lt_mul_self hlt
      exact Nat.mul_lt_mul_of_pos_right h1 (by omega)

/-- The candidate after a reachable candidate below a reachable target is not
above the target. -/
theorem next_le_target {step res t : Nat} (powerOfTwo : Bool)
    (hres : if powerOfTwo = true then ∃ a, res = step * 2 ^ a else step ∣ res)
    (ht : if powerOfTwo = true then ∃ b, t = step * 2 ^ b else step ∣ t) (hlt : res < t) :
    (if powerOfTwo = true then 2 * res else res + step) ≤ t ∧
    (if powerOfTwo = true then
        ∃ a, (if powerOfTwo = true then 2 * res else res + step) = step * 2 ^ a
      else step ∣ (if powerOfTwo = true then 2 * res else res + step)) := by
  cases powerOfTwo
  · simp only [Bool.false_eq_true, if_false] at hres ht ⊢
    obtain ⟨a, rfl⟩ := hres
    obtain ⟨b, rfl⟩ := ht
    have hab : a < b := lt_of_mul_lt_mul_left hlt (Nat.zero_le _)
    refine ⟨?_, ⟨a + 1, by ring⟩⟩
    have := Nat.mul_le_mul_left step (Nat.succ_le_of_lt hab)
    rw [Nat.mul_succ] at this
    exact this
  · simp only [if_true] at hres ht ⊢
    obtain ⟨a, rfl⟩ := hres
    obtain ⟨b, rfl⟩ := ht
    have hab : 2 ^ a < 2 ^ b := lt_of_mul_lt_mul_left hlt (Nat.zero_le _)
    have hab2 : a < b := (Nat.pow_lt_pow_iff_right (by decide)).mp hab
    refine ⟨?_, ⟨a + 1, by ring⟩⟩
    have h2 : 2 ^ (a + 1) ≤ 2 ^ b := Nat.pow_le_pow_right (by decide) hab2
    have := Nat.mul_le_mul_left step h2
    rw [pow_succ] at this
    calc 2 * (step * 2 ^ a) = step * (2 ^ a * 2) := by ring
      _ ≤ step * 2 ^ b := this

theorem reach_dvd {step t : Nat} (powerOfTwo : Bool)
    (ht : if powerOfTwo = true then ∃ b, t = step * 2 ^ b else step ∣ t) : step ∣ t := by
  cases powerOfTwo
  · simpa using ht
  · simp only [if_true] at ht
    obtain ⟨b, rfl⟩ := ht
    exact Dvd.intro _ rfl

/-- The search run on the data size of a reachable square resolution stops at
that resolution. -/
theorem getMaxResRun_round_trip (format : ImageFormat) (mipmaps frames step res : Nat)
    (square powerOfTwo : Bool) (hfmt : format ≠ INVALID) (hstep : 1 ≤ step)
    (hdxt : isDxt format = true → step = 4) (hm : 1 ≤ mipmaps) (hf : 1 ≤ frames)
    (hm32 : mipmaps ≤ 32)
    (hreach : if powerOfTwo = true then ∃ k, res = step * 2 ^ k else ∃ k, 1 ≤ k ∧ res = k * step)
    (hres : res ≤ 65535) (hfit : exactDataSize format res res mipmaps frames < U32) :
    ∃ r, getMaxResForTargetSizeRun format mipmaps frames
        (getImageDataSize format res res mipmaps frames) step square powerOfTwo = some r ∧
      r.width = res ∧ r.height = res := by
  have hmax : max 1 step = step := max_eq_right hstep
  have hm0 : mipmaps ≠ 0 := by omega
  have ht : if powerOfTwo = true then ∃ b, res = step * 2 ^ b else step ∣ res := by
    cases powerOfTwo
    · simp only [Bool.false_eq_true, if_false] at hreach ⊢
      obtain ⟨k, _, rfl⟩ := hreach
      exact Dvd.intro_left _ rfl
    · exact hreach
  have hsle : step ≤ res := Nat.le_of_dvd (by
    cases powerOfTwo
    · simp only [Bool.false_eq_true, if_false] at hreach
      obtain ⟨k, hk, rfl⟩ := hreach
      exact Nat.mul_pos (by omega) (by omega)
    · simp only [if_true] at hreach
      obtain ⟨k, rfl⟩ := hreach
      exact Nat.mul_pos (by omega) (Nat.pos_pow_of_pos _ (by decide))) (reach_dvd powerOfTwo ht)
  have hsize : ∀ r, r ≤ res → getImageDataSize format r r mipmaps frames
      = exactDataSize format r r mipmaps frames := fun r hr =>
    getImageDataSize_eq_exact format r r mipmaps frames hm32
      (lt_of_le_of_lt (exactDataSize_mono format hr hr (le_refl _) (le_refl _)) hfit)
  have hstrict : ∀ r, step ≤ r → r < res →
      (if powerOfTwo = true then ∃ a, r = step * 2 ^ a else step ∣ r) →
      getImageDataSize format r r mipmaps frames
        < getImageDataSize format res res mipmaps frames := by
    intro r hsr hr hreachr
    rw [hsize r (le_of_lt hr), hsize res (le_refl _)]
    refine exactDataSize_strict format hfmt hm hf (by omega) hr (fun hd => ?_)
    have h4 := hdxt hd
    have e1 := reach_dvd powerOfTwo hreachr
    have e2 := reach_dvd powerOfTwo ht
    rw [h4] at e1 e2
    exact ⟨e1, e2⟩
  have hrule := getMaxResLoop_rule format frames
    (getImageDataSize format res res mipmaps frames) (max 1 step) square powerOfTwo
    (decide (mipmaps = 0))
    (fun r w h m _ => (1 ≤ max 1 step ∧ max 1 step ≤ r) ∧ (mipmaps ≠ 0 → m = mipmaps) ∧
      r ≤ res ∧ (if powerOfTwo = true then ∃ a, r = step * 2 ^ a else step ∣ r))
    (fun r => r.width = res ∧ r.height = res)
    (fun r w h m c hinv => hinv.1)
    (fun r w h m c hinv hbig => by
      obtain ⟨_, _, hle, _⟩ := hinv
      omega)
    (fun r w h m c hinv hr heq => by
      obtain ⟨⟨_, h2⟩, hmm, hle, hre⟩ := hinv
      rw [loopMips_keep mipmaps m _ hmm hm0] at heq
      rw [hmax] at h2
      rcases Nat.eq_or_lt_of_le hle with he | hl
      · exact ⟨he, he⟩
      · have := hstrict r h2 hl hre
        omega)
    (fun r w h m c hinv hr hgt => by
      obtain ⟨⟨_, h2⟩, hmm, hle, hre⟩ := hinv
      rw [loopMips_keep mipmaps m _ hmm hm0] at hgt
      rw [hmax] at h2
      rcases Nat.eq_or_lt_of_le hle with he | hl
      · rw [he] at hgt
        omega
      · have := hstrict r h2 hl hre
        omega)
    (fun r w h m c hinv hr hlt => by
      obtain ⟨⟨h1, h2⟩, hmm, hle, hre⟩ := hinv
      rw [loopMips_keep mipmaps m _ hmm hm0] at hlt
      have hnext := nextRes_gt powerOfTwo h1 h2 hr
      have hl : r < res := by
        rcases Nat.eq_or_lt_of_le hle with he | hl
        · rw [he] at hlt
          omega
        · exact hl
      have hn := next_le_target powerOfTwo hre ht hl
      refine ⟨⟨h1, by omega⟩, fun _ => loopMips_keep mipmaps m _ hmm hm0, ?_, ?_⟩
      · rw [hnext.2, hmax]
        exact hn.1
      · rw [hnext.2, hmax]
        exact hn.2)
  obtain ⟨r, hr, hp⟩ := hrule 65535 (max 1 step) 0 0 mipmaps []
    (by have := max_one_ge step; omega)
    ⟨⟨max_one_ge step, le_refl _⟩, fun _ => rfl, by rw [hmax]; exact hsle, by
      rw [hmax]
      cases powerOfTwo
      · simp
      · simp only [if_true]
        exact ⟨0, by simp⟩⟩
  exact ⟨r, hr, hp⟩

set_option maxRecDepth 100000 in
/-- C30, as stated, fails: for BGR565 with 33 mip levels, one frame, step 1 and
`powerOfTwo`, the resolution 32768 is reachable and its exact data size,
2863311564, fits in 32 bits; the code shifts by 32 at the last level, adds the
full level a second time and the budget wraps to 715827914, for which the
search stops at the candidate 16384 and does not return 32768 x 32768. -/
theorem getMaxResForTargetSize_round_trip_fails_at_33_levels :
    32768 = 1 * 2 ^ 15 ∧ exactDataSize BGR565 32768 32768 33 1 = 2863311564 ∧
    getImageDataSize BGR565 32768 32768 33 1 = 715827914 ∧
    getMaxResForTargetSize BGR565 33 1 (getImageDataSize BGR565 32768 32768 33 1) 1 false true
      = some (16384, 8192) := by
  decide

/-- C30, amended. Round trip between the size function and the resolution
search: for every format other than INVALID, every step of at least 1 (exactly
4 for a block-compressed format), every mipmap count from 1 to 32 and frame
count of at least 1, both values of `square`, and every resolution `res <= 65535` the search can
reach (`res = k * step` with `k >= 1` when `powerOfTwo` is false,
`res = step * 2^k` when it is true) whose exact data size fits in 32 unsigned
bits, `getMaxResForTargetSize` called with the budget
`getImageDataSize(format, res, res, mipmaps, frames)` returns `(res, res)`. -/
theorem getMaxResForTargetSize_round_trip (format : ImageFormat)
    (mipmaps frames step res : Nat) (square powerOfTwo : Bool) (hfmt : format ≠ INVALID)
    (hstep : 1 ≤ step) (hdxt : isDxt format = true → step = 4) (hm : 1 ≤ mipmaps)
    (hm32 : mipmaps ≤ 32) (hf : 1 ≤ frames)
    (hreach : if powerOfTwo = true then ∃ k, res = step * 2 ^ k else ∃ k, 1 ≤ k ∧ res = k * step)
    (hres : res ≤ 65535) (hfit : exactDataSize format res res mipmaps frames < U32) :
    getMaxResForTargetSize format mipmaps frames
        (getImageDataSize format res res mipmaps frames) step square powerOfTwo
      = some (res, res) := by
  obtain ⟨r, hr, hw, hh⟩ := getMaxResRun_round_trip format mipmaps frames step res square
    powerOfTwo hfmt hstep hdxt hm hf hm32 hreach hres hfit
  rw [getMaxResForTargetSize_of_run hr, hw, hh]

/-- Witness for C30 amended: DXT1 at step 4, 2 mipmaps, 3 frames, resolution 12. -/
theorem getMaxResForTargetSize_round_trip_witness :
    getImageDataSize DXT1 12 12 2 3 = 312 ∧
    getMaxResForTargetSize DXT1 2 3 (getImageDataSize DXT1 12 12 2 3) 4 false false
      = some (12, 12) :=
  ⟨by decide, getMaxResForTargetSize_round_trip DXT1 2 3 4 12 false false (by decide)
    (by decide) (fun _ => rfl) (by decide) (by decide) (by decide) ⟨3, by decide, by decide⟩
    (by decide) (by decide)⟩

/-! ## The floating-point instance -/

/-- The instance `integerFloatOps` at a concrete pixel: the channels 255, 1, 128
and 0 are stored as the floats 2^32, 16843009, 2155905152 and 0, low byte
first. -/
theorem convertPixelFormat_float_sample :
    float32Bits 4294967295 = 0x4f800000 ∧ float32Bits 16843009 = 0x4b808080 ∧
    convertPixelFormat integerFloatOps [⟨255, 1, 128, 0⟩] 1 PIXEL_FMT_A8R8G8B8 RGBA32323232F 0
      = .ok [0, 0, 128, 79, 128, 128, 128, 75, 128, 128, 0, 79, 0, 0, 0, 0] :=
  ⟨by decide, by decide, rfl⟩

end Spraymaker
